import Mathlib

/-!
# a1fs: an extent-based file system (a1fs.c, mkfs.c)

Shallow embedding of the file system driver `a1fs.c` and of the formatting
tool `mkfs.c`.

The image is one flat byte buffer in C.  Here its regions are kept apart:

* `sb`       the superblock record (block 0),
* `dbitmap`  the bytes of the data-block bitmap, indexed by byte number,
* `ibitmap`  the bytes of the inode bitmap, indexed by byte number,
* `itable`   the inode records, indexed by inode number,
* `mem`      the bytes of the image, indexed by the byte offset from
             `fs->image`; every pointer the code forms from a data block
             number (`fs->image + A1FS_BLOCK_SIZE * (s_first_data_block + j)`)
             is such an offset.  Extent records and directory entries are
             decoded from these bytes.

A C `int` is an `Int`, an unsigned quantity a `Nat`; a value is wrapped where
the source narrows it (`int32`) or where an unsigned counter steps below zero
or above its width.  The modification time of an inode is not modelled.
-/

namespace A1fs

/-! ## Constants of `a1fs.h` and of the C library -/

/-- Modelled from the spec: `a1fs.h` is not among the sources.  The block size
is the single fixed constant of the image; with 8-byte extent records it gives
the 512 extents per file that the spec names. -/
abbrev A1FS_BLOCK_SIZE : Nat := 4096

/-- Modelled from the spec: `sizeof(a1fs_extent)`, two 32-bit block numbers
(`start`, `count`); `A1FS_BLOCK_SIZE / sizeof(a1fs_extent) = 512`. -/
abbrev sizeof_a1fs_extent : Nat := 8

/-- Modelled from the spec: `sizeof(a1fs_dentry)`, a 32-bit inode number
followed by a name of at most `A1FS_NAME_MAX` bytes. -/
abbrev sizeof_a1fs_dentry : Nat := 256

/-- Modelled from the spec: the fixed maximum length of a stored name
(the size of the `name` array of a directory entry). -/
abbrev A1FS_NAME_MAX : Nat := 252

/-- Modelled from the spec: the maximum length of a path. -/
abbrev A1FS_PATH_MAX : Nat := 4096

/-- File type bit of a directory (`S_IFDIR`, octal 040000). -/
abbrev S_IFDIR : Nat := 16384

/-- File type bit of a regular file (`S_IFREG`, octal 0100000). -/
abbrev S_IFREG : Nat := 32768

abbrev ENOENT : Int := 2
abbrev ENOTDIR : Int := 20
abbrev ENOSPC : Int := 28
abbrev ENAMETOOLONG : Int := 36
/-- The character `/`. -/
abbrev SLASH : Nat := 47

/-! ## Machine integers -/

/-- Conversion to a 32-bit `int` (two's complement). -/
def int32 (x : Int) : Int := Int.bmod x 4294967296

/-- An unsigned 32-bit counter after `-= 1`: 0 wraps to `UINT_MAX`. -/
def u32_dec (c : Nat) : Nat := if c = 0 then 4294967295 else c - 1

/-- An unsigned 32-bit counter after `+= 1`: `UINT_MAX` wraps to 0. -/
def u32_inc (c : Nat) : Nat := if c = 4294967295 then 0 else c + 1

/-- A 64-bit unsigned value after adding a signed amount (`size += n`). -/
def u64_add (c : Nat) (n : Int) : Nat := (((c : Int) + n) % 18446744073709551616).toNat

/-! ## Data model -/

/-- The superblock (`struct a1fs_superblock`); the magic number is left out. -/
structure a1fs_superblock where
  size : Nat
  dblock_bitmap : Nat
  inode_bitmap : Nat
  inode_table : Nat
  s_first_data_block : Nat
  s_inodes_count : Nat
  data_block_count : Nat
  s_free_blocks_count : Nat
  s_free_inodes_count : Nat

/-- An inode record (`struct a1fs_inode`); `indirect_block` is the data block
holding the extent table, `-1` when there is none. -/
structure a1fs_inode where
  mode : Nat
  links : Nat
  size : Nat
  inode_num : Nat
  indirect_block : Int
  count_extent : Nat

/-- The mounted image (`fs_ctx`, with the image it points to).  The regions of
the image are kept as separate stores: the superblock, the block bitmap (the
bytes from block `dblock_bitmap` on), the inode bitmap (the bytes from block
`inode_bitmap` on), the inode records, and the bytes `mem` addressed by their
offset in the image.  An access that reaches one region through the address of
another one is read from, or written to, the store it is addressed in. -/
structure fs_ctx where
  sb : a1fs_superblock
  dbitmap : Nat → Nat
  ibitmap : Nat → Nat
  itable : Nat → a1fs_inode
  mem : Int → Nat

/-- Pointwise update of a table. -/
def upd {α : Type} (f : Nat → α) (k : Nat) (v : α) : Nat → α :=
  fun x => if x = k then v else f x

/-! ## Bytes of the image -/

/-- Store one byte. -/
def wr8 (m : Int → Nat) (a : Int) (v : Nat) : Int → Nat :=
  fun x => if x = a then v % 256 else m x

/-- Load a little-endian 32-bit word. -/
def rd32 (m : Int → Nat) (a : Int) : Nat :=
  m a + 256 * m (a + 1) + 65536 * m (a + 2) + 16777216 * m (a + 3)

/-- Store a little-endian 32-bit word. -/
def wr32 (m : Int → Nat) (a : Int) (v : Nat) : Int → Nat :=
  fun x =>
    if x = a then v % 256
    else if x = a + 1 then v / 256 % 256
    else if x = a + 2 then v / 65536 % 256
    else if x = a + 3 then v / 16777216 % 256
    else m x

/-- The call `memset(p, 0, n)`. -/
def memset0 (m : Int → Nat) (p : Int) (n : Nat) : Int → Nat :=
  fun x => if p ≤ x ∧ x < p + n then 0 else m x

/-- The call `memcpy(dst, src, n)` inside the image. -/
def memcpy (m : Int → Nat) (dst src : Int) (n : Nat) : Int → Nat :=
  fun x => if dst ≤ x ∧ x < dst + n then m (src + (x - dst)) else m x

/-- The call `memcpy(dst, buf, n)` from a caller's buffer into the image. -/
def memcpy_in (m : Int → Nat) (dst : Int) (buf : Nat → Nat) (n : Nat) : Int → Nat :=
  fun x => if dst ≤ x ∧ x < dst + n then buf (x - dst).toNat % 256 else m x

/-- The call `memcpy(buf, src, n)` from the image into a caller's buffer. -/
def memcpy_out (buf : Nat → Nat) (m : Int → Nat) (src : Int) (n : Nat) : Nat → Nat :=
  fun i => if i < n then m (src + i) else buf i

/-- The test `strcmp(p, name) == 0` for the NUL-terminated string stored at `p`
and a name given by its (non-NUL) characters. -/
def strcmp_eq (m : Int → Nat) (p : Int) : List Nat → Bool
  | [] => m p == 0
  | c :: cs => m p == c && strcmp_eq m (p + 1) cs

/-- The call `strcpy(p, name)`: the characters, then the terminating NUL. -/
def strcpy (m : Int → Nat) (p : Int) : List Nat → (Int → Nat)
  | [] => wr8 m p 0
  | c :: cs => strcpy (wr8 m p c) (p + 1) cs

/-- Address of data block `j`: `A1FS_BLOCK_SIZE * (s_first_data_block + j)`. -/
def block_addr (fs : fs_ctx) (j : Int) : Int :=
  A1FS_BLOCK_SIZE * ((fs.sb.s_first_data_block : Int) + j)

/-- Address of the extent table of an inode. -/
def extent_table (fs : fs_ctx) (inode : a1fs_inode) : Int :=
  block_addr fs inode.indirect_block

/-- Field `start` of the extent record `extent[i]`. -/
def extent_start (fs : fs_ctx) (extent : Int) (i : Int) : Nat :=
  rd32 fs.mem (extent + sizeof_a1fs_extent * i)

/-- Field `count` of the extent record `extent[i]`. -/
def extent_count (fs : fs_ctx) (extent : Int) (i : Int) : Nat :=
  rd32 fs.mem (extent + sizeof_a1fs_extent * i + 4)

/-! ## Bitmaps -/

/-- The function `set_flip_ino_bitmap`. -/
def set_flip_ino_bitmap (ino_number : Nat) (fs : fs_ctx) : fs_ctx :=
  let byte_number := ino_number / 8
  let bit_number := ino_number % 8
  let flip_one := 1 <<< (7 - bit_number)
  { fs with
    ibitmap := upd fs.ibitmap byte_number (fs.ibitmap byte_number ||| flip_one)
    sb := { fs.sb with s_free_inodes_count := u32_dec fs.sb.s_free_inodes_count } }

/-- The function `set_flip_block_bitmap`. -/
def set_flip_block_bitmap (block_number : Nat) (fs : fs_ctx) : fs_ctx :=
  let byte_number := block_number / 8
  let bit_number := block_number % 8
  let flip_one := 1 <<< (7 - bit_number)
  { fs with
    dbitmap := upd fs.dbitmap byte_number (fs.dbitmap byte_number ||| flip_one)
    sb := { fs.sb with s_free_blocks_count := u32_dec fs.sb.s_free_blocks_count } }

/-- The function `unset_flip_inode_bitmap`; `flip_zero` is the `unsigned char`
with every bit but the addressed one set. -/
def unset_flip_inode_bitmap (inode_number : Nat) (fs : fs_ctx) : fs_ctx :=
  let byte_number := inode_number / 8
  let bit_number := inode_number % 8
  let flip_zero := 255 - (1 <<< (7 - bit_number))
  { fs with
    ibitmap := upd fs.ibitmap byte_number (fs.ibitmap byte_number &&& flip_zero)
    sb := { fs.sb with s_free_inodes_count := u32_inc fs.sb.s_free_inodes_count } }

/-- The function `unset_flip_block_bitmap`. -/
def unset_flip_block_bitmap (block_number : Nat) (fs : fs_ctx) : fs_ctx :=
  let byte_number := block_number / 8
  let bit_number := block_number % 8
  let flip_zero := 255 - (1 <<< (7 - bit_number))
  { fs with
    dbitmap := upd fs.dbitmap byte_number (fs.dbitmap byte_number &&& flip_zero)
    sb := { fs.sb with s_free_blocks_count := u32_inc fs.sb.s_free_blocks_count } }

/-- Bit `k` of a bitmap (most significant bit of a byte first). -/
def bitmap_bit (bitmap : Nat → Nat) (k : Nat) : Bool :=
  bitmap (k / 8) &&& (1 <<< (7 - k % 8)) != 0

/-- Number of 1-bits among the first `n` bits of a bitmap. -/
def count_ones (bitmap : Nat → Nat) (n : Nat) : Nat :=
  ((List.range n).filter (fun k => bitmap_bit bitmap k)).length

/-- Number of 0-bits among the first `n` bits of a bitmap. -/
def count_zeros (bitmap : Nat → Nat) (n : Nat) : Nat :=
  ((List.range n).filter (fun k => !bitmap_bit bitmap k)).length

/-! ## Allocation -/

/-- The inner `for` loop of `set_inode` over the bits `j, j+1, ..` of one
bitmap byte (`n` bits are still to be looked at): the first bit that is 0. -/
def set_inode_scan (byte : Nat) : Nat → Nat → Option Nat
  | 0, _ => none
  | n + 1, j =>
    if byte &&& (1 <<< (7 - j)) = 0 then some j else set_inode_scan byte n (j + 1)

/-- The `while (i <= inode_bytes && !found)` loop of `set_inode`.  The body
never changes `i`.  `none`: the loop is still running when the fuel is spent;
`some none`: it ended with `found == false`; `some (some k)`: it ended with
`*ino_num == k`. -/
def set_inode_loop (inode_bitmap : Nat → Nat) (inode_bits : Nat) :
    Nat → Nat → Nat → Option (Option Nat)
  | 0, _, _ => none
  | fuel + 1, i, iterated_bits =>
    let inode_bytes := inode_bits / 8
    if i ≤ inode_bytes then
      let iterate_bit :=
        if i = inode_bytes ∧ inode_bits % 8 ≠ 0 then inode_bits % 8 else 8
      match set_inode_scan (inode_bitmap i) iterate_bit 0 with
      | some j => some (some (iterated_bits + j))
      | none => set_inode_loop inode_bitmap inode_bits fuel i (iterated_bits + iterate_bit)
    else some none

/-- The function `set_inode`, run for at most `fuel` rounds of its `while`
loop.  `none`: no return within the fuel; `some none`: returns `-ENOSPC`;
`some (some (k, fs1))`: returns 0 with `*ino_num == k`. -/
def set_inode (fuel : Nat) (fs : fs_ctx) : Option (Option (Nat × fs_ctx)) :=
  match set_inode_loop fs.ibitmap fs.sb.s_inodes_count fuel 0 0 with
  | none => none
  | some none => some none
  | some (some ino_num) => some (some (ino_num, set_flip_ino_bitmap ino_num fs))

/-- Local variables of `iterate_data_bitmap`: the run being counted
(`start`, `count`) and the best run recorded so far (`extent->start`,
`extent->count`). -/
structure scan_state where
  start : Nat
  count : Nat
  ext_start : Nat
  ext_count : Nat

/-- The inner `for` loop of `iterate_data_bitmap` over the bits `j, j+1, ..`
of one bitmap byte (`n` bits still to do).  `Sum.inl` is the early
`return true` with the extent found. -/
def iterate_byte (byte length iterated_bits : Nat) :
    Nat → Nat → scan_state → Sum (Nat × Nat) scan_state
  | 0, _, st => Sum.inr st
  | n + 1, j, st =>
    if byte &&& (1 <<< (7 - j)) ≠ 0 then
      let st1 : scan_state :=
        if st.count > st.ext_count then
          { st with ext_start := st.start, ext_count := st.count }
        else st
      iterate_byte byte length iterated_bits n (j + 1) { st1 with count := 0 }
    else
      let count := st.count + 1
      let start := if count = 1 then iterated_bits + j else st.start
      if count = length then Sum.inl (start, count)
      else iterate_byte byte length iterated_bits n (j + 1)
        { st with start := start, count := count }

/-- The `while (i <= block_bytes)` loop of `iterate_data_bitmap`
(`n` rounds still to do). -/
def iterate_bytes (dblock_bitmap : Nat → Nat) (length total_blocks : Nat) :
    Nat → Nat → Nat → scan_state → Sum (Nat × Nat) scan_state
  | 0, _, _, st => Sum.inr st
  | n + 1, i, iterated_bits, st =>
    let block_bytes := total_blocks / 8
    let iterate_bit :=
      if i = block_bytes ∧ total_blocks % 8 ≠ 0 then total_blocks % 8 else 8
    match iterate_byte (dblock_bitmap i) length iterated_bits iterate_bit 0 st with
    | Sum.inl e => Sum.inl e
    | Sum.inr st1 =>
      iterate_bytes dblock_bitmap length total_blocks n (i + 1) (iterated_bits + iterate_bit) st1

/-- The function `iterate_data_bitmap`: `some (start, count)` when it returns
true with that extent, `none` when it returns false. -/
def iterate_data_bitmap (dblock_bitmap : Nat → Nat) (length : Nat) (fs : fs_ctx) :
    Option (Nat × Nat) :=
  let total_blocks := fs.sb.data_block_count
  let block_bytes := total_blocks / 8
  match iterate_bytes dblock_bitmap length total_blocks (block_bytes + 1) 0 0 ⟨0, 0, 0, 0⟩ with
  | Sum.inl e => some e
  | Sum.inr st => if st.ext_count = 0 then none else some (st.ext_start, st.ext_count)

/-- The `for` loop of `set_block` over the blocks `i, i+1, ..` of a run
(`n` blocks still to do): mark the block allocated and zero it. -/
def set_block_run : Nat → Nat → fs_ctx → fs_ctx
  | 0, _, fs => fs
  | n + 1, i, fs =>
    let fs1 := set_flip_block_bitmap i fs
    set_block_run n (i + 1)
      { fs1 with mem := memset0 fs1.mem (block_addr fs1 i) A1FS_BLOCK_SIZE }

/-- The `while (num_blocks > 0)` loop of `set_block`.  Every round takes at
least one block off `num_blocks`, so `num_blocks` rounds of fuel are enough. -/
def set_block_loop (ino : Nat) : Nat → Int → fs_ctx → Int × fs_ctx
  | 0, _, fs => (0, fs)
  | fuel + 1, num_blocks, fs =>
    if num_blocks > 0 then
      match iterate_data_bitmap fs.dbitmap num_blocks.toNat fs with
      | none => (ENOSPC, fs)
      | some (start, count) =>
        let fs1 := set_block_run count start fs
        let inode := fs1.itable ino
        let extents := extent_table fs1 inode
        let slot := extents + sizeof_a1fs_extent * (inode.count_extent : Int)
        let fs2 : fs_ctx :=
          { fs1 with
            mem := wr32 (wr32 fs1.mem slot start) (slot + 4) count
            itable := upd fs1.itable ino { inode with count_extent := inode.count_extent + 1 } }
        set_block_loop ino fuel (num_blocks - count) fs2
    else (0, fs)

/-- The function `set_block`: the return value and the image afterwards. -/
def set_block (ino : Nat) (num_blocks : Int) (fs : fs_ctx) : Int × fs_ctx :=
  let inode := fs.itable ino
  if fs.sb.s_free_blocks_count = 0 then (-ENOSPC, fs)
  else if num_blocks > int32 fs.sb.s_free_blocks_count then (-ENOSPC, fs)
  else if inode.count_extent = A1FS_BLOCK_SIZE / sizeof_a1fs_extent then (-ENOSPC, fs)
  else if inode.indirect_block = -1 then
    match iterate_data_bitmap fs.dbitmap 1 fs with
    | none => (ENOSPC, fs)
    | some (start, _) =>
      let fs1 := set_flip_block_bitmap start fs
      let fs2 : fs_ctx :=
        { fs1 with itable := upd fs1.itable ino { inode with indirect_block := start } }
      set_block_loop ino num_blocks.toNat num_blocks fs2
  else set_block_loop ino num_blocks.toNat num_blocks fs

/-- The `for` loop of `unset_block` over the blocks `k, k+1, ..` of an extent
(`n` blocks still to do). -/
def unset_run_up : Nat → Nat → fs_ctx → fs_ctx
  | 0, _, fs => fs
  | n + 1, k, fs => unset_run_up n (k + 1) (unset_flip_block_bitmap k fs)

/-- The `for` loop of `unset_block` that frees the blocks `j - k`, `j - (k+1)`,
.. (`n` blocks still to do). -/
def unset_run_down (j : Int) : Nat → Nat → fs_ctx → fs_ctx
  | 0, _, fs => fs
  | n + 1, k, fs => unset_run_down j n (k + 1) (unset_flip_block_bitmap (j - k).toNat fs)

/-- The `while (num_blocks > 0)` loop of `unset_block`, with `i` and `j` its
local variables.  `none`: the loop is still running when the fuel is spent. -/
def unset_block_loop (ino : Nat) : Nat → Nat → Int → Int → fs_ctx → Option fs_ctx
  | 0, num_blocks, _, _, fs => if num_blocks > 0 then none else some fs
  | fuel + 1, num_blocks, i, j, fs =>
    if num_blocks > 0 then
      let inode := fs.itable ino
      let extent := extent_table fs inode
      let e_start := extent_start fs extent (i - 1)
      let e_count := extent_count fs extent (i - 1)
      if num_blocks = e_count then
        let fs1 := unset_run_up e_count e_start fs
        some { fs1 with
          itable := upd fs1.itable ino { inode with count_extent := u32_dec inode.count_extent } }
      else if num_blocks < e_count then
        let fs1 := unset_run_down j num_blocks 0 fs
        some { fs1 with
          mem := wr32 fs1.mem (extent + sizeof_a1fs_extent * (i - 1) + 4) (e_count - num_blocks) }
      else
        let fs1 := unset_run_up e_count e_start fs
        let count_extent := u32_dec inode.count_extent
        let fs2 : fs_ctx :=
          { fs1 with itable := upd fs1.itable ino { inode with count_extent := count_extent } }
        let i1 := int32 count_extent
        let j1 := int32 ((extent_start fs2 extent (i1 - 1) : Int)
          + extent_count fs2 extent (i1 - 1) - 1)
        unset_block_loop ino fuel (num_blocks - e_count) i1 j1 fs2
    else some fs

/-- The function `unset_block` (it only ever returns 0).  A round of its loop
either ends it or drops the last extent, and takes the length of that extent
off `num_blocks`; a round on an extent of length 0 leaves `num_blocks` as it
is.  `none`: the loop is still running after `count_extent + num_blocks`
rounds, when the extent table has been used up. -/
def unset_block (ino : Nat) (num_blocks : Nat) (fs : fs_ctx) : Option (Int × fs_ctx) :=
  let inode := fs.itable ino
  let extent := extent_table fs inode
  let i := int32 inode.count_extent
  let j := int32 ((extent_start fs extent (i - 1) : Int) + extent_count fs extent (i - 1) - 1)
  match unset_block_loop ino (inode.count_extent + num_blocks) num_blocks i j fs with
  | none => none
  | some fs1 => some (0, fs1)

/-! ## Directories and paths -/

/-- The function `lookup_dentry`.  `none`: it returns `NULL` (and leaves
`*inode_num` alone); `some (p, k)`: it returns the entry at address `p` after
the assignment `*inode_num = dentry->ino`, which stored `k`.  In that
assignment `dentry` points to the first record of the block being scanned. -/
def lookup_dentry (dir : a1fs_inode) (dir_name : List Nat) (fs : fs_ctx) :
    Option (Int × Nat) :=
  let extent := extent_table fs dir
  let size_dir := dir.count_extent
  (List.range size_dir).findSome? fun i =>
    let size_ext := extent_start fs extent i + extent_count fs extent i
    (List.range (extent_count fs extent i)).findSome? fun k =>
      let j := extent_start fs extent i + k
      let dentry := block_addr fs j
      let bound :=
        if i + 1 = size_dir ∧ j + 1 = size_ext then
          dir.size % A1FS_BLOCK_SIZE / sizeof_a1fs_dentry
        else A1FS_BLOCK_SIZE / sizeof_a1fs_dentry
      (List.range bound).findSome? fun dentry_num =>
        let entry := dentry + sizeof_a1fs_dentry * (dentry_num : Int)
        if strcmp_eq fs.mem (entry + 4) dir_name then some (entry, rd32 fs.mem dentry)
        else none

/-- The tokens that repeated `strtok(.., "/")` calls give; `acc` holds the
characters of the token being read. -/
def strtok_aux : List Nat → List Nat → List (List Nat)
  | [], acc => if acc.isEmpty then [] else [acc]
  | c :: cs, acc =>
    if c = SLASH then
      if acc.isEmpty then strtok_aux cs [] else acc :: strtok_aux cs []
    else strtok_aux cs (acc ++ [c])

/-- The `while (dir_name != NULL)` loop of `lookup_inode` over the remaining
tokens, `inode_num` being the inode reached so far. -/
def lookup_walk (fs : fs_ctx) : List (List Nat) → Nat → Except Int Nat
  | [], inode_num => Except.ok inode_num
  | dir_name :: rest, inode_num =>
    let curr_inode := fs.itable inode_num
    if curr_inode.mode &&& S_IFDIR ≠ S_IFDIR then Except.error (-ENOTDIR)
    else
      match lookup_dentry curr_inode dir_name fs with
      | none => Except.error (-ENOENT)
      | some (_, inode_num1) => lookup_walk fs rest inode_num1

/-- The function `lookup_inode`: the error it returns, or (with return value
0) the number of the inode that `*inode` is set to. -/
def lookup_inode (path : List Nat) (fs : fs_ctx) : Except Int Nat :=
  lookup_walk fs (strtok_aux (path.take (A1FS_PATH_MAX - 1)) []) 0

/-- The function `ceiling` (C division truncates towards zero). -/
def ceiling (dividend divider : Int) : Int :=
  if Int.tmod dividend divider = 0 then Int.tdiv dividend divider
  else Int.tdiv dividend divider + 1

/-- Index of the last block of the last extent of an inode, as the code
computes it: `extent[i-1].start + extent[i-1].count - 1` with
`i = inode->count_extent`. -/
def last_block (fs : fs_ctx) (inode : a1fs_inode) : Int :=
  let extent := extent_table fs inode
  let i := int32 inode.count_extent
  int32 ((extent_start fs extent (i - 1) : Int) + extent_count fs extent (i - 1) - 1)

/-- The function `add_dentry`; `dir_parent` and `dir` are inode numbers. -/
def add_dentry (dir_parent : Nat) (parent_name : List Nat) (dir : Nat) (fs : fs_ctx) :
    Int × fs_ctx :=
  let enough_space := (fs.itable dir_parent).size % A1FS_BLOCK_SIZE
  let r := if enough_space = 0 then set_block dir_parent 1 fs else (0, fs)
  if r.1 ≠ 0 then (-ENOSPC, r.2)
  else
    let fs1 := r.2
    let parent := fs1.itable dir_parent
    let j := last_block fs1 parent
    let dentry := block_addr fs1 j + enough_space
    let mem1 := wr32 fs1.mem dentry (fs1.itable dir).inode_num
    let mem2 := strcpy mem1 (dentry + 4) parent_name
    let links := if parent.mode &&& S_IFDIR = S_IFDIR then parent.links + 1 else parent.links
    (0, { fs1 with
          mem := mem2
          itable := upd fs1.itable dir_parent
            { parent with links := links, size := u64_add parent.size sizeof_a1fs_dentry } })

/-- The function `rm_dentry`; `dir` is the address of the entry to remove.
`last_dentry -= lastb` moves a `struct a1fs_dentry *` back by
`sizeof(a1fs_dentry)` records, that is 65536 bytes.  The 256 bytes copied from
there are read from the store `mem`; when that address lies in the inode
table or in a bitmap the code copies the bytes of that region instead.
`none`: `unset_block` did not end. -/
def rm_dentry (dir_parent : Nat) (dir : Int) (fs : fs_ctx) : Option (Int × fs_ctx) :=
  let parent := fs.itable dir_parent
  let enough_space := parent.size % A1FS_BLOCK_SIZE
  let j := last_block fs parent
  let lastb := sizeof_a1fs_dentry
  let last_dentry := block_addr fs j + enough_space - sizeof_a1fs_dentry * (lastb : Int)
  let parent1 := { parent with size := u64_add parent.size (-(sizeof_a1fs_dentry : Int)) }
  let fs1 : fs_ctx :=
    { fs with
      mem := memcpy fs.mem dir last_dentry sizeof_a1fs_dentry
      itable := upd fs.itable dir_parent parent1 }
  if parent1.size % A1FS_BLOCK_SIZE = 0 then
    match unset_block dir_parent 1 fs1 with
    | none => none
    | some r => if r.1 ≠ 0 then some (-1, r.2) else some (0, r.2)
  else some (0, fs1)

/-- Index of the last `/` of a path (the loops `for (i = strlen - 1; ..)` of
the callbacks); `none` when there is none. -/
def last_slash (path : List Nat) : Option Nat :=
  (List.range path.length).reverse.find? fun i => path.getD i 0 = SLASH

/-- The loops `for (i ..) for (j = extent[i].start; ..) unset_flip_inode_bitmap(j)`
of `a1fs_unlink` and `a1fs_rmdir` over the extents of an inode. -/
def unset_extents (inode : a1fs_inode) (fs : fs_ctx) : fs_ctx :=
  let extent := extent_table fs inode
  (List.range inode.count_extent).foldl
    (fun acc i =>
      (List.range (extent_count fs extent i)).foldl
        (fun acc1 k => unset_flip_inode_bitmap (extent_start fs extent i + k) acc1) acc)
    fs

/-! ## The file system callbacks

`none` stands for a run that the model does not follow: a use of a pointer
that was never set (a failed `lookup_inode` or `lookup_dentry` whose result
is used all the same) or a loop that does not end. -/

/-- The inode record that `a1fs_create` (`links = 1`) and `a1fs_mkdir`
(`links = 2`) write. -/
def fresh_inode (ino_num mode links : Nat) : a1fs_inode :=
  { mode := mode, links := links, size := 0, inode_num := ino_num,
    indirect_block := -1, count_extent := 0 }

/-- The function `a1fs_create`; the return value of `add_dentry` is dropped. -/
def a1fs_create (fuel : Nat) (path : List Nat) (mode : Nat) (fs : fs_ctx) :
    Option (Int × fs_ctx) :=
  match set_inode fuel fs with
  | none => none
  | some none => some (-ENOSPC, fs)
  | some (some (ino_num, fs1)) =>
    let fs2 : fs_ctx := { fs1 with itable := upd fs1.itable ino_num (fresh_inode ino_num mode 1) }
    match last_slash path with
    | none => none
    | some i =>
      match lookup_inode (path.take i) fs2 with
      | Except.error _ => none
      | Except.ok parent_ino =>
        some (0, (add_dentry parent_ino (path.drop (i + 1)) ino_num fs2).2)

/-- The function `a1fs_mkdir`; the return value of `add_dentry` is dropped. -/
def a1fs_mkdir (fuel : Nat) (path : List Nat) (mode : Nat) (fs : fs_ctx) :
    Option (Int × fs_ctx) :=
  match set_inode fuel fs with
  | none => none
  | some none => some (-ENOSPC, fs)
  | some (some (ino_num, fs1)) =>
    let fs2 : fs_ctx :=
      { fs1 with itable := upd fs1.itable ino_num (fresh_inode ino_num (mode ||| S_IFDIR) 2) }
    match last_slash path with
    | none => none
    | some i =>
      match lookup_inode (path.take i) fs2 with
      | Except.error _ => none
      | Except.ok dir_parent =>
        some (0, (add_dentry dir_parent (path.drop (i + 1)) ino_num fs2).2)

/-- The function `a1fs_unlink`. -/
def a1fs_unlink (path : List Nat) (fs : fs_ctx) : Option (Int × fs_ctx) :=
  match last_slash path with
  | none => none
  | some i =>
    match lookup_inode (path.take i) fs with
    | Except.error _ => none
    | Except.ok parent_dir =>
      match lookup_dentry (fs.itable parent_dir) (path.drop (i + 1)) fs with
      | none => none
      | some (dentry, _) =>
        let inode := fs.itable (rd32 fs.mem dentry)
        let fs1 := unset_extents inode fs
        let fs2 := unset_flip_inode_bitmap inode.inode_num fs1
        match rm_dentry parent_dir dentry fs2 with
        | none => none
        | some r => if r.1 ≠ 0 then some (-1, r.2) else some (0, r.2)

/-- The variable `remaining` of `extend_file`: the bytes of the last block
that lie past the end of the file. -/
def extend_remaining (inode : a1fs_inode) : Int :=
  let remaining : Int := ((inode.size % A1FS_BLOCK_SIZE : Nat) : Int)
  if remaining ≠ 0 then A1FS_BLOCK_SIZE - remaining else remaining

/-- The block `if (inode->count_extent > 0) { .. memset(dentry, 0, remaining); }`
of `extend_file`. -/
def extend_pad (ino : Nat) (fs : fs_ctx) : fs_ctx :=
  let inode := fs.itable ino
  if inode.count_extent > 0 then
    let enough_space := inode.size % A1FS_BLOCK_SIZE
    let j := last_block fs inode
    { fs with
      mem := memset0 fs.mem (block_addr fs j + enough_space) (extend_remaining inode).toNat }
  else fs

/-- The statement `inode->size += num_bytes`. -/
def inode_add_size (ino : Nat) (num_bytes : Int) (fs : fs_ctx) : fs_ctx :=
  let inode := fs.itable ino
  { fs with itable := upd fs.itable ino { inode with size := u64_add inode.size num_bytes } }

/-- The function `extend_file`; `ino` is the number of the inode. -/
def extend_file (ino : Nat) (num_bytes : Int) (fs : fs_ctx) : Int × fs_ctx :=
  let remaining := extend_remaining (fs.itable ino)
  let fs1 := extend_pad ino fs
  if remaining ≥ num_bytes then (0, inode_add_size ino num_bytes fs1)
  else
    let rest := num_bytes - remaining
    let num_blocks := ceiling rest A1FS_BLOCK_SIZE
    let r := set_block ino num_blocks fs1
    if r.1 ≠ 0 then (-ENOSPC, r.2)
    else (0, inode_add_size ino num_bytes r.2)

/-- The block `if ((uint64_t)size < inode->size) { .. }` of `a1fs_truncate`
and its `return 0`. -/
def truncate_shrink (ino : Nat) (size : Nat) (fs : fs_ctx) : Option (Int × fs_ctx) :=
  let inode := fs.itable ino
  if size < inode.size then
    let over_bytes := int32 ((inode.size : Int) - size)
    let fs1 : fs_ctx := { fs with itable := upd fs.itable ino { inode with size := size } }
    let block_fill_bytes : Int := ((size % A1FS_BLOCK_SIZE : Nat) : Int)
    let num_blocks_deallocate := Int.tdiv (over_bytes - block_fill_bytes) A1FS_BLOCK_SIZE
    if num_blocks_deallocate > 0 then
      match unset_block ino num_blocks_deallocate.toNat fs1 with
      | none => none
      | some r => some (0, r.2)
    else some (0, fs1)
  else some (0, fs)

/-- The body of `a1fs_truncate` once `lookup_inode` has set `inode`; `size`
is the `off_t` argument, which `extend_file` receives as an `int`.  The
second test reads `inode->size` as `extend_file` left it. -/
def truncate_inode (ino : Nat) (size : Nat) (fs : fs_ctx) : Option (Int × fs_ctx) :=
  if size > (fs.itable ino).size then
    let r := extend_file ino (int32 size) fs
    if r.1 ≠ 0 then some (-ENOSPC, r.2) else truncate_shrink ino size r.2
  else truncate_shrink ino size fs

/-- The function `a1fs_truncate`. -/
def a1fs_truncate (path : List Nat) (size : Nat) (fs : fs_ctx) : Option (Int × fs_ctx) :=
  match lookup_inode path fs with
  | Except.error _ => none
  | Except.ok ino => truncate_inode ino size fs

/-- The `for` loop of `lookup_file` (`n` extents still to do, `i` the next
one, `total` the blocks counted so far, `lastb` the pointer set so far;
`none`: not set). -/
def lookup_file_loop (fs : fs_ctx) (extent : Int) (num_block : Int) :
    Nat → Nat → Int → Option Int → Option Int
  | 0, _, _, lastb => lastb
  | n + 1, i, total, _ =>
    let total1 := total + extent_count fs extent i
    if total1 ≥ num_block then
      let count := total1 - num_block
      some (block_addr fs ((extent_start fs extent i : Int) + count))
    else lookup_file_loop fs extent num_block n (i + 1) total1 (some (block_addr fs (-1)))

/-- The function `lookup_file`: the address it returns; `none` when the inode
has no extent, so that `lastb` is never set. -/
def lookup_file (ino : Nat) (num_bytes : Int) (fs : fs_ctx) : Option Int :=
  let inode := fs.itable ino
  let extent := extent_table fs inode
  let remainder := Int.tmod num_bytes A1FS_BLOCK_SIZE
  let num_block : Int :=
    if num_bytes = 0 then 1
    else if remainder = 0 then Int.tdiv num_bytes A1FS_BLOCK_SIZE
    else Int.tdiv num_bytes A1FS_BLOCK_SIZE + 1
  match lookup_file_loop fs extent num_block inode.count_extent 0 0 none with
  | none => none
  | some lastb => some (lastb + remainder)

/-- The function `a1fs_read`: the return value and the caller's buffer
afterwards.  `size - remaining > 0` is a comparison of `size_t` values, and
`memcpy` takes the `int` count `byte_num` as a `size_t`: a negative count is
a copy of `byte_num + 2^64` bytes, after which the negative count is
returned. -/
def a1fs_read (path : List Nat) (buf : Nat → Nat) (size : Nat) (offset : Nat) (fs : fs_ctx) :
    Option (Int × (Nat → Nat)) :=
  match lookup_inode path fs with
  | Except.error _ => none
  | Except.ok ino =>
    let inode := fs.itable ino
    let enough_space := inode.size % A1FS_BLOCK_SIZE
    let j := last_block fs inode
    let lastb := block_addr fs j + enough_space
    match lookup_file ino (int32 offset) fs with
    | none => none
    | some p =>
      let remaining := int32 (lastb - p)
      let byte_num : Int :=
        if ((size : Int) - remaining) % 18446744073709551616 > 0 then remaining
        else int32 size
      some (byte_num, memcpy_out buf fs.mem p (byte_num % 18446744073709551616).toNat)

/-- The function `a1fs_write`: the return value and the image afterwards. -/
def a1fs_write (path : List Nat) (buf : Nat → Nat) (size : Nat) (offset : Nat) (fs : fs_ctx) :
    Option (Int × fs_ctx) :=
  match lookup_inode path fs with
  | Except.error _ => none
  | Except.ok ino =>
    if size = 0 then some (0, fs)
    else
      let r0 := if (fs.itable ino).indirect_block = -1 then set_block ino 0 fs else (0, fs)
      if r0.1 ≠ 0 then some (-ENOSPC, r0.2)
      else
        let fs1 := r0.2
        let size_of_inode := int32 (fs1.itable ino).size
        let hole := decide ((offset : Int) > size_of_inode)
        let total_bytes := int32 ((offset : Int) - (fs1.itable ino).size)
        let r1 := if hole then extend_file ino total_bytes fs1 else (0, fs1)
        if r1.1 ≠ 0 then some (-ENOSPC, r1.2)
        else
          let fs2 := r1.2
          let size_of_inode1 := if hole then int32 (fs2.itable ino).size else size_of_inode
          let rest := int32 (((offset : Int) + size) - size_of_inode1)
          let r2 := if rest > 0 then extend_file ino (int32 size) fs2 else (0, fs2)
          if r2.1 ≠ 0 then some (-ENOSPC, r2.2)
          else
            let fs3 := r2.2
            match lookup_file ino (int32 offset) fs3 with
            | none => none
            | some byte =>
              some (int32 size, { fs3 with mem := memcpy_in fs3.mem byte buf size })

/-! ## Formatting (`mkfs.c`) -/

/-- Conversion to `unsigned int`. -/
def uint32 (x : Int) : Nat := (x % 4294967296).toNat

/-- The function `mkfs` on an image of `size` bytes whose previous content is
`image`, for `n_inodes` inodes.  `sizeof(a1fs_inode)` is in `a1fs.h`, so the
number of inode records in a block is the argument `inodes_per_block`.  The
function has no `return false`.  The block bitmap is read from block
`dblock_bitmap = 1` on: its first `num_dblock_bitmap` blocks are the ones
`memset` clears, and the bytes after them are the bytes of the inode bitmap,
which starts at block `1 + num_dblock_bitmap` (with `num_dblock_bitmap = 0`
the two bitmaps start in the same block). -/
def mkfs (image : fs_ctx) (size n_inodes inodes_per_block : Nat) : Bool × fs_ctx :=
  let total_block := uint32 (size / A1FS_BLOCK_SIZE : Nat)
  let total_inodes := uint32 n_inodes
  let bits_per_block := A1FS_BLOCK_SIZE * 8
  let num_ino_bitmap :=
    total_inodes / bits_per_block + (if total_inodes % bits_per_block ≠ 0 then 1 else 0)
  let num_ino_table :=
    total_inodes / inodes_per_block + (if total_inodes % inodes_per_block ≠ 0 then 1 else 0)
  let num_block_left := uint32 ((total_block : Int) - 1 - num_ino_bitmap - num_ino_table)
  let num_dblock_bitmap0 := int32 (num_block_left / (1 + bits_per_block) : Nat)
  let num_dblock_bitmap : Int :=
    num_dblock_bitmap0 + (if num_block_left % (1 + bits_per_block) > 1 then 1 else 0)
  let num_dblock := uint32 ((num_block_left : Int) - num_dblock_bitmap)
  let free_inodes_count := uint32 ((total_inodes : Int) - 1)
  let free_blocks_count :=
    uint32 ((total_block : Int) - (1 + num_ino_bitmap + num_dblock_bitmap + num_ino_table))
  let sb : a1fs_superblock :=
    { size := size
      dblock_bitmap := 1
      inode_bitmap := uint32 (1 + num_dblock_bitmap)
      inode_table := uint32 (1 + num_dblock_bitmap + num_ino_bitmap)
      s_first_data_block := uint32 (1 + num_dblock_bitmap + num_ino_bitmap + num_ino_table)
      s_inodes_count := total_inodes
      data_block_count := num_dblock
      s_free_blocks_count := free_blocks_count
      s_free_inodes_count := free_inodes_count }
  let ibitmap0 : Nat → Nat := fun k =>
    if k < num_ino_bitmap * A1FS_BLOCK_SIZE then 0 else image.ibitmap k
  let ibitmap : Nat → Nat := upd ibitmap0 0 (1 <<< 7)
  let dbitmap : Nat → Nat := fun k =>
    if (k : Int) < num_dblock_bitmap * A1FS_BLOCK_SIZE then 0
    else ibitmap (k - (num_dblock_bitmap * A1FS_BLOCK_SIZE).toNat)
  let inode_root : a1fs_inode :=
    { mode := S_IFDIR ||| 511, links := 2, size := 0, inode_num := 0,
      count_extent := 0, indirect_block := -1 }
  (true, { sb := sb
           dbitmap := dbitmap
           ibitmap := ibitmap
           itable := upd image.itable 0 inode_root
           mem := image.mem })

deriving instance DecidableEq for Except

/-! ## Concrete images used below -/

/-- An image file of zero bytes, before formatting. -/
def image0 : fs_ctx :=
  { sb := ⟨0, 0, 0, 0, 0, 0, 0, 0, 0⟩
    dbitmap := fun _ => 0
    ibitmap := fun _ => 0
    itable := fun _ => ⟨0, 0, 0, 0, 0, 0⟩
    mem := fun _ => 0 }

/-- The image `image0` of 26 blocks formatted for 960 inodes of 64 bytes:
superblock, one block of each bitmap, 15 blocks of inodes, 8 data blocks. -/
def fs_fresh : fs_ctx := (mkfs image0 (26 * A1FS_BLOCK_SIZE) 960 64).2

/-- The image after a sequence of callbacks, when all of them return. -/
def image_of (r : Option (Int × fs_ctx)) : fs_ctx :=
  match r with
  | some x => x.2
  | none => image0

/-- The path `/a`. -/
def path_a : List Nat := [47, 97]

/-- The path `/b`. -/
def path_b : List Nat := [47, 98]

/-- The path `/c`. -/
def path_c : List Nat := [47, 99]

/-- Mode of a regular file, `S_IFREG | 0644`. -/
def mode_reg : Nat := S_IFREG ||| 420

/-- A caller's buffer holding the letters `A`, `B`, .. -/
def buf_letters : Nat → Nat := fun i => 65 + i % 26

/-- A caller's buffer of zero bytes. -/
def buf_zero : Nat → Nat := fun _ => 0

/-- The image `fs_fresh` after `a1fs_create("/a")`. -/
def fs_a : fs_ctx := image_of (a1fs_create 1 path_a mode_reg fs_fresh)

/-- The image `fs_a` after a write of 10 bytes at offset 0 to `/a`. -/
def fs_a10 : fs_ctx := image_of (a1fs_write path_a buf_letters 10 0 fs_a)

/-- The image `fs_a` after `a1fs_create("/b")`. -/
def fs_ab : fs_ctx := image_of (a1fs_create 1 path_b mode_reg fs_a)

/-- The image `fs_ab` after `a1fs_create("/c")` and a write of 10 bytes at
offset 0 to `/a`. -/
def fs_abc10 : fs_ctx :=
  image_of (a1fs_write path_a buf_letters 10 0 (image_of (a1fs_create 1 path_c mode_reg fs_ab)))

/-! ## Attributes (`a1fs_getattr`) -/

/-- The fields of `struct stat` that `a1fs_getattr` sets. -/
structure stat where
  st_mode : Nat
  st_nlink : Nat
  st_size : Nat
  st_blocks : Int
deriving DecidableEq

/-- The function `a1fs_getattr`: the return value and `*st`.  `none`:
`lookup_inode` failed with a value other than `-ENOTDIR` and `-ENOENT`, and
the inode pointer is used without having been set. -/
def a1fs_getattr (path : List Nat) (fs : fs_ctx) : Option (Int × stat) :=
  if path.length ≥ A1FS_PATH_MAX then some (-ENAMETOOLONG, ⟨0, 0, 0, 0⟩)
  else
    match lookup_inode path fs with
    | Except.error value =>
      if value = -ENOTDIR then some (-ENOTDIR, ⟨0, 0, 0, 0⟩)
      else if value = -ENOENT then some (-ENOENT, ⟨0, 0, 0, 0⟩)
      else none
    | Except.ok ino =>
      let inode := fs.itable ino
      some (0, { st_mode := inode.mode, st_nlink := inode.links, st_size := inode.size,
                 st_blocks :=
                   ceiling (int32 inode.size) A1FS_BLOCK_SIZE * A1FS_BLOCK_SIZE / 512 })

/-! ## Views of a directory and of an extent table -/

/-- Address of record `k` of the directory block `blk`. -/
def record_addr (fs : fs_ctx) (blk : Int) (k : Nat) : Int :=
  block_addr fs blk + sizeof_a1fs_dentry * (k : Int)

/-- The `ino` field of record `k` of the directory block `blk`. -/
def record_ino (fs : fs_ctx) (blk : Int) (k : Nat) : Nat :=
  rd32 fs.mem (record_addr fs blk k)

/-- Whether record `k` of the directory block `blk` holds the name `name`. -/
def record_has_name (fs : fs_ctx) (blk : Int) (k : Nat) (name : List Nat) : Bool :=
  strcmp_eq fs.mem (record_addr fs blk k + 4) name

/-- Total number of data blocks in the extents of an inode. -/
def extent_blocks (fs : fs_ctx) (inode : a1fs_inode) : Nat :=
  ((List.range inode.count_extent).map
    fun i => extent_count fs (extent_table fs inode) i).sum

/-! ## More concrete images -/

/-- The image `fs_ab` after `a1fs_create("/c")`: the root directory holds the
records `a`, `b`, `c` for the inodes 1, 2, 3. -/
def fs_abc : fs_ctx := image_of (a1fs_create 1 path_c mode_reg fs_ab)

/-- The names `b`, `c`, .., `p`. -/
def names_b_to_p : List (List Nat) := (List.range 15).map fun k => [98 + k]

/-- The image `fs_a` after 15 calls of `add_dentry` that enter the names `b` to
`p` for inode 1 in the root directory, which then holds 16 records: one full
block. -/
def fs_dir16 : fs_ctx :=
  names_b_to_p.foldl (fun fs name => (add_dentry 0 name 1 fs).2) fs_a

/-- The image `image0` of 19 blocks formatted for 960 inodes of 64 bytes: one
data block. -/
def fs_small : fs_ctx := (mkfs image0 (19 * A1FS_BLOCK_SIZE) 960 64).2

/-- The image on which `a1fs_create` and `a1fs_mkdir` call `add_dentry` when
started on `fs_small`: inode 1 allocated and initialised with `mode` and
`links`. -/
def fs_small_inode (mode links : Nat) : fs_ctx :=
  let fs1 := set_flip_ino_bitmap 1 fs_small
  { fs1 with itable := upd fs1.itable 1 (fresh_inode 1 mode links) }

/-- The path `/d`. -/
def path_d : List Nat := [47, 100]

/-- The path `/d/e`. -/
def path_de : List Nat := [47, 100, 47, 101]

/-- Mode argument of a `mkdir`, `0755`. -/
def mode_dir : Nat := 493

/-- The image `fs_fresh` after `a1fs_mkdir("/d")`. -/
def fs_d : fs_ctx := image_of (a1fs_mkdir 1 path_d mode_dir fs_fresh)

/-- The image `fs_d` after `a1fs_mkdir("/d/e")`. -/
def fs_de : fs_ctx := image_of (a1fs_mkdir 1 path_de mode_dir fs_d)

/-- The image `fs_fresh` after `a1fs_create` of `/a`, `/b`, .., `/g`: the
inodes 0 to 7 are allocated. -/
def fs_seven : fs_ctx :=
  [97, 98, 99, 100, 101, 102, 103].foldl
    (fun fs c => image_of (a1fs_create 1 [47, c] mode_reg fs)) fs_fresh

/-- The image `image0` of 5 blocks formatted for a single inode, the root. -/
def fs_one_inode : fs_ctx := (mkfs image0 (5 * A1FS_BLOCK_SIZE) 1 64).2

/-- The image `image0` of 23 blocks formatted for 960 inodes of 64 bytes (5 data
blocks), after `a1fs_create("/a")`: the data blocks 0 and 1 are allocated, 2 to
4 are free. -/
def fs5_a : fs_ctx :=
  image_of (a1fs_create 1 path_a mode_reg (mkfs image0 (23 * A1FS_BLOCK_SIZE) 960 64).2)

/-- The image `fs_a10` after `a1fs_truncate("/a", 5000)`: the file has size
5000 and two data blocks. -/
def fs_a5000 : fs_ctx := image_of (a1fs_truncate path_a 5000 fs_a10)


/-! ## Images for the formatting claims -/

/-- The superblock fields that hold the layout, in the order `dblock_bitmap`,
`inode_bitmap`, `inode_table`, `s_first_data_block`, `data_block_count`. -/
def layout (fs : fs_ctx) : Nat × Nat × Nat × Nat × Nat :=
  (fs.sb.dblock_bitmap, fs.sb.inode_bitmap, fs.sb.inode_table, fs.sb.s_first_data_block,
    fs.sb.data_block_count)

/-- An image file whose previous content has the byte 128 at the start of
block 1 and zero bytes elsewhere. -/
def image_old : fs_ctx :=
  { image0 with dbitmap := fun k => if k = 0 then 128 else 0 }

/-- The image `image_old` of 4 blocks formatted for 16 inodes of 64 bytes. -/
def fs_four : fs_ctx := (mkfs image_old (4 * A1FS_BLOCK_SIZE) 16 64).2

/-- The path `/xxx..x` with one component of 300 characters. -/
def long_path : List Nat := SLASH :: List.replicate 300 120

/-- Extent table of a file that was grown one block at a time: record `i`
(for `i < 511`) is the extent `(i + 1, 1)`, stored in the block at `table`. -/
def mem_one_block_extents (table : Int) : Int → Nat := fun x =>
  if table ≤ x ∧ x < table + 8 * 511 then
    let o := (x - table).toNat
    if o % 8 = 0 then (o / 8 + 1) % 256
    else if o % 8 = 1 then (o / 8 + 1) / 256
    else if o % 8 = 4 then 1
    else 0
  else 0

/-- An image of 534 blocks formatted for 960 inodes of 64 bytes (516 data
blocks) on which the file of inode 1 has its extent table in data block 0 and
the 511 extents `(1, 1)`, `(2, 1)`, .., `(511, 1)`; the data blocks 513 and 515
are in use as well, 512 and 514 are the two free ones. -/
def fs_table511 : fs_ctx :=
  let fs0 := (mkfs image0 (534 * A1FS_BLOCK_SIZE) 960 64).2
  { fs0 with
    sb := { fs0.sb with s_free_blocks_count := 2, s_free_inodes_count := 958 }
    dbitmap := fun k => if k < 64 then 255 else if k = 64 then 80 else 0
    ibitmap := upd fs0.ibitmap 0 192
    itable := upd fs0.itable 1
      { mode := mode_reg, links := 1, size := 511 * A1FS_BLOCK_SIZE, inode_num := 1,
        indirect_block := 0, count_extent := 511 }
    mem := mem_one_block_extents (block_addr fs0 0) }

/-! ## Calls on a directory -/

/-- A call on a directory: `add_dentry` of the name `name` for the inode `ino`,
or `rm_dentry` of the entry in record slot `m` of block `k` of extent `i` of
the directory. -/
inductive dir_call where
  | add (name : List Nat) (ino : Nat) : dir_call
  | rm (i k m : Nat) : dir_call

/-- One successful call on the directory `dp`: the image afterwards.  `none`:
the call does not return 0, or its arguments are not ones the function can be
given: a name that does not fit the local buffer `char name[A1FS_NAME_MAX]` of
`add_dentry`, or an entry address that is no record slot of a block of the
directory. -/
def dir_step (dp : Nat) (fs : fs_ctx) : dir_call → Option fs_ctx
  | dir_call.add name ino =>
    if name.length < A1FS_NAME_MAX ∧ (add_dentry dp name ino fs).1 = 0 then
      some (add_dentry dp name ino fs).2
    else none
  | dir_call.rm i k m =>
    let dir := fs.itable dp
    let extent := extent_table fs dir
    if i < dir.count_extent ∧ k < extent_count fs extent i
        ∧ m < A1FS_BLOCK_SIZE / sizeof_a1fs_dentry then
      match rm_dentry dp (record_addr fs ((extent_start fs extent i : Int) + k) m) fs with
      | none => none
      | some r => if r.1 = 0 then some r.2 else none
    else none

/-- A sequence of successful calls on the directory `dp`. -/
def dir_run (dp : Nat) : List dir_call → fs_ctx → Option fs_ctx
  | [], fs => some fs
  | c :: cs, fs =>
    match dir_step dp fs c with
    | none => none
    | some fs1 => dir_run dp cs fs1

/-- The extent table of the inode `d` is in data block `b`, which is marked in
the block bitmap, and holds extents of one block each, none of them `b`. -/
def dir_table (fs : fs_ctx) (d : a1fs_inode) (b : Nat) : Prop :=
  d.indirect_block = (b : Int) ∧ bitmap_bit fs.dbitmap b = true ∧
  ∀ i : Nat, i < d.count_extent →
    extent_count fs (block_addr fs b) i = 1 ∧
    extent_start fs (block_addr fs b) i ≠ b ∧
    extent_start fs (block_addr fs b) i < 2147483648

/-- The invariant of a directory `dp` under `add_dentry` and `rm_dentry`: the
size is a whole number of records, the blocks are exactly those the size
needs, and the extent table is as `dir_table` says. -/
def dir_inv (dp : Nat) (fs : fs_ctx) : Prop :=
  (fs.itable dp).size % sizeof_a1fs_dentry = 0 ∧
  (fs.itable dp).size ≤ A1FS_BLOCK_SIZE * (fs.itable dp).count_extent ∧
  A1FS_BLOCK_SIZE * (fs.itable dp).count_extent < (fs.itable dp).size + A1FS_BLOCK_SIZE ∧
  (fs.itable dp).count_extent ≤ A1FS_BLOCK_SIZE / sizeof_a1fs_extent ∧
  fs.sb.data_block_count + 8 ≤ 2147483648 ∧
  (((fs.itable dp).indirect_block = -1 ∧ (fs.itable dp).count_extent = 0) ∨
    ∃ b : Nat, dir_table fs (fs.itable dp) b)

/-- The names `a`, `b`, `c` entered for the inodes 1, 2, 3, with the first
record of the directory removed after the second and after the third call. -/
def calls_abc : List dir_call :=
  [dir_call.add [97] 1, dir_call.add [98] 2, dir_call.rm 0 0 0, dir_call.rm 0 0 0,
    dir_call.add [99] 3]

/-- The image after a sequence of calls on a directory, when all of them are
successful. -/
def image_after (r : Option fs_ctx) : fs_ctx :=
  match r with
  | some x => x
  | none => image0

/-! ## Views and images for the allocation claims -/

/-- The extent record `i` of the inode `ino`: `(start, count)`. -/
def extent_at (fs : fs_ctx) (ino : Nat) (i : Nat) : Nat × Nat :=
  (extent_start fs (extent_table fs (fs.itable ino)) i,
    extent_count fs (extent_table fs (fs.itable ino)) i)

/-- Memory of an image with two extent tables in adjacent blocks: the block at
`table` holds the 511 records `(2, 1)`, `(3, 1)`, .., `(512, 1)`, the block
after it the two records `(513, 1)` and `(515, 1)`. -/
def mem_two_tables (table : Int) : Int → Nat := fun x =>
  if table ≤ x ∧ x < table + 8 * 511 then
    let o := (x - table).toNat
    if o % 8 = 0 then (o / 8 + 2) % 256
    else if o % 8 = 1 then (o / 8 + 2) / 256
    else if o % 8 = 4 then 1
    else 0
  else
    wr32 (wr32 (wr32 (wr32 (fun _ => 0) (table + 4096) 513) (table + 4100) 1) (table + 4104) 515)
      (table + 4108) 1 x

/-- An image of 535 blocks formatted for 960 inodes of 64 bytes (517 data
blocks) with two files.  Inode 1 has its extent table in data block 0 and the
511 one-block extents 2 to 512; inode 2 has its extent table in data block 1
and the extents `(513, 1)` and `(515, 1)`.  Every block in use is marked in
the block bitmap; the data blocks 514 and 516 are the two free ones. -/
def fs_two_tables : fs_ctx :=
  let fs0 := (mkfs image0 (535 * A1FS_BLOCK_SIZE) 960 64).2
  { fs0 with
    sb := { fs0.sb with s_free_blocks_count := 2, s_free_inodes_count := 957 }
    dbitmap := fun k => if k < 64 then 255 else if k = 64 then 208 else 0
    ibitmap := upd fs0.ibitmap 0 224
    itable := upd (upd fs0.itable 1
      { mode := mode_reg, links := 1, size := 511 * A1FS_BLOCK_SIZE, inode_num := 1,
        indirect_block := 0, count_extent := 511 }) 2
      { mode := mode_reg, links := 1, size := 2 * A1FS_BLOCK_SIZE, inode_num := 2,
        indirect_block := 1, count_extent := 2 }
    mem := mem_two_tables (block_addr fs0 0) }

/-- The data blocks of the extents `0`, .., `n - 1` of the extent table at
`extent`, in logical order: extent after extent, each from its first block. -/
def extent_list (fs : fs_ctx) (extent : Int) : Nat → List Nat
  | 0 => []
  | n + 1 =>
    extent_list fs extent n ++
      (List.range (extent_count fs extent (n : Int))).map
        (fun k => extent_start fs extent (n : Int) + k)

/-- The data blocks of an inode in logical order. -/
def inode_blocks (fs : fs_ctx) (ino : Nat) : List Nat :=
  extent_list fs (extent_table fs (fs.itable ino)) (fs.itable ino).count_extent

/-- What `unset_block` for `n` blocks has to achieve on an inode with `c`
extents in the table at `tbl`, from the image `fs` to the image `fs1`: the
extents left describe the first blocks of the old list, all but the last `n`;
the free counter has grown by `n`; exactly the bits of the last `n` blocks
have been cleared; no extent has moved, and only the last one left may be
shorter than before. -/
def unset_block_post (ino : Nat) (tbl : Int) (n c : Nat) (fs fs1 : fs_ctx) : Prop :=
  extent_table fs1 (fs1.itable ino) = tbl ∧
  (fs1.itable ino).count_extent ≤ c ∧
  extent_list fs1 tbl (fs1.itable ino).count_extent
    = (extent_list fs tbl c).take ((extent_list fs tbl c).length - n) ∧
  fs1.sb.s_free_blocks_count = fs.sb.s_free_blocks_count + n ∧
  (∀ p : Nat, bitmap_bit fs1.dbitmap p = true ↔
    bitmap_bit fs.dbitmap p = true ∧
      p ∉ (extent_list fs tbl c).drop ((extent_list fs tbl c).length - n)) ∧
  (∀ i : Nat, i < (fs1.itable ino).count_extent →
    extent_start fs1 tbl (i : Int) = extent_start fs tbl (i : Int) ∧
    extent_count fs1 tbl (i : Int) ≤ extent_count fs tbl (i : Int) ∧
    (i + 1 < (fs1.itable ino).count_extent →
      extent_count fs1 tbl (i : Int) = extent_count fs tbl (i : Int)))

/-- Address of the byte at offset `o` of the byte stream of an inode: the
blocks of its extents in extent order, `A1FS_BLOCK_SIZE` bytes each.  `none`
when the extents do not reach that far. -/
def stream_addr (fs : fs_ctx) (ino : Nat) (o : Nat) : Option Int :=
  ((inode_blocks fs ino)[o / A1FS_BLOCK_SIZE]?).map
    (fun b : Nat => block_addr fs (b : Int) + ((o % A1FS_BLOCK_SIZE : Nat) : Int))

/-- The image `fs_a` after `set_block` for 3 blocks and then for 1 block on the
file of inode 1: extent table in data block 2, extents `(3, 3)` and `(6, 1)`. -/
def fs_two_extents : fs_ctx := (set_block 1 1 (set_block 1 3 fs_a).2).2

set_option maxRecDepth 100000

/-! ## Frame lemmas: the `size` field of an inode -/

theorem upd_same {α : Type} (f : Nat → α) (k : Nat) (v : α) : upd f k v k = v := by
  simp [upd]

theorem set_block_run_itable (n i : Nat) (fs : fs_ctx) :
    (set_block_run n i fs).itable = fs.itable := by
  induction n generalizing i fs with
  | zero => rfl
  | succ n ih =>
    rw [set_block_run, ih]
    rfl

theorem set_block_loop_size (ino fuel : Nat) (nb : Int) (fs : fs_ctx) :
    ((set_block_loop ino fuel nb fs).2.itable ino).size = (fs.itable ino).size := by
  induction fuel generalizing nb fs with
  | zero => rfl
  | succ fuel ih =>
    unfold set_block_loop
    split
    · split
      · rfl
      · rw [ih]
        simp [upd_same, set_block_run_itable]
    · rfl

theorem set_block_size (ino : Nat) (nb : Int) (fs : fs_ctx) :
    ((set_block ino nb fs).2.itable ino).size = (fs.itable ino).size := by
  unfold set_block
  simp only []
  split
  · rfl
  · split
    · rfl
    · split
      · rfl
      · split
        · split
          · rfl
          · rw [set_block_loop_size]
            simp [upd_same, set_flip_block_bitmap]
        · rw [set_block_loop_size]

theorem extend_pad_itable (ino : Nat) (fs : fs_ctx) :
    (extend_pad ino fs).itable = fs.itable := by
  unfold extend_pad
  simp only []
  split <;> rfl

theorem inode_add_size_size (ino : Nat) (n : Int) (fs : fs_ctx) :
    ((inode_add_size ino n fs).itable ino).size = u64_add (fs.itable ino).size n := by
  simp [inode_add_size, upd_same]

theorem extend_file_size (ino : Nat) (n : Int) (fs : fs_ctx)
    (h : (extend_file ino n fs).1 = 0) :
    ((extend_file ino n fs).2.itable ino).size = u64_add (fs.itable ino).size n := by
  unfold extend_file at h ⊢
  simp only [] at h ⊢
  by_cases h1 : extend_remaining (fs.itable ino) ≥ n
  · simp only [h1, ↓reduceIte, inode_add_size_size, extend_pad_itable]
  · simp only [h1, ↓reduceIte] at h ⊢
    split at h
    · simp at h
    · rename_i h2
      simp only [h2, ↓reduceIte, inode_add_size_size, set_block_size, extend_pad_itable]

theorem unset_run_up_itable (n k : Nat) (fs : fs_ctx) :
    (unset_run_up n k fs).itable = fs.itable := by
  induction n generalizing k fs with
  | zero => rfl
  | succ n ih =>
    simp only [unset_run_up]
    rw [ih]
    rfl

theorem unset_run_down_itable (j : Int) (n k : Nat) (fs : fs_ctx) :
    (unset_run_down j n k fs).itable = fs.itable := by
  induction n generalizing k fs with
  | zero => rfl
  | succ n ih =>
    simp only [unset_run_down]
    rw [ih]
    rfl

theorem unset_block_loop_size (ino fuel nb : Nat) (i j : Int) (fs fs1 : fs_ctx)
    (h : unset_block_loop ino fuel nb i j fs = some fs1) :
    (fs1.itable ino).size = (fs.itable ino).size := by
  induction fuel generalizing nb i j fs with
  | zero =>
    unfold unset_block_loop at h
    split at h
    · simp at h
    · simp at h; rw [h]
  | succ fuel ih =>
    unfold unset_block_loop at h
    simp only [] at h
    split at h
    · split at h
      · simp at h
        rw [← h]
        simp [upd_same, unset_run_up_itable]
      · split at h
        · simp at h
          rw [← h]
          simp [unset_run_down_itable]
        · rw [ih _ _ _ _ h]
          simp [upd_same, unset_run_up_itable]
    · simp at h; rw [h]

theorem unset_block_size (ino nb : Nat) (fs : fs_ctx) (r : Int × fs_ctx)
    (h : unset_block ino nb fs = some r) :
    (r.2.itable ino).size = (fs.itable ino).size := by
  unfold unset_block at h
  simp only [] at h
  split at h
  · simp at h
  · rename_i fs1 hl
    simp at h
    rw [← h]
    exact unset_block_loop_size _ _ _ _ _ _ _ hl

theorem int32_of_small (n : Nat) (h : n < 2147483648) : int32 (n : Int) = n := by
  unfold int32 Int.bmod
  simp only []
  omega

theorem u64_add_small (c n : Nat) (h : c + n < 18446744073709551616) :
    u64_add c (n : Int) = c + n := by
  unfold u64_add
  omega

theorem truncate_shrink_size (ino size : Nat) (fs fs1 : fs_ctx)
    (hle : size ≤ (fs.itable ino).size)
    (h : truncate_shrink ino size fs = some (0, fs1)) :
    (fs1.itable ino).size = size := by
  unfold truncate_shrink at h
  simp only [] at h
  by_cases h1 : size < (fs.itable ino).size
  · simp only [h1, ↓reduceIte] at h
    split at h
    · split at h
      · simp at h
      · rename_i r hr
        simp only [Option.some.injEq, Prod.mk.injEq, true_and] at h
        rw [← h, unset_block_size _ _ _ _ hr]
        simp [upd_same]
    · simp only [Option.some.injEq, Prod.mk.injEq, true_and] at h
      rw [← h]
      simp [upd_same]
  · simp only [h1, ↓reduceIte, Option.some.injEq, Prod.mk.injEq, true_and] at h
    rw [← h]
    omega

theorem truncate_inode_size (ino size : Nat) (fs fs1 : fs_ctx)
    (hsz : size < 2147483648)
    (h : truncate_inode ino size fs = some (0, fs1)) :
    (fs1.itable ino).size = size := by
  unfold truncate_inode at h
  simp only [] at h
  by_cases h1 : size > (fs.itable ino).size
  · simp only [h1, ↓reduceIte] at h
    split at h
    · simp at h
    · rename_i h2
      have h3 : (extend_file ino (int32 size) fs).1 = 0 := by
        simpa using h2
      apply truncate_shrink_size ino size _ fs1 _ h
      rw [extend_file_size ino _ fs h3, int32_of_small size hsz, u64_add_small _ _ (by omega)]
      omega
  · simp only [h1, ↓reduceIte] at h
    exact truncate_shrink_size ino size fs fs1 (by omega) h


theorem some_image_of (o : Option (Int × fs_ctx)) (h : o.map Prod.fst = some 0) :
    o = some (0, image_of o) := by
  cases o with
  | none => simp at h
  | some x =>
    obtain ⟨c, t⟩ := x
    simp only [Option.map_some', Option.some.injEq] at h
    subst h
    rfl

/-! ## The claims -/

/-- C1, at a failing input.  On the formatted image with the new empty file
`/a`, a write of `A1FS_BLOCK_SIZE = 4096` bytes at offset 0 returns 4096 and
sets the size to 4096; the read of 4096 bytes at offset 0 that follows returns
0 and leaves the first byte of the buffer 0, where `A` (65) was written. -/
theorem c1_read_after_full_block_write :
    (a1fs_write path_a buf_letters 4096 0 fs_a).map
        (fun w => (w.1, (w.2.itable 1).size,
          (a1fs_read path_a buf_zero 4096 0 w.2).map fun q => (q.1, q.2 0)))
      = some (4096, 4096, some (0, 0)) := by
  decide!

/-- C2, at a failing input.  The root directory of `fs_ab` holds the records
`a` (inode 1) and `b` (inode 2) in one block.  Looking up `b` returns the
address of the second record, whose own `ino` field is 2, but stores 1 in
`*inode_num`, the `ino` of the first record of the block; so `lookup_inode`
resolves `/b` to inode 1. -/
theorem c2_lookup_returns_first_record_ino :
    (lookup_dentry (fs_ab.itable 0) [98] fs_ab).map (fun d => (rd32 fs_ab.mem d.1, d.2))
      = some (2, 1) ∧
    lookup_inode path_b fs_ab = Except.ok 1 := by
  decide!

/-- C3, at a failing input.  The freshly formatted image has 8 data blocks,
none allocated, and a free-block counter of 8.  After `a1fs_create("/a")`
and `a1fs_truncate("/a", 24576)`, both returning 0, all 8 bits of the data
bitmap are set while the free-block counter is 4294967295, so the number of
1-bits (8) is not `data_block_count - s_free_blocks_count`. -/
theorem c3_block_counter_after_truncate :
    (fs_fresh.sb.data_block_count, fs_fresh.sb.s_free_blocks_count,
        count_ones fs_fresh.dbitmap fs_fresh.sb.data_block_count) = (8, 8, 0) ∧
    (a1fs_create 1 path_a mode_reg fs_fresh).map Prod.fst = some 0 ∧
    (a1fs_truncate path_a 24576 fs_a).map
        (fun t => (t.1, t.2.sb.data_block_count, t.2.sb.s_free_blocks_count,
          count_ones t.2.dbitmap t.2.sb.data_block_count))
      = some (0, 8, 4294967295, 8) := by
  decide!

/-- C4, at a failing input.  The freshly formatted image has 960 inodes, 959
of them free, and a free-inode counter of 959.  After `a1fs_create("/a")`, a
write of 10 bytes to `/a` and `a1fs_unlink("/a")`, all successful, the
free-inode counter is 960 while only 959 of the first 960 bits of the inode
bitmap are 0. -/
theorem c4_inode_counter_after_unlink :
    (fs_fresh.sb.s_inodes_count, fs_fresh.sb.s_free_inodes_count,
        count_zeros fs_fresh.ibitmap fs_fresh.sb.s_inodes_count) = (960, 959, 959) ∧
    (a1fs_create 1 path_a mode_reg fs_fresh).map Prod.fst = some 0 ∧
    (a1fs_write path_a buf_letters 10 0 fs_a).map Prod.fst = some 10 ∧
    (a1fs_unlink path_a fs_a10).map
        (fun t => (t.1, t.2.sb.s_inodes_count, t.2.sb.s_free_inodes_count,
          count_zeros t.2.ibitmap t.2.sb.s_inodes_count))
      = some (0, 960, 960, 959) := by
  decide!

/-- C5, at a failing input.  The file `/a` of `fs_a10` has size 10.  A read of
5 bytes at offset 0 returns 10, not `min(5, 10 - 0) = 5`, and copies 10 bytes:
the bytes 5 to 9 of the buffer receive `F` .. `J` (70 .. 74). -/
theorem c5_read_returns_more_than_requested :
    (fs_a10.itable 1).size = 10 ∧
    (a1fs_read path_a buf_zero 5 0 fs_a10).map (fun q => (q.1, q.2 4, q.2 5, q.2 9, q.2 10))
      = some (10, 69, 70, 74, 0) := by
  decide!

/-- C6, at a failing input.  The file `/a` of `fs_a10` has size 10.  A write of
5 bytes at offset 8 returns 5 and leaves the size 15, not
`max(10, 8 + 5) = 13`. -/
theorem c6_write_inside_extends_by_length :
    (fs_a10.itable 1).size = 10 ∧
    (a1fs_write path_a buf_letters 5 8 fs_a10).map (fun w => (w.1, (w.2.itable 1).size))
      = some (5, 15) := by
  decide!

/-- C7, at a failing input.  `fs_a` has 6 free data blocks and the empty
regular file `/a`, the first record of the root, which names inode 1.
`a1fs_truncate("/a", 4294967301)` returns 0, not `-ENOSPC`, and the size of
the file is then 5, not 4294967301: the new size reaches `extend_file` through
its `int` parameter.  So it is not the case that every run returning 0 leaves
the size 4294967301. -/
theorem c7_truncate_large_size :
    fs_a.sb.s_free_blocks_count = 6 ∧
    (record_ino fs_a 1 0, record_has_name fs_a 1 0 [97]) = (1, true) ∧
    ((fs_a.itable 1).size, (fs_a.itable 1).mode &&& S_IFREG) = (0, S_IFREG) ∧
    lookup_inode path_a fs_a = Except.ok 1 ∧
    (a1fs_truncate path_a 4294967301 fs_a).map (fun t => (t.1, (t.2.itable 1).size))
      = some (0, 5) ∧
    ¬ ∀ fs1 : fs_ctx, a1fs_truncate path_a 4294967301 fs_a = some (0, fs1) →
        (fs1.itable 1).size = 4294967301 := by
  refine ⟨by decide!, by decide!, by decide!, by decide!, by decide!, fun h => ?_⟩
  have h1 := h (image_of (a1fs_truncate path_a 4294967301 fs_a))
    (some_image_of _ (by decide!))
  revert h1
  decide!

/-- C8, at a failing input.  The file `/a` of `fs_a10` holds the 10 bytes
`A` .. `J`.  `a1fs_truncate("/a", 5000)` returns 0 and sets the size to 5000.
Offset 4096 lies between the old and the new size, yet a read at offset 4096
(of 5000 bytes, which it returns) delivers 65, the first byte of the file, as
the byte at that offset. -/
theorem c8_read_after_extension_not_zero :
    (fs_a10.itable 1).size = 10 ∧
    (a1fs_truncate path_a 5000 fs_a10).map
        (fun t => (t.1, (t.2.itable 1).size,
          (a1fs_read path_a buf_zero 5000 4096 t.2).map fun q => (q.1, q.2 0)))
      = some (0, 5000, some (5000, 65)) := by
  decide!

/-- C9, at a failing input.  In `fs_a10` the file `/a` (inode 1) has one
extent, data block 3 of length 1, marked allocated, and 4 blocks are free.
After `a1fs_unlink("/a")`, which returns 0, bit 3 of the data bitmap is still
1; the free-block counter went up by one because block 1, the block of the
root directory, was released. -/
theorem c9_unlink_keeps_data_block_bit :
    (lookup_inode path_a fs_a10, (fs_a10.itable 1).count_extent,
        extent_start fs_a10 (extent_table fs_a10 (fs_a10.itable 1)) 0,
        extent_count fs_a10 (extent_table fs_a10 (fs_a10.itable 1)) 0,
        bitmap_bit fs_a10.dbitmap 3, fs_a10.sb.s_free_blocks_count)
      = (Except.ok 1, 1, 3, 1, true, 4) ∧
    (a1fs_unlink path_a fs_a10).map
        (fun t => (t.1, bitmap_bit t.2.dbitmap 3, t.2.sb.s_free_blocks_count,
          bitmap_bit t.2.dbitmap 1))
      = some (0, true, 5, false) := by
  decide!

/-- C10, at a failing input.  In `fs_abc10` the inodes 0 to 3 are allocated
(the root, `/a`, `/b`, `/c`), 956 inodes are free and the one data block of
`/a` is block 3.  `a1fs_unlink("/a")` returns 0, clears the bitmap bit of
inode 1 and also that of inode 3 (`/c`), and raises the free-inode counter by
2, to 958. -/
theorem c10_unlink_clears_other_inode_bit :
    (fs_abc10.ibitmap 0, fs_abc10.sb.s_free_inodes_count, bitmap_bit fs_abc10.ibitmap 3,
        extent_start fs_abc10 (extent_table fs_abc10 (fs_abc10.itable 1)) 0)
      = (240, 956, true, 3) ∧
    (a1fs_unlink path_a fs_abc10).map
        (fun t => (t.1, t.2.ibitmap 0, t.2.sb.s_free_inodes_count,
          bitmap_bit t.2.ibitmap 1, bitmap_bit t.2.ibitmap 3))
      = some (0, 160, 958, false, false) := by
  decide!

/-! ## The allocation loop of `set_inode` -/

theorem set_inode_loop_stuck (bm : Nat → Nat) (bits : Nat)
    (h : set_inode_scan (bm 0) (if 0 = bits / 8 ∧ bits % 8 ≠ 0 then bits % 8 else 8) 0 = none)
    (fuel ib : Nat) : set_inode_loop bm bits fuel 0 ib = none := by
  induction fuel generalizing ib with
  | zero => rfl
  | succ fuel ih =>
    rw [set_inode_loop]
    simp only [Nat.zero_le, ↓reduceIte, h]
    exact ih _

theorem set_inode_loop_never_enospc (bm : Nat → Nat) (bits fuel ib : Nat) :
    set_inode_loop bm bits fuel 0 ib ≠ some none := by
  induction fuel generalizing ib with
  | zero => simp [set_inode_loop]
  | succ fuel ih =>
    rw [set_inode_loop]
    simp only [Nat.zero_le, ↓reduceIte]
    split
    · simp
    · exact ih _

theorem set_inode_never_enospc (fuel : Nat) (fs : fs_ctx) : set_inode fuel fs ≠ some none := by
  unfold set_inode
  have h := set_inode_loop_never_enospc fs.ibitmap fs.sb.s_inodes_count fuel 0
  split
  · simp
  · rename_i h1
    exact absurd h1 h
  · simp

theorem set_inode_stuck (fs : fs_ctx)
    (h : set_inode_scan (fs.ibitmap 0)
      (if 0 = fs.sb.s_inodes_count / 8 ∧ fs.sb.s_inodes_count % 8 ≠ 0
        then fs.sb.s_inodes_count % 8 else 8) 0 = none)
    (fuel : Nat) : set_inode fuel fs = none := by
  unfold set_inode
  rw [set_inode_loop_stuck _ _ h]


/-! ## The claims C11 to C20 -/

/-- C11, at a failing input.  The root directory of `fs_abc` holds the records
`a`, `b`, `c` (inodes 1, 2, 3) in block 1, and `/c` resolves (to inode 1, by
the defect of C2).  `a1fs_unlink("/a")` returns 0 and leaves the directory size at two records,
but slot 0 does not hold the former last record `c`: its `ino` is 0 and it
does not hold the name `c` (`rm_dentry` copies from 65536 bytes before the end
of the directory).  The name `c`, which was not removed, no longer resolves:
`lookup_inode` and `a1fs_getattr` give `-ENOENT`. -/
theorem c11_rm_dentry_does_not_move_last_record :
    ((fs_abc.itable 0).size, record_ino fs_abc 1 2, record_has_name fs_abc 1 2 [99])
      = (768, 3, true) ∧
    lookup_inode path_c fs_abc = Except.ok 1 ∧
    (a1fs_unlink path_a fs_abc).map
        (fun t => (t.1, (t.2.itable 0).size, record_ino t.2 1 0, record_has_name t.2 1 0 [99]))
      = some (0, 512, 0, false) ∧
    (a1fs_unlink path_a fs_abc).map
        (fun t => (lookup_inode path_c t.2, (a1fs_getattr path_c t.2).map Prod.fst))
      = some (Except.error (-ENOENT), some (-ENOENT)) := by
  decide!

/-- C12, at a failing input.  The root directory of `fs_dir16` has size 4096,
16 records that fill its one block; record 0 holds the name `a` and record 15
the name `p`.  `lookup_dentry` returns `NULL` for both names: in the last
block it scans `size % A1FS_BLOCK_SIZE / sizeof(a1fs_dentry) = 0` records. -/
theorem c12_lookup_misses_full_last_block :
    ((fs_dir16.itable 0).size, (fs_dir16.itable 0).count_extent,
        extent_start fs_dir16 (extent_table fs_dir16 (fs_dir16.itable 0)) 0,
        extent_count fs_dir16 (extent_table fs_dir16 (fs_dir16.itable 0)) 0,
        record_has_name fs_dir16 1 0 [97], record_has_name fs_dir16 1 15 [112])
      = (4096, 1, 1, 1, true, true) ∧
    lookup_dentry (fs_dir16.itable 0) [97] fs_dir16 = none ∧
    lookup_dentry (fs_dir16.itable 0) [112] fs_dir16 = none := by
  decide!

/-- C13, at two failing inputs.  In `fs_dir16` the root is a directory whose
record 0 holds the name `a` (inode 1), yet `lookup_inode("/a")` returns
`-ENOENT` instead of 0.  In `fs_ab` the root holds `b` in record 1 with
`ino` 2, yet `lookup_inode("/b")` returns 0 with inode 1 instead of the inode
of the matched entry.  A path without components gives the root inode. -/
theorem c13_lookup_inode_wrong_result :
    ((fs_dir16.itable 0).mode &&& S_IFDIR, record_has_name fs_dir16 1 0 [97],
        record_ino fs_dir16 1 0, lookup_inode path_a fs_dir16)
      = (S_IFDIR, true, 1, Except.error (-ENOENT)) ∧
    (record_has_name fs_ab 1 1 [98], record_ino fs_ab 1 1, lookup_inode path_b fs_ab)
      = (true, 2, Except.ok 1) ∧
    lookup_inode [47] fs_ab = Except.ok 0 := by
  decide!

/-- C15, at a failing input.  `fs_small` has one free data block and an empty
root directory (size 0, a multiple of the block size).  `set_inode` hands out
inode 1, and on the image so prepared `add_dentry` returns `-ENOSPC`: the one
block goes to the extent table of the root and none is left for the entry.
`a1fs_create("/a")` and `a1fs_mkdir("/a")` return 0 all the same; afterwards
inode 1 is allocated, the root is still empty and `/a` does not resolve. -/
theorem c15_create_ignores_add_dentry_failure :
    (fs_small.sb.s_free_blocks_count, (fs_small.itable 0).size % A1FS_BLOCK_SIZE,
        (set_inode 1 fs_small).map (Option.map Prod.fst),
        (add_dentry 0 [97] 1 (fs_small_inode mode_reg 1)).1,
        (add_dentry 0 [97] 1 (fs_small_inode (mode_dir ||| S_IFDIR) 2)).1)
      = (1, 0, some (some 1), -ENOSPC, -ENOSPC) ∧
    (a1fs_create 1 path_a mode_reg fs_small).map
        (fun t => (t.1, bitmap_bit t.2.ibitmap 1, (t.2.itable 0).size, lookup_inode path_a t.2))
      = some (0, true, 0, Except.error (-ENOENT)) ∧
    (a1fs_mkdir 1 path_a mode_dir fs_small).map
        (fun t => (t.1, bitmap_bit t.2.ibitmap 1, (t.2.itable 0).size, lookup_inode path_a t.2))
      = some (0, true, 0, Except.error (-ENOENT)) := by
  decide!

/-- C16, at a failing input.  In `fs_seven` the inodes 0 to 7 are allocated and
inode 8 is free (960 inodes, 952 of them free).  `set_inode` does not return
0 with `*ino_num = 8`: whatever the number of rounds, its loop has not ended,
because the loop never advances from byte 0 of the bitmap; so `a1fs_create`
does not return either. -/
theorem c16_set_inode_never_reaches_bit_8 (fuel : Nat) :
    (fs_seven.sb.s_inodes_count, fs_seven.sb.s_free_inodes_count, fs_seven.ibitmap 0,
        bitmap_bit fs_seven.ibitmap 8) = (960, 952, 255, false) ∧
    set_inode fuel fs_seven = none ∧
    a1fs_create fuel [47, 104] mode_reg fs_seven = none := by
  have h := set_inode_stuck fs_seven (by decide!) fuel
  refine ⟨by decide!, h, ?_⟩
  unfold a1fs_create
  rw [h]

/-- C17, at a failing input.  `fs_one_inode` has a single inode, the root, and
it is allocated: none of the first `s_inodes_count` bits is 0.  `set_inode`
does not return `-ENOSPC`: whatever the number of rounds, its loop has not
ended; so `a1fs_create` and `a1fs_mkdir` do not return `-ENOSPC` either. -/
theorem c17_set_inode_never_returns_when_full (fuel : Nat) :
    (fs_one_inode.sb.s_inodes_count,
        count_zeros fs_one_inode.ibitmap fs_one_inode.sb.s_inodes_count) = (1, 0) ∧
    set_inode fuel fs_one_inode = none ∧
    a1fs_create fuel path_a mode_reg fs_one_inode = none ∧
    a1fs_mkdir fuel path_a mode_dir fs_one_inode = none := by
  have h := set_inode_stuck fs_one_inode (by decide!) fuel
  refine ⟨by decide!, h, ?_, ?_⟩
  · unfold a1fs_create
    rw [h]
  · unfold a1fs_mkdir
    rw [h]

/-- C18, at a failing input.  `fs5_a` has 5 data blocks; blocks 0 and 1 are
allocated and blocks 2, 3, 4 are free, so there is no run of 4 free blocks.
Asked for 4 blocks `iterate_data_bitmap` returns false instead of the run
(2, 3): it records a run only when a 1-bit ends it, and this run ends with the
bitmap.  (Asked for 3 blocks it returns that run.) -/
theorem c18_trailing_run_not_returned :
    (fs5_a.sb.data_block_count, bitmap_bit fs5_a.dbitmap 0, bitmap_bit fs5_a.dbitmap 1,
        bitmap_bit fs5_a.dbitmap 2, bitmap_bit fs5_a.dbitmap 3, bitmap_bit fs5_a.dbitmap 4)
      = (5, true, true, false, false, false) ∧
    iterate_data_bitmap fs5_a.dbitmap 4 fs5_a = none ∧
    iterate_data_bitmap fs5_a.dbitmap 3 fs5_a = some (2, 3) := by
  decide!

/-- C19, at two failing inputs.  The file `/a` of `fs_a5000` has size 5000 and
2 data blocks; after `a1fs_truncate("/a", 4000)`, which returns 0, it has
size 4000 and still 2 data blocks, not 1.  The file `/a` of `fs_a10` has size
10 and 1 data block; after `a1fs_truncate("/a", 0)` it has size 0 and still
1 data block (block 3, still marked allocated), not 0. -/
theorem c19_shrink_keeps_unneeded_blocks :
    ((fs_a5000.itable 1).size, extent_blocks fs_a5000 (fs_a5000.itable 1)) = (5000, 2) ∧
    (a1fs_truncate path_a 4000 fs_a5000).map
        (fun t => (t.1, (t.2.itable 1).size, extent_blocks t.2 (t.2.itable 1)))
      = some (0, 4000, 2) ∧
    ((fs_a10.itable 1).size, extent_blocks fs_a10 (fs_a10.itable 1)) = (10, 1) ∧
    (a1fs_truncate path_a 0 fs_a10).map
        (fun t => (t.1, (t.2.itable 1).size, extent_blocks t.2 (t.2.itable 1),
          bitmap_bit t.2.dbitmap 3, t.2.sb.s_free_blocks_count))
      = some (0, 0, 1, true, fs_a10.sb.s_free_blocks_count) := by
  decide!

/-- C20, at a failing input.  The root of `fs_fresh` has link count 2.  After
`a1fs_create("/a")`, which adds an entry for a regular file, it is 3, not 2:
`add_dentry` tests the mode of the parent, not of the target.  After
`a1fs_mkdir("/d")` it is 3 as well. -/
theorem c20_create_increments_parent_links :
    (fs_fresh.itable 0).links = 2 ∧
    (a1fs_create 1 path_a mode_reg fs_fresh).map
        (fun t => (t.1, (t.2.itable 1).mode &&& S_IFDIR, (t.2.itable 0).links))
      = some (0, 0, 3) ∧
    (a1fs_mkdir 1 path_d mode_dir fs_fresh).map
        (fun t => (t.1, (t.2.itable 1).mode &&& S_IFDIR, (t.2.itable 0).links))
      = some (0, S_IFDIR, 3) := by
  decide!

/-! ## Directories: the size invariant -/

/-! ## Memory frame lemmas -/

theorem rd32_congr (m1 m2 : Int → Nat) (a : Int)
    (h : ∀ x : Int, a ≤ x → x < a + 4 → m1 x = m2 x) : rd32 m1 a = rd32 m2 a := by
  unfold rd32
  rw [h a (by omega) (by omega), h (a + 1) (by omega) (by omega),
    h (a + 2) (by omega) (by omega), h (a + 3) (by omega) (by omega)]

theorem rd32_wr32_same (m : Int → Nat) (a : Int) (v : Nat) (hv : v < 4294967296) :
    rd32 (wr32 m a v) a = v := by
  unfold rd32 wr32
  have h1 : a + 1 ≠ a := by omega
  have h2 : a + 2 ≠ a := by omega
  have h3 : a + 3 ≠ a := by omega
  have h4 : a + 2 ≠ a + 1 := by omega
  have h5 : a + 3 ≠ a + 1 := by omega
  have h6 : a + 3 ≠ a + 2 := by omega
  simp only [h1, h2, h3, h4, h5, h6, ↓reduceIte]
  omega

theorem wr32_other (m : Int → Nat) (a : Int) (v : Nat) (x : Int)
    (h : x < a ∨ a + 4 ≤ x) : wr32 m a v x = m x := by
  unfold wr32
  have h0 : x ≠ a := by omega
  have h1 : x ≠ a + 1 := by omega
  have h2 : x ≠ a + 2 := by omega
  have h3 : x ≠ a + 3 := by omega
  simp only [h0, h1, h2, h3, ↓reduceIte]

theorem rd32_wr32_other (m : Int → Nat) (a b : Int) (v : Nat)
    (h : b + 4 ≤ a ∨ a + 4 ≤ b) : rd32 (wr32 m a v) b = rd32 m b := by
  apply rd32_congr
  intro x h1 h2
  exact wr32_other m a v x (by omega)

theorem memset0_other (m : Int → Nat) (p : Int) (n : Nat) (x : Int)
    (h : x < p ∨ p + n ≤ x) : memset0 m p n x = m x := by
  unfold memset0
  have h0 : ¬ (p ≤ x ∧ x < p + n) := by omega
  simp only [h0, ↓reduceIte]

theorem rd32_memset0_other (m : Int → Nat) (p : Int) (n : Nat) (b : Int)
    (h : b + 4 ≤ p ∨ p + n ≤ b) : rd32 (memset0 m p n) b = rd32 m b := by
  apply rd32_congr
  intro x h1 h2
  exact memset0_other m p n x (by omega)

theorem memcpy_other (m : Int → Nat) (dst src : Int) (n : Nat) (x : Int)
    (h : x < dst ∨ dst + n ≤ x) : memcpy m dst src n x = m x := by
  unfold memcpy
  have h0 : ¬ (dst ≤ x ∧ x < dst + n) := by omega
  simp only [h0, ↓reduceIte]

theorem rd32_memcpy_other (m : Int → Nat) (dst src : Int) (n : Nat) (b : Int)
    (h : b + 4 ≤ dst ∨ dst + n ≤ b) : rd32 (memcpy m dst src n) b = rd32 m b := by
  apply rd32_congr
  intro x h1 h2
  exact memcpy_other m dst src n x (by omega)

theorem wr8_other (m : Int → Nat) (a : Int) (v : Nat) (x : Int) (h : x ≠ a) :
    wr8 m a v x = m x := by
  unfold wr8
  simp only [h, ↓reduceIte]

theorem strcpy_other (name : List Nat) (m : Int → Nat) (p : Int) (x : Int)
    (h : x < p ∨ p + name.length + 1 ≤ x) : strcpy m p name x = m x := by
  induction name generalizing m p with
  | nil =>
    rw [strcpy]
    simp only [List.length_nil, Nat.cast_zero, add_zero] at h
    exact wr8_other m p 0 x (by omega)
  | cons c cs ih =>
    rw [strcpy]
    simp only [List.length_cons, Nat.cast_add, Nat.cast_one] at h
    rw [ih (wr8 m p c) (p + 1) (by omega)]
    exact wr8_other m p c x (by omega)

theorem rd32_strcpy_other (name : List Nat) (m : Int → Nat) (p : Int) (b : Int)
    (h : b + 4 ≤ p ∨ p + name.length + 1 ≤ b) : rd32 (strcpy m p name) b = rd32 m b := by
  apply rd32_congr
  intro x h1 h2
  exact strcpy_other name m p x (by omega)

/-! ## Bits of a bitmap -/

theorem and_shift_ne_zero (x n : Nat) : (x &&& (1 <<< n) != 0) = x.testBit n := by
  rw [Nat.one_shiftLeft]
  cases h : x.testBit n
  · have h0 : x &&& 2 ^ n = 0 := by
      apply Nat.eq_of_testBit_eq
      intro i
      simp only [Nat.testBit_and, Nat.testBit_two_pow, Nat.zero_testBit, Bool.and_eq_false_imp,
        decide_eq_false_iff_not]
      intro hx hni
      subst hni
      rw [h] at hx
      exact absurd hx (by decide)
    simp [h0]
  · have h1 : (x &&& 2 ^ n).testBit n = true := by
      simp [h, Nat.testBit_two_pow]
    have h0 : x &&& 2 ^ n ≠ 0 := by
      intro h0
      rw [h0] at h1
      simp at h1
    simp [h0]

theorem bitmap_bit_eq_testBit (bm : Nat → Nat) (k : Nat) :
    bitmap_bit bm k = (bm (k / 8)).testBit (7 - k % 8) := by
  unfold bitmap_bit
  exact and_shift_ne_zero _ _

theorem bitmap_bit_set_keeps (bm : Nat → Nat) (k b : Nat) (h : bitmap_bit bm b = true) :
    bitmap_bit (upd bm (k / 8) (bm (k / 8) ||| (1 <<< (7 - k % 8)))) b = true := by
  rw [bitmap_bit_eq_testBit] at h ⊢
  unfold upd
  by_cases hb : b / 8 = k / 8
  · simp only [hb, ↓reduceIte, Nat.testBit_or]
    rw [hb] at h
    simp [h]
  · simp only [hb, ↓reduceIte]
    exact h

theorem testBit_255_sub (a c : Fin 8) (h : a ≠ c) :
    Nat.testBit (255 - (1 <<< a.val)) c.val = true := by
  revert a c
  decide

theorem bitmap_bit_unset_other (bm : Nat → Nat) (k b : Nat) (h : b ≠ k) :
    bitmap_bit (upd bm (k / 8) (bm (k / 8) &&& (255 - (1 <<< (7 - k % 8))))) b
      = bitmap_bit bm b := by
  rw [bitmap_bit_eq_testBit, bitmap_bit_eq_testBit]
  unfold upd
  by_cases hb : b / 8 = k / 8
  · simp only [hb, ↓reduceIte, Nat.testBit_and]
    have h1 := testBit_255_sub ⟨7 - k % 8, by omega⟩ ⟨7 - b % 8, by omega⟩
      (by
        intro he
        have he1 : 7 - k % 8 = 7 - b % 8 := congrArg Fin.val he
        omega)
    simp only at h1
    rw [h1, Bool.and_true]
  · simp only [hb, ↓reduceIte]

/-! ## A request for one block: `iterate_data_bitmap` with `length = 1` -/

theorem iterate_byte_one (byte ib : Nat) (n j : Nat) (st : scan_state)
    (hc : st.count = 0) (he : st.ext_count = 0) :
    (∀ e, iterate_byte byte 1 ib n j st = Sum.inl e →
      e.2 = 1 ∧ ∃ t, j ≤ t ∧ t < j + n ∧ e.1 = ib + t ∧ byte &&& (1 <<< (7 - t)) = 0) ∧
    (∀ st1, iterate_byte byte 1 ib n j st = Sum.inr st1 →
      st1.count = 0 ∧ st1.ext_count = 0) := by
  induction n generalizing j st with
  | zero =>
    rw [iterate_byte]
    refine ⟨fun e h => by simp at h, fun st1 h => ?_⟩
    simp only [Sum.inr.injEq] at h
    rw [← h]
    exact ⟨hc, he⟩
  | succ n ih =>
    rw [iterate_byte]
    by_cases hb : byte &&& (1 <<< (7 - j)) ≠ 0
    · rw [if_pos hb]
      have hs : (if st.count > st.ext_count then
          { st with ext_start := st.start, ext_count := st.count } else st) = st := by
        rw [hc, he]
        simp
      simp only [hs]
      have h1 := ih (j + 1) { st with count := 0 } rfl he
      refine ⟨fun e h => ?_, fun st1 h => h1.2 st1 h⟩
      obtain ⟨h2, t, h3, h4, h5, h6⟩ := h1.1 e h
      exact ⟨h2, t, by omega, by omega, h5, h6⟩
    · rw [if_neg hb]
      simp only [hc, zero_add, ↓reduceIte]
      refine ⟨fun e h => ?_, fun st1 h => by simp at h⟩
      simp only [Sum.inl.injEq] at h
      rw [← h]
      exact ⟨rfl, j, le_refl j, by omega, rfl, by simpa using hb⟩

theorem iterate_bytes_one (bm : Nat → Nat) (total : Nat) (n i ib : Nat) (st : scan_state)
    (hc : st.count = 0) (he : st.ext_count = 0) (hi : i + n = total / 8 + 1)
    (hib : n ≠ 0 → ib = 8 * i) :
    (∀ e, iterate_bytes bm 1 total n i ib st = Sum.inl e →
      e.2 = 1 ∧ bitmap_bit bm e.1 = false ∧ e.1 < total + 8) ∧
    (∀ st1, iterate_bytes bm 1 total n i ib st = Sum.inr st1 → st1.ext_count = 0) := by
  induction n generalizing i ib st with
  | zero =>
    rw [iterate_bytes]
    refine ⟨fun e h => by simp at h, fun st1 h => ?_⟩
    simp only [Sum.inr.injEq] at h
    rw [← h]
    exact he
  | succ n ih =>
    rw [iterate_bytes]
    have hib1 : ib = 8 * i := hib (by omega)
    have hbit : (if i = total / 8 ∧ total % 8 ≠ 0 then total % 8 else 8) ≤ 8 := by
      split_ifs <;> omega
    have h1 := iterate_byte_one (bm i) ib
      (if i = total / 8 ∧ total % 8 ≠ 0 then total % 8 else 8) 0 st hc he
    revert h1
    cases iterate_byte (bm i) 1 ib (if i = total / 8 ∧ total % 8 ≠ 0 then total % 8 else 8) 0 st with
    | inl e0 =>
      intro h1
      simp only []
      refine ⟨fun e h => ?_, fun st1 h => by simp at h⟩
      simp only [Sum.inl.injEq] at h
      obtain ⟨h2, t, _, h4, h5, h6⟩ := h1.1 e0 rfl
      rw [← h]
      refine ⟨h2, ?_, by omega⟩
      unfold bitmap_bit
      have h7 : e0.1 / 8 = i := by omega
      have h8 : e0.1 % 8 = t := by omega
      rw [h7, h8, h6]
      rfl
    | inr st0 =>
      intro h1
      simp only []
      have h2 := h1.2 st0 rfl
      apply ih (i + 1) _ st0 h2.1 h2.2 (by omega)
      intro hn
      have h9 : ¬ (i = total / 8 ∧ total % 8 ≠ 0) := by omega
      simp only [h9, ↓reduceIte]
      omega

theorem iterate_data_bitmap_one (bm : Nat → Nat) (fs : fs_ctx) (s c : Nat)
    (h : iterate_data_bitmap bm 1 fs = some (s, c)) :
    c = 1 ∧ bitmap_bit bm s = false ∧ s < fs.sb.data_block_count + 8 := by
  unfold iterate_data_bitmap at h
  simp only [] at h
  have h1 := iterate_bytes_one bm fs.sb.data_block_count (fs.sb.data_block_count / 8 + 1) 0 0
    ⟨0, 0, 0, 0⟩ rfl rfl (by omega) (by omega)
  revert h h1
  cases iterate_bytes bm 1 fs.sb.data_block_count (fs.sb.data_block_count / 8 + 1) 0 0
    ⟨0, 0, 0, 0⟩ with
  | inl e =>
    intro h h1
    simp only [Option.some.injEq] at h
    have h2 := h1.1 e rfl
    rw [h] at h2
    exact h2
  | inr st1 =>
    intro h h1
    have h2 := h1.2 st1 rfl
    simp only [h2, ↓reduceIte] at h
    exact absurd h (by simp)

/-! ## One block for a directory -/

theorem set_block_loop_one (dp b : Nat) (fs fs1 : fs_ctx)
    (ht : dir_table fs (fs.itable dp) b)
    (hce : (fs.itable dp).count_extent < 512)
    (hdbc : fs.sb.data_block_count + 8 ≤ 2147483648)
    (h : set_block_loop dp 1 1 fs = (0, fs1)) :
    dir_table fs1 (fs1.itable dp) b ∧
    (fs1.itable dp).count_extent = (fs.itable dp).count_extent + 1 ∧
    (fs1.itable dp).size = (fs.itable dp).size ∧
    fs1.sb.data_block_count = fs.sb.data_block_count := by
  rw [set_block_loop] at h
  simp only [gt_iff_lt, zero_lt_one, ↓reduceIte, Int.toNat_one] at h
  cases hit : iterate_data_bitmap fs.dbitmap 1 fs with
  | none =>
    rw [hit] at h
    simp at h
  | some e =>
    obtain ⟨s, c⟩ := e
    obtain ⟨hc, hbit, hs⟩ := iterate_data_bitmap_one _ _ _ _ hit
    subst hc
    rw [hit] at h
    simp only [set_block_loop, set_block_run, Prod.mk.injEq, true_and] at h
    subst h
    obtain ⟨hib, hbb, hext⟩ := ht
    have hsb : s ≠ b := by
      intro he
      rw [he, hbb] at hbit
      exact absurd hbit (by decide)
    refine ⟨⟨?_, ?_, ?_⟩, ?_, ?_, ?_⟩
    · simp only [set_flip_block_bitmap, upd_same]
      exact hib
    · simp only [set_flip_block_bitmap]
      exact bitmap_bit_set_keeps _ _ _ hbb
    · intro i hi
      simp only [set_flip_block_bitmap, upd_same] at hi
      simp only [set_flip_block_bitmap, extent_table, block_addr, extent_count, extent_start,
        hib, A1FS_BLOCK_SIZE, sizeof_a1fs_extent, Nat.cast_ofNat] at hext ⊢
      by_cases hlt : i < (fs.itable dp).count_extent
      · rw [rd32_wr32_other _ _ _ _ (by omega), rd32_wr32_other _ _ _ _ (by omega),
          rd32_memset0_other _ _ _ _ (by omega), rd32_wr32_other _ _ _ _ (by omega),
          rd32_wr32_other _ _ _ _ (by omega), rd32_memset0_other _ _ _ _ (by omega)]
        exact hext i hlt
      · have hie : i = (fs.itable dp).count_extent := by omega
        subst hie
        rw [rd32_wr32_same _ _ _ (by omega), rd32_wr32_other _ _ _ _ (by omega),
          rd32_wr32_same _ _ _ (by omega)]
        exact ⟨rfl, hsb, by omega⟩
    · simp only [set_flip_block_bitmap, upd_same]
    · simp only [set_flip_block_bitmap, upd_same]
    · simp only [set_flip_block_bitmap]

theorem bitmap_bit_set_self (bm : Nat → Nat) (k : Nat) :
    bitmap_bit (upd bm (k / 8) (bm (k / 8) ||| (1 <<< (7 - k % 8)))) k = true := by
  rw [bitmap_bit_eq_testBit]
  simp only [upd, ↓reduceIte, Nat.testBit_or, Nat.one_shiftLeft, Nat.testBit_two_pow_self,
    Bool.or_true]

theorem dir_table_frame (fs fs1 : fs_ctx) (d d1 : a1fs_inode) (b : Nat)
    (ht : dir_table fs d b)
    (hsb : fs1.sb.s_first_data_block = fs.sb.s_first_data_block)
    (hbm : bitmap_bit fs1.dbitmap b = true)
    (hd : d1.indirect_block = d.indirect_block)
    (hce : d1.count_extent ≤ d.count_extent)
    (h512 : d.count_extent ≤ 512)
    (hmem : ∀ x : Int, block_addr fs b ≤ x → x < block_addr fs b + 4096 → fs1.mem x = fs.mem x) :
    dir_table fs1 d1 b := by
  obtain ⟨hib, _, hext⟩ := ht
  refine ⟨by rw [hd, hib], hbm, ?_⟩
  intro i hi
  have h1 := hext i (by omega)
  have hba : block_addr fs1 b = block_addr fs b := by
    unfold block_addr
    rw [hsb]
  have hs : extent_start fs1 (block_addr fs1 b) i = extent_start fs (block_addr fs b) i := by
    unfold extent_start
    rw [hba]
    apply rd32_congr
    intro x hx1 hx2
    simp only [sizeof_a1fs_extent, Nat.cast_ofNat] at hx1 hx2
    exact hmem x (by omega) (by omega)
  have hc : extent_count fs1 (block_addr fs1 b) i = extent_count fs (block_addr fs b) i := by
    unfold extent_count
    rw [hba]
    apply rd32_congr
    intro x hx1 hx2
    simp only [sizeof_a1fs_extent, Nat.cast_ofNat] at hx1 hx2
    exact hmem x (by omega) (by omega)
  rw [hs, hc]
  exact h1

theorem last_block_eq (fs : fs_ctx) (d : a1fs_inode) (b : Nat)
    (ht : dir_table fs d b) (h1 : 1 ≤ d.count_extent) (h512 : d.count_extent ≤ 512) :
    ∃ s : Nat, last_block fs d = (s : Int) ∧ s ≠ b ∧
      extent_start fs (block_addr fs b) ((d.count_extent : Int) - 1) = s ∧
      extent_count fs (block_addr fs b) ((d.count_extent : Int) - 1) = 1 := by
  obtain ⟨hib, _, hext⟩ := ht
  have h2 := hext (d.count_extent - 1) (by omega)
  have h3 : (((d.count_extent - 1 : Nat)) : Int) = (d.count_extent : Int) - 1 := by omega
  rw [h3] at h2
  refine ⟨extent_start fs (block_addr fs b) ((d.count_extent : Int) - 1), ?_, h2.2.1, rfl, h2.1⟩
  unfold last_block extent_table
  simp only []
  rw [int32_of_small _ (by omega), hib, h2.1]
  have h4 := int32_of_small _ h2.2.2
  simp only [Nat.cast_one, add_sub_cancel_right]
  exact h4

theorem set_block_one (dp : Nat) (fs fs1 : fs_ctx)
    (ht : ((fs.itable dp).indirect_block = -1 ∧ (fs.itable dp).count_extent = 0) ∨
      ∃ b : Nat, dir_table fs (fs.itable dp) b)
    (hce : (fs.itable dp).count_extent ≤ 512)
    (hdbc : fs.sb.data_block_count + 8 ≤ 2147483648)
    (h : set_block dp 1 fs = (0, fs1)) :
    (∃ b : Nat, dir_table fs1 (fs1.itable dp) b) ∧
    (fs1.itable dp).count_extent = (fs.itable dp).count_extent + 1 ∧
    (fs.itable dp).count_extent < 512 ∧
    (fs1.itable dp).size = (fs.itable dp).size ∧
    fs1.sb.data_block_count = fs.sb.data_block_count := by
  unfold set_block at h
  simp only [] at h
  by_cases h1 : fs.sb.s_free_blocks_count = 0
  · simp only [h1, ↓reduceIte, Prod.mk.injEq] at h
    exact absurd h.1 (by decide)
  simp only [h1, ↓reduceIte] at h
  by_cases h2 : (1 : Int) > int32 fs.sb.s_free_blocks_count
  · simp only [h2, ↓reduceIte, Prod.mk.injEq] at h
    exact absurd h.1 (by decide)
  simp only [h2, ↓reduceIte] at h
  by_cases h3 : (fs.itable dp).count_extent = A1FS_BLOCK_SIZE / sizeof_a1fs_extent
  · simp only [h3, ↓reduceIte, Prod.mk.injEq] at h
    exact absurd h.1 (by decide)
  simp only [h3, ↓reduceIte] at h
  have h3a : (fs.itable dp).count_extent < 512 := by
    simp only [A1FS_BLOCK_SIZE, sizeof_a1fs_extent] at h3
    omega
  by_cases h4 : (fs.itable dp).indirect_block = -1
  · simp only [h4, ↓reduceIte, Int.toNat_one] at h
    have hce0 : (fs.itable dp).count_extent = 0 := by
      rcases ht with ht | ⟨b, ht⟩
      · exact ht.2
      · have := ht.1
        omega
    cases hit : iterate_data_bitmap fs.dbitmap 1 fs with
    | none =>
      rw [hit] at h
      simp at h
    | some e =>
      obtain ⟨s, c⟩ := e
      rw [hit] at h
      simp only [] at h
      have h5 := set_block_loop_one dp s _ fs1 ?_ ?_ ?_ h
      · simp only [set_flip_block_bitmap, upd_same] at h5
        exact ⟨⟨s, h5.1⟩, h5.2.1, h3a, h5.2.2.1, h5.2.2.2⟩
      · refine ⟨?_, ?_, ?_⟩
        · simp only [set_flip_block_bitmap, upd_same]
        · simp only [set_flip_block_bitmap]
          exact bitmap_bit_set_self _ _
        · intro i hi
          simp only [set_flip_block_bitmap, upd_same, hce0] at hi
          omega
      · simp only [set_flip_block_bitmap, upd_same]
        omega
      · simp only [set_flip_block_bitmap]
        exact hdbc
  · simp only [h4, ↓reduceIte, Int.toNat_one] at h
    rcases ht with ht | ⟨b, ht⟩
    · exact absurd ht.1 h4
    · have h5 := set_block_loop_one dp b fs fs1 ht h3a hdbc h
      exact ⟨⟨b, h5.1⟩, h5.2.1, h3a, h5.2.2.1, h5.2.2.2⟩

/-! ## `add_dentry` and `rm_dentry` keep the invariant -/

theorem add_dentry_inv (dp ino : Nat) (name : List Nat) (fs : fs_ctx)
    (hinv : dir_inv dp fs) (hname : name.length < A1FS_NAME_MAX)
    (h : (add_dentry dp name ino fs).1 = 0) :
    dir_inv dp (add_dentry dp name ino fs).2 := by
  obtain ⟨hrec, hle, hlt, hce, hdbc, ht⟩ := hinv
  simp only [A1FS_BLOCK_SIZE, sizeof_a1fs_dentry, sizeof_a1fs_extent, Nat.reduceDiv] at hrec hle hlt hce
  simp only [A1FS_NAME_MAX] at hname
  -- the block that `set_block` may add
  have hstep : ∃ fs1 : fs_ctx,
      (if (fs.itable dp).size % A1FS_BLOCK_SIZE = 0 then set_block dp 1 fs else (0, fs))
        = (0, fs1) ∧
      (∃ b : Nat, dir_table fs1 (fs1.itable dp) b) ∧
      (fs1.itable dp).size = (fs.itable dp).size ∧
      (fs1.itable dp).size < 4096 * (fs1.itable dp).count_extent ∧
      4096 * (fs1.itable dp).count_extent ≤ (fs1.itable dp).size + 4096 ∧
      (fs1.itable dp).count_extent ≤ 512 ∧
      fs1.sb.data_block_count = fs.sb.data_block_count := by
    by_cases h0 : (fs.itable dp).size % A1FS_BLOCK_SIZE = 0
    · unfold add_dentry at h
      simp only [h0, ↓reduceIte] at h ⊢
      by_cases hr : (set_block dp 1 fs).1 = 0
      · have hr1 : set_block dp 1 fs = (0, (set_block dp 1 fs).2) := by
          rw [← hr]
        obtain ⟨h1, h2, h3, h4, h5⟩ := set_block_one dp fs _ ht hce hdbc hr1
        simp only [A1FS_BLOCK_SIZE] at h0
        exact ⟨_, hr1, h1, h4, by omega, by omega, by omega, h5⟩
      · simp only [ne_eq, hr, not_false_eq_true, ↓reduceIte] at h
        exact absurd h (by decide)
    · simp only [h0, ↓reduceIte]
      simp only [A1FS_BLOCK_SIZE] at h0
      refine ⟨fs, rfl, ?_, rfl, by omega, by omega, hce, rfl⟩
      rcases ht with ht | ht
      · have := ht.2
        omega
      · exact ht
  obtain ⟨fs1, hr, ⟨b, htab⟩, hsz, hlt1, hle1, hce1, hdbc1⟩ := hstep
  unfold add_dentry
  simp only [hr, ne_eq, not_true_eq_false, ↓reduceIte]
  obtain ⟨s, hlast, hsb, _, _⟩ := last_block_eq fs1 (fs1.itable dp) b htab (by omega) hce1
  have hoff : (fs.itable dp).size % 4096 + 256 ≤ 4096 := by omega
  refine ⟨?_, ?_, ?_, ?_, ?_, Or.inr ⟨b, ?_⟩⟩
  · simp only [upd_same, sizeof_a1fs_dentry]
    rw [u64_add_small _ _ (by omega)]
    omega
  · simp only [upd_same, sizeof_a1fs_dentry, A1FS_BLOCK_SIZE]
    rw [u64_add_small _ _ (by omega)]
    omega
  · simp only [upd_same, sizeof_a1fs_dentry, A1FS_BLOCK_SIZE]
    rw [u64_add_small _ _ (by omega)]
    omega
  · simp only [upd_same, sizeof_a1fs_extent, A1FS_BLOCK_SIZE, Nat.reduceDiv]
    exact hce1
  · simp only []
    omega
  · refine dir_table_frame fs1 _ (fs1.itable dp) _ b htab ?_ ?_ ?_ ?_ hce1 ?_
    · rfl
    · exact htab.2.1
    · simp only [upd_same]
    · simp only [upd_same]
      exact le_refl _
    · intro x hx1 hx2
      simp only [hlast]
      simp only [block_addr, A1FS_BLOCK_SIZE, Nat.cast_ofNat] at hx1 hx2 ⊢
      rw [strcpy_other name _ _ x (by omega), wr32_other _ _ _ x (by omega)]

theorem u64_add_neg_small (c n : Nat) (h : n ≤ c) (hc : c < 18446744073709551616) :
    u64_add c (-(n : Int)) = c - n := by
  unfold u64_add
  omega

theorem unset_block_one (dp b : Nat) (fs : fs_ctx)
    (ht : dir_table fs (fs.itable dp) b)
    (h1 : 1 ≤ (fs.itable dp).count_extent) (h512 : (fs.itable dp).count_extent ≤ 512) :
    ∃ fs1 : fs_ctx, unset_block dp 1 fs = some (0, fs1) ∧
      dir_table fs1 (fs1.itable dp) b ∧
      (fs1.itable dp).count_extent = (fs.itable dp).count_extent - 1 ∧
      (fs1.itable dp).size = (fs.itable dp).size ∧
      fs1.sb.data_block_count = fs.sb.data_block_count := by
  obtain ⟨s, _, hsb, hst, hcnt⟩ := last_block_eq fs (fs.itable dp) b ht h1 h512
  have hib := ht.1
  unfold unset_block
  simp only []
  rw [unset_block_loop]
  simp only [gt_iff_lt, zero_lt_one, ↓reduceIte, extent_table, hib, int32_of_small _
    (show (fs.itable dp).count_extent < 2147483648 by omega), hcnt, hst]
  rw [unset_run_up, unset_run_up]
  refine ⟨_, rfl, ?_, ?_, ?_, ?_⟩
  · refine dir_table_frame fs _ (fs.itable dp) _ b ht ?_ ?_ ?_ ?_ h512 ?_
    · rfl
    · simp only [unset_flip_block_bitmap]
      rw [bitmap_bit_unset_other _ _ _ (Ne.symm hsb)]
      exact ht.2.1
    · simp only [unset_flip_block_bitmap, upd_same]
      exact hib.symm
    · simp only [unset_flip_block_bitmap, upd_same, u32_dec]
      split_ifs <;> omega
    · intro x _ _
      rfl
  · simp only [unset_flip_block_bitmap, upd_same, u32_dec]
    split_ifs <;> omega
  · simp only [unset_flip_block_bitmap, upd_same]
  · simp only [unset_flip_block_bitmap]

theorem rm_dentry_inv (dp i k m : Nat) (fs : fs_ctx) (r : Int × fs_ctx)
    (hinv : dir_inv dp fs)
    (hi : i < (fs.itable dp).count_extent)
    (hk : k < extent_count fs (extent_table fs (fs.itable dp)) i)
    (hm : m < A1FS_BLOCK_SIZE / sizeof_a1fs_dentry)
    (h : rm_dentry dp
      (record_addr fs ((extent_start fs (extent_table fs (fs.itable dp)) i : Int) + k) m) fs
      = some r) :
    dir_inv dp r.2 := by
  obtain ⟨hrec, hle, hlt, hce, hdbc, ht⟩ := hinv
  simp only [A1FS_BLOCK_SIZE, sizeof_a1fs_dentry, sizeof_a1fs_extent, Nat.reduceDiv]
    at hrec hle hlt hce hm
  have htab : ∃ b : Nat, dir_table fs (fs.itable dp) b := by
    rcases ht with ht | ht
    · have := ht.2
      omega
    · exact ht
  obtain ⟨b, htab⟩ := htab
  have hib := htab.1
  obtain ⟨hcnt, hne, hsmall⟩ := htab.2.2 i hi
  simp only [extent_table, hib] at hk h
  rw [hcnt] at hk
  have hk0 : k = 0 := by omega
  subst hk0
  generalize hs : extent_start fs (block_addr fs ↑b) ↑i = s at h hne hsmall
  have hsize : u64_add (fs.itable dp).size (-((sizeof_a1fs_dentry : Nat) : Int))
      = (fs.itable dp).size - 256 :=
    u64_add_neg_small _ 256 (by omega) (by omega)
  unfold rm_dentry at h
  simp only [hsize] at h
  -- the image after the copy and the new size
  obtain ⟨fs1, hfs1⟩ : ∃ x : fs_ctx, x =
      { fs with
        mem := memcpy fs.mem (record_addr fs ((s : Int) + ((0 : Nat) : Int)) m)
          (block_addr fs (last_block fs (fs.itable dp)) + ((fs.itable dp).size % A1FS_BLOCK_SIZE : Nat)
            - sizeof_a1fs_dentry * ((sizeof_a1fs_dentry : Nat) : Int)) sizeof_a1fs_dentry
        itable := upd fs.itable dp { fs.itable dp with size := (fs.itable dp).size - 256 } } :=
    ⟨_, rfl⟩
  rw [← hfs1] at h
  have htab1 : dir_table fs1 (fs1.itable dp) b := by
    rw [hfs1]
    refine dir_table_frame fs _ (fs.itable dp) _ b htab ?_ ?_ ?_ ?_ hce ?_
    · rfl
    · exact htab.2.1
    · simp only [upd_same]
    · simp only [upd_same]
      exact le_refl _
    · intro x hx1 hx2
      simp only [record_addr, block_addr, A1FS_BLOCK_SIZE, sizeof_a1fs_dentry, Nat.cast_ofNat,
        Nat.cast_zero, add_zero] at hx1 hx2 ⊢
      rw [memcpy_other _ _ _ _ x (by omega)]
  have hsz1 : (fs1.itable dp).size = (fs.itable dp).size - 256 := by
    rw [hfs1]
    simp only [upd_same]
  have hce1 : (fs1.itable dp).count_extent = (fs.itable dp).count_extent := by
    rw [hfs1]
    simp only [upd_same]
  have hdbc1 : fs1.sb.data_block_count = fs.sb.data_block_count := by
    rw [hfs1]
  by_cases hz : ((fs.itable dp).size - 256) % A1FS_BLOCK_SIZE = 0
  · simp only [hz, ↓reduceIte] at h
    obtain ⟨fs2, hu, ht2, hce2, hsz2, hdbc2⟩ :=
      unset_block_one dp b fs1 htab1 (by omega) (by omega)
    rw [hu] at h
    simp only [ne_eq, not_true_eq_false, ↓reduceIte, Option.some.injEq] at h
    rw [← h]
    simp only [A1FS_BLOCK_SIZE] at hz
    refine ⟨?_, ?_, ?_, ?_, ?_, Or.inr ⟨b, ht2⟩⟩ <;>
      simp only [A1FS_BLOCK_SIZE, sizeof_a1fs_dentry, sizeof_a1fs_extent, Nat.reduceDiv] <;> omega
  · simp only [hz, ↓reduceIte, Option.some.injEq] at h
    rw [← h]
    simp only [A1FS_BLOCK_SIZE] at hz
    refine ⟨?_, ?_, ?_, ?_, ?_, Or.inr ⟨b, htab1⟩⟩ <;>
      simp only [A1FS_BLOCK_SIZE, sizeof_a1fs_dentry, sizeof_a1fs_extent, Nat.reduceDiv] <;> omega

theorem dir_step_inv (dp : Nat) (c : dir_call) (fs fs1 : fs_ctx)
    (hinv : dir_inv dp fs) (h : dir_step dp fs c = some fs1) : dir_inv dp fs1 := by
  cases c with
  | add name ino =>
    unfold dir_step at h
    by_cases hc : name.length < A1FS_NAME_MAX ∧ (add_dentry dp name ino fs).1 = 0
    · simp only [hc, and_self, ↓reduceIte, Option.some.injEq] at h
      rw [← h]
      exact add_dentry_inv dp ino name fs hinv hc.1 hc.2
    · simp only [hc, ↓reduceIte] at h
      exact absurd h (by simp)
  | rm i k m =>
    unfold dir_step at h
    simp only [] at h
    by_cases hc : i < (fs.itable dp).count_extent
        ∧ k < extent_count fs (extent_table fs (fs.itable dp)) i
        ∧ m < A1FS_BLOCK_SIZE / sizeof_a1fs_dentry
    · simp only [hc, and_self, ↓reduceIte] at h
      cases hrm : rm_dentry dp
        (record_addr fs ((extent_start fs (extent_table fs (fs.itable dp)) i : Int) + k) m) fs with
      | none =>
        rw [hrm] at h
        exact absurd h (by simp)
      | some r =>
        rw [hrm] at h
        simp only [] at h
        by_cases hr : r.1 = 0
        · simp only [hr, ↓reduceIte, Option.some.injEq] at h
          rw [← h]
          exact rm_dentry_inv dp i k m fs r hinv hc.1 hc.2.1 hc.2.2 hrm
        · simp only [hr, ↓reduceIte] at h
          exact absurd h (by simp)
    · simp only [hc, ↓reduceIte] at h
      exact absurd h (by simp)

theorem dir_run_inv (dp : Nat) (calls : List dir_call) (fs fs1 : fs_ctx)
    (hinv : dir_inv dp fs) (h : dir_run dp calls fs = some fs1) : dir_inv dp fs1 := by
  induction calls generalizing fs with
  | nil =>
    rw [dir_run] at h
    simp only [Option.some.injEq] at h
    rw [← h]
    exact hinv
  | cons c cs ih =>
    rw [dir_run] at h
    cases hs : dir_step dp fs c with
    | none =>
      rw [hs] at h
      exact absurd h (by simp)
    | some fs2 =>
      rw [hs] at h
      exact ih fs2 (dir_step_inv dp c fs fs2 hinv hs) h

theorem sum_map_ones (f : Nat → Nat) (n : Nat) (h : ∀ i : Nat, i < n → f i = 1) :
    ((List.range n).map f).sum = n := by
  induction n with
  | zero => rfl
  | succ n ih =>
    rw [List.range_succ, List.map_append, List.sum_append, ih (fun i hi => h i (by omega))]
    simp only [List.map_cons, List.map_nil, List.sum_cons, List.sum_nil, add_zero]
    rw [h n (by omega)]

theorem flatMap_cast (l : List Nat) :
    List.flatMap l (fun a : Nat => [(a : Int)]) = List.map (fun a : Nat => (a : Int)) l := by
  induction l with
  | nil => rfl
  | cons a l ih =>
    rw [List.flatMap_cons, ih]
    rfl

theorem extent_blocks_eq (fs : fs_ctx) (d : a1fs_inode) :
    extent_blocks fs d
      = ((List.range d.count_extent).map
          fun i : Nat => extent_count fs (extent_table fs d) (i : Int)).sum := by
  unfold extent_blocks
  simp only [List.pure_def, List.bind_eq_flatMap]
  rw [flatMap_cast, List.map_map]
  rfl

theorem extent_blocks_of_inv (dp : Nat) (fs : fs_ctx) (hinv : dir_inv dp fs) :
    extent_blocks fs (fs.itable dp) = (fs.itable dp).count_extent := by
  obtain ⟨_, _, _, _, _, ht⟩ := hinv
  rw [extent_blocks_eq]
  apply sum_map_ones
  intro i hi
  rcases ht with ht | ⟨b, ht⟩
  · have := ht.2
    omega
  · simp only [extent_table, ht.1]
    exact (ht.2.2 i hi).1

theorem some_image_after (o : Option fs_ctx) (h : o.isSome = true) :
    o = some (image_after o) := by
  cases o with
  | none => simp at h
  | some x => rfl

/-- C21.  For every directory `dp` that is empty (size 0, no extents, with no
extent-table block or one that is marked in the block bitmap) on an image
whose data block numbers fit an `int`, and for every sequence of successful
calls of `add_dentry` and `rm_dentry` on it (`dir_run`: each call returns 0,
each name fits the buffer of `add_dentry`, each entry removed lies in a block
of the directory): afterwards the size is a multiple of `sizeof(a1fs_dentry)`
and is at most the sum of the extent lengths times `A1FS_BLOCK_SIZE`. -/
theorem c21_directory_size_invariant (dp : Nat) (calls : List dir_call) (fs fs1 : fs_ctx)
    (hsize : (fs.itable dp).size = 0)
    (hext : (fs.itable dp).count_extent = 0)
    (htab : (fs.itable dp).indirect_block = -1 ∨
      ∃ b : Nat, (fs.itable dp).indirect_block = (b : Int) ∧ bitmap_bit fs.dbitmap b = true)
    (hdbc : fs.sb.data_block_count + 8 ≤ 2147483648)
    (hrun : dir_run dp calls fs = some fs1) :
    (fs1.itable dp).size % sizeof_a1fs_dentry = 0 ∧
    (fs1.itable dp).size ≤ extent_blocks fs1 (fs1.itable dp) * A1FS_BLOCK_SIZE := by
  have hinv : dir_inv dp fs := by
    refine ⟨by rw [hsize]; rfl, by rw [hsize]; exact Nat.zero_le _, ?_,
      by rw [hext]; exact Nat.zero_le _, hdbc, ?_⟩
    · rw [hsize, hext]
      decide
    · rcases htab with htab | ⟨b, hb1, hb2⟩
      · exact Or.inl ⟨htab, hext⟩
      · exact Or.inr ⟨b, hb1, hb2, fun i hi => by omega⟩
  have hinv1 := dir_run_inv dp calls fs fs1 hinv hrun
  rw [extent_blocks_of_inv dp fs1 hinv1]
  obtain ⟨h1, h2, _⟩ := hinv1
  refine ⟨h1, ?_⟩
  rw [Nat.mul_comm]
  exact h2

/-- Witness of C21: on `fs_fresh` the root directory (inode 0) is empty; the
calls `calls_abc` are all successful, and the root then has size 256 and one
extent of one block. -/
theorem c21_directory_size_invariant_witness :
    ((fs_fresh.itable 0).size = 0 ∧ (fs_fresh.itable 0).count_extent = 0 ∧
      (fs_fresh.itable 0).indirect_block = -1 ∧
      fs_fresh.sb.data_block_count + 8 ≤ 2147483648 ∧
      dir_run 0 calls_abc fs_fresh = some (image_after (dir_run 0 calls_abc fs_fresh))) ∧
    (((image_after (dir_run 0 calls_abc fs_fresh)).itable 0).size,
      extent_blocks (image_after (dir_run 0 calls_abc fs_fresh))
        ((image_after (dir_run 0 calls_abc fs_fresh)).itable 0)) = (256, 1) ∧
    ((image_after (dir_run 0 calls_abc fs_fresh)).itable 0).size % sizeof_a1fs_dentry = 0 ∧
    ((image_after (dir_run 0 calls_abc fs_fresh)).itable 0).size ≤
      extent_blocks (image_after (dir_run 0 calls_abc fs_fresh))
        ((image_after (dir_run 0 calls_abc fs_fresh)).itable 0) * A1FS_BLOCK_SIZE :=
  ⟨⟨by decide!, by decide!, by decide!, by decide!, some_image_after _ (by decide!)⟩,
    by decide!,
    c21_directory_size_invariant 0 calls_abc fs_fresh _ (by decide!) (by decide!)
      (Or.inl (by decide!)) (by decide!) (some_image_after _ (by decide!))⟩

/-! ## Formatting -/

/-- C22, at a failing input.  For an image of 4 blocks and 16 inodes of 64
bytes, one block is left after the superblock, the inode bitmap and the inode
table.  The rounding step adds a bitmap block only when the remainder is
greater than 1, so `mkfs` reserves no data-bitmap block for the one data block:
`inode_bitmap` equals `dblock_bitmap` and `data_block_count = 1` exceeds the 0
bits of the data-bitmap region.  For an image of 32773 blocks one bitmap block
of 32768 bits stands for 32769 data blocks. -/
theorem c22_data_bitmap_block_missing :
    layout (mkfs image0 (4 * A1FS_BLOCK_SIZE) 16 64).2 = (1, 1, 2, 3, 1) ∧
    ¬ (mkfs image0 (4 * A1FS_BLOCK_SIZE) 16 64).2.sb.data_block_count ≤
        ((mkfs image0 (4 * A1FS_BLOCK_SIZE) 16 64).2.sb.inode_bitmap
          - (mkfs image0 (4 * A1FS_BLOCK_SIZE) 16 64).2.sb.dblock_bitmap) * (A1FS_BLOCK_SIZE * 8) ∧
    layout (mkfs image0 (32773 * A1FS_BLOCK_SIZE) 16 64).2 = (1, 2, 3, 4, 32769) ∧
    ¬ (mkfs image0 (32773 * A1FS_BLOCK_SIZE) 16 64).2.sb.data_block_count ≤
        ((mkfs image0 (32773 * A1FS_BLOCK_SIZE) 16 64).2.sb.inode_bitmap
          - (mkfs image0 (32773 * A1FS_BLOCK_SIZE) 16 64).2.sb.dblock_bitmap)
          * (A1FS_BLOCK_SIZE * 8) := by
  decide!

/-- C23 as stated fails for an image whose block count does not fit the
`unsigned int` that `mkfs` keeps it in: for 4294967316 blocks (2^32 + 20) and
16 inodes of 64 bytes the three blocks of superblock, inode bitmap and inode
table fit, but `mkfs` lays out 20 blocks, so `s_first_data_block +
data_block_count` is 20. -/
theorem c23_layout_wraps_counterexample :
    1 + (16 / (A1FS_BLOCK_SIZE * 8) + if 16 % (A1FS_BLOCK_SIZE * 8) ≠ 0 then 1 else 0)
      + (16 / 64 + if 16 % 64 ≠ 0 then 1 else 0) ≤ 4294967316 ∧
    layout (mkfs image0 (4294967316 * A1FS_BLOCK_SIZE) 16 64).2 = (1, 2, 3, 4, 16) ∧
    (mkfs image0 (4294967316 * A1FS_BLOCK_SIZE) 16 64).2.sb.s_first_data_block
      + (mkfs image0 (4294967316 * A1FS_BLOCK_SIZE) 16 64).2.sb.data_block_count
      ≠ 4294967316 := by
  decide!

/-- C23 (amended).  For every previous content of the image, every block
count `T` and inode count `n` below 2^32 (the range of `unsigned int`) and
every number of inodes per block, when the superblock, the inode bitmap and the
inode table fit in `T` blocks: `mkfs` sets `dblock_bitmap = 1 <= inode_bitmap
<= inode_table <= s_first_data_block`; `inode_bitmap - dblock_bitmap` is the
data-bitmap block count that `mkfs` computes from the blocks left over,
`inode_table - inode_bitmap` and `s_first_data_block - inode_table` are the
inode-bitmap and inode-table block counts, and `s_first_data_block +
data_block_count = T`. -/
theorem c23_layout_partitions_image (image : fs_ctx) (T n inodes_per_block : Nat)
    (hT : T < 4294967296) (hn : n < 4294967296)
    (hfit : 1 + (n / (A1FS_BLOCK_SIZE * 8) + if n % (A1FS_BLOCK_SIZE * 8) ≠ 0 then 1 else 0)
      + (n / inodes_per_block + if n % inodes_per_block ≠ 0 then 1 else 0) ≤ T) :
    (mkfs image (T * A1FS_BLOCK_SIZE) n inodes_per_block).2.sb.dblock_bitmap = 1 ∧
    1 ≤ (mkfs image (T * A1FS_BLOCK_SIZE) n inodes_per_block).2.sb.inode_bitmap ∧
    (mkfs image (T * A1FS_BLOCK_SIZE) n inodes_per_block).2.sb.inode_bitmap
      ≤ (mkfs image (T * A1FS_BLOCK_SIZE) n inodes_per_block).2.sb.inode_table ∧
    (mkfs image (T * A1FS_BLOCK_SIZE) n inodes_per_block).2.sb.inode_table
      ≤ (mkfs image (T * A1FS_BLOCK_SIZE) n inodes_per_block).2.sb.s_first_data_block ∧
    (mkfs image (T * A1FS_BLOCK_SIZE) n inodes_per_block).2.sb.inode_bitmap
      - (mkfs image (T * A1FS_BLOCK_SIZE) n inodes_per_block).2.sb.dblock_bitmap
      = (T - 1 - (n / (A1FS_BLOCK_SIZE * 8) + if n % (A1FS_BLOCK_SIZE * 8) ≠ 0 then 1 else 0)
          - (n / inodes_per_block + if n % inodes_per_block ≠ 0 then 1 else 0))
          / (1 + A1FS_BLOCK_SIZE * 8)
        + (if (T - 1 - (n / (A1FS_BLOCK_SIZE * 8) + if n % (A1FS_BLOCK_SIZE * 8) ≠ 0 then 1 else 0)
          - (n / inodes_per_block + if n % inodes_per_block ≠ 0 then 1 else 0))
          % (1 + A1FS_BLOCK_SIZE * 8) > 1 then 1 else 0) ∧
    (mkfs image (T * A1FS_BLOCK_SIZE) n inodes_per_block).2.sb.inode_table
      - (mkfs image (T * A1FS_BLOCK_SIZE) n inodes_per_block).2.sb.inode_bitmap
      = (n / (A1FS_BLOCK_SIZE * 8) + if n % (A1FS_BLOCK_SIZE * 8) ≠ 0 then 1 else 0) ∧
    (mkfs image (T * A1FS_BLOCK_SIZE) n inodes_per_block).2.sb.s_first_data_block
      - (mkfs image (T * A1FS_BLOCK_SIZE) n inodes_per_block).2.sb.inode_table
      = (n / inodes_per_block + if n % inodes_per_block ≠ 0 then 1 else 0) ∧
    (mkfs image (T * A1FS_BLOCK_SIZE) n inodes_per_block).2.sb.s_first_data_block
      + (mkfs image (T * A1FS_BLOCK_SIZE) n inodes_per_block).2.sb.data_block_count = T := by
  have h1 : T * A1FS_BLOCK_SIZE / A1FS_BLOCK_SIZE = T := Nat.mul_div_cancel T (by decide)
  have hti : uint32 ((n : Nat) : Int) = n := by unfold uint32; omega
  have hTi : uint32 ((T : Nat) : Int) = T := by unfold uint32; omega
  simp only [mkfs, h1, hti, hTi]
  simp only [A1FS_BLOCK_SIZE, Nat.reduceMul, Nat.reduceAdd] at hfit ⊢
  generalize (n / 32768 + if n % 32768 ≠ 0 then 1 else 0) = nib at hfit ⊢
  generalize (n / inodes_per_block + if n % inodes_per_block ≠ 0 then 1 else 0) = nit at hfit ⊢
  have hl : uint32 ((T : Int) - 1 - (nib : Int) - (nit : Int)) = T - 1 - nib - nit := by
    unfold uint32; omega
  rw [hl]
  have hleft : T - 1 - nib - nit < 4294967296 := by omega
  have hsum : 1 + nib + nit + (T - 1 - nib - nit) = T := by omega
  generalize T - 1 - nib - nit = left at hleft hsum ⊢
  have hq : int32 ((left / 32769 : Nat) : Int) = (left / 32769 : Nat) := by
    apply int32_of_small
    omega
  rw [hq]
  have hd : ((left / 32769 : Nat) : Int) + (if left % 32769 > 1 then 1 else 0)
      = ((left / 32769 + if left % 32769 > 1 then 1 else 0 : Nat) : Int) := by
    split_ifs <;> simp
  rw [hd]
  have hdle : (left / 32769 + if left % 32769 > 1 then 1 else 0) ≤ left := by
    split_ifs <;> omega
  generalize (left / 32769 + if left % 32769 > 1 then 1 else 0) = dbm at hdle ⊢
  unfold uint32
  refine ⟨trivial, ?_, ?_, ?_, ?_, ?_, ?_, ?_⟩ <;> omega

/-- Witness of C23 (amended): an image of 26 blocks and 960 inodes of 64 bytes
(64 in a block) fits, and `mkfs` lays it out as superblock, one block of each
bitmap, 15 blocks of inodes and 8 data blocks. -/
theorem c23_layout_partitions_image_witness :
    ((26 : Nat) < 4294967296 ∧ (960 : Nat) < 4294967296 ∧
      1 + (960 / (A1FS_BLOCK_SIZE * 8) + if 960 % (A1FS_BLOCK_SIZE * 8) ≠ 0 then 1 else 0)
        + (960 / 64 + if 960 % 64 ≠ 0 then 1 else 0) ≤ 26) ∧
    layout (mkfs image0 (26 * A1FS_BLOCK_SIZE) 960 64).2 = (1, 2, 3, 18, 8) ∧
    (mkfs image0 (26 * A1FS_BLOCK_SIZE) 960 64).2.sb.s_first_data_block
      + (mkfs image0 (26 * A1FS_BLOCK_SIZE) 960 64).2.sb.data_block_count = 26 :=
  ⟨⟨by decide, by decide, by decide⟩, by decide!,
    (c23_layout_partitions_image image0 26 960 64 (by decide) (by decide) (by decide)).2.2.2.2.2.2.2⟩

/-- C24, at a failing input.  `mkfs` on the 4-block image `image_old` for 16
inodes returns true with `data_block_count = 1`, `s_free_blocks_count = 1` and
`s_free_inodes_count = 15`, inode-bitmap byte 0 equal to 128 and inode 0 the
empty root directory; but it reserves no data-bitmap block, its `memset` of
the data bitmap has length 0, and bit 0 of the data bitmap (read at block
`dblock_bitmap`) is 1 afterwards, although the one data block is free. -/
theorem c24_data_bitmap_not_cleared :
    (mkfs image_old (4 * A1FS_BLOCK_SIZE) 16 64).1 = true ∧
    (fs_four.sb.data_block_count, fs_four.sb.s_free_blocks_count,
      fs_four.sb.s_free_inodes_count) = (1, 1, 15) ∧
    (fs_four.sb.dblock_bitmap, fs_four.sb.inode_bitmap) = (1, 1) ∧
    fs_four.ibitmap 0 = 128 ∧
    ((fs_four.itable 0).mode, (fs_four.itable 0).links, (fs_four.itable 0).size,
      (fs_four.itable 0).count_extent, (fs_four.itable 0).indirect_block)
      = (S_IFDIR ||| 511, 2, 0, 0, -1) ∧
    bitmap_bit fs_four.dbitmap 0 = true ∧
    count_zeros fs_four.dbitmap fs_four.sb.data_block_count = 0 := by
  decide!

/-- C25.  `mkfs` returns true for every image, size and inode count: no path
through it returns false.  In particular it returns true for an image of 2
blocks and 16 inodes of 64 bytes, where the superblock, the inode bitmap and
the inode table need 3 blocks. -/
theorem c25_mkfs_never_returns_false (image : fs_ctx) (size n_inodes inodes_per_block : Nat) :
    (mkfs image size n_inodes inodes_per_block).1 = true ∧
    (mkfs image0 (2 * A1FS_BLOCK_SIZE) 16 64).1 = true ∧
    2 < 1 + (16 / (A1FS_BLOCK_SIZE * 8) + 1) + (16 / 64 + 1) := by
  refine ⟨rfl, rfl, by decide⟩

/-! ## Truncation to the same size, names, offsets and runs -/

/-- C26, at a failing input.  In `fs_abc10` the record `b` of the root names
inode 2, an empty regular file, and `/a` is inode 1 with size 10.
`a1fs_truncate("/b", 0)`, a truncation of `/b` to the size it has, returns 0
and sets the size of inode 1 to 0: `lookup_inode` resolves `/b` to inode 1,
the inode of the first record of the root block.  The image is not the one
the call was made on. -/
theorem c26_truncate_same_size_changes_other_file :
    (record_ino fs_abc10 1 0, record_has_name fs_abc10 1 0 [97]) = (1, true) ∧
    (record_ino fs_abc10 1 1, record_has_name fs_abc10 1 1 [98]) = (2, true) ∧
    ((fs_abc10.itable 2).size, (fs_abc10.itable 2).mode &&& S_IFREG) = (0, S_IFREG) ∧
    (fs_abc10.itable 1).size = 10 ∧
    lookup_inode path_b fs_abc10 = Except.ok 1 ∧
    (a1fs_truncate path_b 0 fs_abc10).map
      (fun t => (t.1, (t.2.itable 1).size, (t.2.itable 2).size)) = some (0, 0, 0) ∧
    ¬ a1fs_truncate path_b 0 fs_abc10 = some (0, fs_abc10) := by
  refine ⟨by decide!, by decide!, by decide!, by decide!, by decide!, by decide!, fun h => ?_⟩
  have h1 : (a1fs_truncate path_b 0 fs_abc10).map (fun t => (t.2.itable 1).size)
      = some ((fs_abc10.itable 1).size) := by
    rw [h]
    rfl
  revert h1
  decide!

/-- C27, at a failing input.  The path `long_path` is 301 characters long,
below `A1FS_PATH_MAX`, and its one component has 300 characters, more than
`A1FS_NAME_MAX`; `a1fs_getattr` returns `-ENOENT` for it, on the empty image
`fs_fresh` and on `fs_a`, and not `-ENAMETOOLONG`. -/
theorem c27_long_component_gives_enoent :
    long_path.length = 301 ∧ long_path.length < A1FS_PATH_MAX ∧
    strtok_aux long_path [] = [List.replicate 300 120] ∧
    (List.replicate 300 120).length > A1FS_NAME_MAX ∧
    (a1fs_getattr long_path fs_fresh).map Prod.fst = some (-ENOENT) ∧
    (a1fs_getattr long_path fs_a).map Prod.fst = some (-ENOENT) ∧
    -ENOENT ≠ -ENAMETOOLONG := by
  decide!

/-- C28, at a failing input.  The file of inode 1 in `fs_a5000` has the two
extents `(3, 1)` and `(4, 1)`, so its logical blocks 0 and 1 are the data
blocks 3 and 4.  For offset 4096, byte 0 of logical block 1, `lookup_file`
returns the address of byte 0 of data block 3, the same address as for
offset 0; byte 0 of data block 4 is at another address. -/
theorem c28_offset_4096_maps_to_block_0 :
    (fs_a5000.itable 1).count_extent = 2 ∧
    (extent_start fs_a5000 (extent_table fs_a5000 (fs_a5000.itable 1)) 0,
      extent_count fs_a5000 (extent_table fs_a5000 (fs_a5000.itable 1)) 0) = (3, 1) ∧
    (extent_start fs_a5000 (extent_table fs_a5000 (fs_a5000.itable 1)) 1,
      extent_count fs_a5000 (extent_table fs_a5000 (fs_a5000.itable 1)) 1) = (4, 1) ∧
    lookup_file 1 4096 fs_a5000 = some (block_addr fs_a5000 3) ∧
    lookup_file 1 0 fs_a5000 = some (block_addr fs_a5000 3) ∧
    block_addr fs_a5000 4 ≠ block_addr fs_a5000 3 := by
  decide!

/-- C29, at a failing input.  `fs_a` has 8 data blocks, the blocks 0 and 1 in
use, 6 blocks free and the padding bits 8 to 15 of its bitmap 0.  Once block 2
is taken, a request for a run of 6 makes `iterate_data_bitmap` return the
extent `(3, 6)`, which ends at 9; `set_block` for 6 blocks on the file of
inode 1, which has no extent table yet, returns 0 and sets bit 8 of the block
bitmap. -/
theorem c29_run_leaves_bitmap :
    fs_a.sb.data_block_count = 8 ∧ fs_a.sb.s_free_blocks_count = 6 ∧
    fs_a.dbitmap 1 = 0 ∧
    iterate_data_bitmap (set_flip_block_bitmap 2 fs_a).dbitmap 6 fs_a = some (3, 6) ∧
    ¬ 3 + 6 ≤ fs_a.sb.data_block_count ∧
    (fs_a.itable 1).indirect_block = -1 ∧
    (set_block 1 6 fs_a).1 = 0 ∧
    bitmap_bit (set_block 1 6 fs_a).2.dbitmap 8 = true := by
  decide!

/-- C30, at a failing input.  In `fs_table511` the file of inode 1 has 511
extents and the two free data blocks 512 and 514 are not adjacent.
`set_block` for 2 blocks tests the table size once, on entry, and then appends
two extents: it returns 0 with `count_extent = 513`, and the record number 512,
the extent `(514, 1)`, is written at the start of data block 1, the block after
the extent table. -/
theorem c30_extent_table_overrun :
    ((fs_table511.itable 1).count_extent, (fs_table511.itable 1).indirect_block) = (511, 0) ∧
    fs_table511.sb.s_free_blocks_count = 2 ∧
    (bitmap_bit fs_table511.dbitmap 512, bitmap_bit fs_table511.dbitmap 513,
      bitmap_bit fs_table511.dbitmap 514, bitmap_bit fs_table511.dbitmap 515)
      = (false, true, false, true) ∧
    (set_block 1 2 fs_table511).1 = 0 ∧
    ((set_block 1 2 fs_table511).2.itable 1).count_extent = 513 ∧
    ¬ ((set_block 1 2 fs_table511).2.itable 1).count_extent
        ≤ A1FS_BLOCK_SIZE / sizeof_a1fs_extent ∧
    extent_table fs_table511 (fs_table511.itable 1) + sizeof_a1fs_extent * 512
      = block_addr fs_table511 1 ∧
    rd32 fs_table511.mem (block_addr fs_table511 1) = 0 ∧
    rd32 (set_block 1 2 fs_table511).2.mem (block_addr fs_table511 1) = 514 := by
  decide!

/-! ## The claims C31 to C34 -/

/-- C31, at a failing input.  `fs_a` has 8 data blocks, 6 of them free (the
bitmap has 6 zero bits and `s_free_blocks_count = 6`), and the file of inode 1
has no extent table.  `set_block` for 6 blocks returns 0, having taken block 2
for the extent table and appended the one extent `(3, 6)`, whose last block 8
is not a data block of the image; `s_free_blocks_count` is 4294967295
afterwards, not 6 less 7. -/
theorem c31_grow_more_than_free :
    (fs_a.sb.data_block_count, fs_a.sb.s_free_blocks_count, count_zeros fs_a.dbitmap 8)
      = (8, 6, 6) ∧
    ((fs_a.itable 1).indirect_block, (fs_a.itable 1).count_extent) = (-1, 0) ∧
    (set_block 1 6 fs_a).1 = 0 ∧
    (((set_block 1 6 fs_a).2.itable 1).indirect_block,
      ((set_block 1 6 fs_a).2.itable 1).count_extent) = (2, 1) ∧
    extent_at (set_block 1 6 fs_a).2 1 0 = (3, 6) ∧
    ¬ 3 + 6 ≤ fs_a.sb.data_block_count ∧
    (set_block 1 6 fs_a).2.sb.s_free_blocks_count = 4294967295 ∧
    ¬ (set_block 1 6 fs_a).2.sb.s_free_blocks_count + (6 + 1) = fs_a.sb.s_free_blocks_count := by
  decide!

/-! ## Freeing blocks: `unset_block` -/

theorem mem_drop_run (st m d p : Nat) :
    p ∈ ((List.range m).map (fun k => st + k)).drop d ↔ st + d ≤ p ∧ p < st + m := by
  rw [List.mem_drop_iff_getElem]
  simp only [List.length_map, List.length_range, List.getElem_map, List.getElem_range]
  constructor
  · rintro ⟨i, hi, rfl⟩
    omega
  · intro h
    exact ⟨p - st - d, by omega, by omega⟩

theorem bitmap_bit_unset_self (bm : Nat → Nat) (k : Nat) :
    bitmap_bit (upd bm (k / 8) (bm (k / 8) &&& (255 - (1 <<< (7 - k % 8))))) k = false := by
  rw [bitmap_bit_eq_testBit]
  simp only [upd, ↓reduceIte, Nat.testBit_and]
  have h : ∀ a : Fin 8, Nat.testBit (255 - (1 <<< a.val)) a.val = false := by decide
  have h1 := h ⟨7 - k % 8, by omega⟩
  simp only at h1
  rw [h1, Bool.and_false]

theorem unset_flip_bit (k p : Nat) (fs : fs_ctx) :
    bitmap_bit (unset_flip_block_bitmap k fs).dbitmap p = true ↔
      bitmap_bit fs.dbitmap p = true ∧ p ≠ k := by
  simp only [unset_flip_block_bitmap]
  by_cases h : p = k
  · subst h
    rw [bitmap_bit_unset_self]
    simp
  · rw [bitmap_bit_unset_other _ _ _ h]
    simp [h]

theorem unset_run_up_spec (n k : Nat) (fs : fs_ctx)
    (hfree : fs.sb.s_free_blocks_count + n < 4294967296) :
    (unset_run_up n k fs).mem = fs.mem ∧
    (unset_run_up n k fs).itable = fs.itable ∧
    (unset_run_up n k fs).sb.s_first_data_block = fs.sb.s_first_data_block ∧
    (unset_run_up n k fs).sb.s_free_blocks_count = fs.sb.s_free_blocks_count + n ∧
    ∀ p, bitmap_bit (unset_run_up n k fs).dbitmap p = true ↔
      bitmap_bit fs.dbitmap p = true ∧ ¬ (k ≤ p ∧ p < k + n) := by
  induction n generalizing k fs with
  | zero =>
    rw [unset_run_up]
    refine ⟨rfl, rfl, rfl, rfl, fun p => ?_⟩
    constructor
    · intro h
      exact ⟨h, by omega⟩
    · intro h
      exact h.1
  | succ n ih =>
    rw [unset_run_up]
    have hf : (unset_flip_block_bitmap k fs).sb.s_free_blocks_count
        = fs.sb.s_free_blocks_count + 1 := by
      simp only [unset_flip_block_bitmap, u32_inc]
      split_ifs <;> omega
    obtain ⟨h1, h2, h3, h4, h5⟩ := ih (k + 1) (unset_flip_block_bitmap k fs) (by omega)
    refine ⟨h1, h2, h3, by omega, fun p => ?_⟩
    rw [h5 p, unset_flip_bit]
    constructor
    · rintro ⟨⟨ha, hb⟩, hc⟩
      exact ⟨ha, by omega⟩
    · rintro ⟨ha, hb⟩
      exact ⟨⟨ha, by omega⟩, by omega⟩

theorem unset_run_down_spec (J : Nat) (n k : Nat) (fs : fs_ctx)
    (hfree : fs.sb.s_free_blocks_count + n < 4294967296)
    (hJ : k + n ≤ J + 1) :
    (unset_run_down (J : Int) n k fs).mem = fs.mem ∧
    (unset_run_down (J : Int) n k fs).itable = fs.itable ∧
    (unset_run_down (J : Int) n k fs).sb.s_first_data_block = fs.sb.s_first_data_block ∧
    (unset_run_down (J : Int) n k fs).sb.s_free_blocks_count = fs.sb.s_free_blocks_count + n ∧
    ∀ p, bitmap_bit (unset_run_down (J : Int) n k fs).dbitmap p = true ↔
      bitmap_bit fs.dbitmap p = true ∧ ¬ (J + 1 ≤ p + k + n ∧ p + k ≤ J) := by
  induction n generalizing k fs with
  | zero =>
    rw [unset_run_down]
    refine ⟨rfl, rfl, rfl, rfl, fun p => ?_⟩
    constructor
    · intro h
      exact ⟨h, by omega⟩
    · intro h
      exact h.1
  | succ n ih =>
    rw [unset_run_down]
    have hk : ((J : Int) - (k : Int)).toNat = J - k := by omega
    rw [hk]
    have hf : (unset_flip_block_bitmap (J - k) fs).sb.s_free_blocks_count
        = fs.sb.s_free_blocks_count + 1 := by
      simp only [unset_flip_block_bitmap, u32_inc]
      split_ifs <;> omega
    obtain ⟨h1, h2, h3, h4, h5⟩ :=
      ih (k + 1) (unset_flip_block_bitmap (J - k) fs) (by omega) (by omega)
    refine ⟨h1, h2, h3, by omega, fun p => ?_⟩
    rw [h5 p, unset_flip_bit]
    constructor
    · rintro ⟨⟨ha, hb⟩, hc⟩
      exact ⟨ha, by omega⟩
    · rintro ⟨ha, hb⟩
      exact ⟨⟨ha, by omega⟩, by omega⟩

theorem extent_list_congr (fs fs1 : fs_ctx) (tbl : Int) (n : Nat)
    (h : ∀ i : Nat, i < n →
      extent_start fs1 tbl (i : Int) = extent_start fs tbl (i : Int) ∧
      extent_count fs1 tbl (i : Int) = extent_count fs tbl (i : Int)) :
    extent_list fs1 tbl n = extent_list fs tbl n := by
  induction n with
  | zero => rfl
  | succ n ih =>
    rw [extent_list, extent_list, ih (fun i hi => h i (by omega)), (h n (by omega)).1,
      (h n (by omega)).2]

theorem extent_congr_mem (fs fs1 : fs_ctx) (tbl : Int) (i : Int) (h : fs1.mem = fs.mem) :
    extent_start fs1 tbl i = extent_start fs tbl i ∧
    extent_count fs1 tbl i = extent_count fs tbl i := by
  unfold extent_start extent_count
  rw [h]
  exact ⟨rfl, rfl⟩

theorem extent_list_succ (fs : fs_ctx) (tbl : Int) (c : Nat) :
    extent_list fs tbl (c + 1) = extent_list fs tbl c ++
      (List.range (extent_count fs tbl (c : Int))).map
        (fun k => extent_start fs tbl (c : Int) + k) := by
  rw [extent_list]

theorem mem_run (st m p : Nat) :
    p ∈ (List.range m).map (fun k => st + k) ↔ st ≤ p ∧ p < st + m := by
  have h0 := mem_drop_run st m 0 p
  simp only [List.drop_zero, add_zero] at h0
  exact h0

theorem unset_post_drop (ino : Nat) (tbl : Int) (c : Nat) (fs fs1 : fs_ctx)
    (htbl : extent_table fs (fs.itable ino) = tbl)
    (hm : fs1.mem = fs.mem)
    (hce : (fs1.itable ino).count_extent = c)
    (hib : (fs1.itable ino).indirect_block = (fs.itable ino).indirect_block)
    (hsb : fs1.sb.s_first_data_block = fs.sb.s_first_data_block)
    (hfr : fs1.sb.s_free_blocks_count
      = fs.sb.s_free_blocks_count + extent_count fs tbl (c : Int))
    (hbits : ∀ p : Nat, bitmap_bit fs1.dbitmap p = true ↔
      bitmap_bit fs.dbitmap p = true ∧
        ¬ (extent_start fs tbl (c : Int) ≤ p ∧
          p < extent_start fs tbl (c : Int) + extent_count fs tbl (c : Int))) :
    unset_block_post ino tbl (extent_count fs tbl (c : Int)) (c + 1) fs fs1 := by
  unfold unset_block_post
  have hlen : (extent_list fs tbl (c + 1)).length - extent_count fs tbl (c : Int)
      = (extent_list fs tbl c).length := by
    rw [extent_list_succ]
    simp only [List.length_append, List.length_map, List.length_range]
    omega
  rw [hlen, hce]
  refine ⟨?_, by omega, ?_, hfr, ?_, ?_⟩
  · refine Eq.trans ?_ htbl
    simp only [extent_table, block_addr, hsb, hib]
  · rw [extent_list_succ, List.take_left]
    exact extent_list_congr fs _ tbl c (fun k _ => extent_congr_mem fs _ tbl k hm)
  · intro p
    rw [extent_list_succ, List.drop_left, mem_run]
    exact hbits p
  · intro k _
    have h2 := extent_congr_mem fs fs1 tbl (k : Int) hm
    exact ⟨h2.1, le_of_eq h2.2, fun _ => h2.2⟩

theorem unset_post_shorten (ino : Nat) (tbl : Int) (n c : Nat) (fs fs1 : fs_ctx)
    (hc : (fs.itable ino).count_extent = c + 1)
    (htbl : extent_table fs (fs.itable ino) = tbl)
    (hfit : extent_start fs tbl (c : Int) + extent_count fs tbl (c : Int) ≤ 2147483648)
    (hn1 : 1 ≤ n) (h2 : n < extent_count fs tbl (c : Int))
    (hmem : fs1.mem = wr32 fs.mem (tbl + sizeof_a1fs_extent * (c : Int) + 4)
      (extent_count fs tbl (c : Int) - n))
    (hit : fs1.itable = fs.itable)
    (hsb : fs1.sb.s_first_data_block = fs.sb.s_first_data_block)
    (hfr : fs1.sb.s_free_blocks_count = fs.sb.s_free_blocks_count + n)
    (hbits : ∀ p : Nat, bitmap_bit fs1.dbitmap p = true ↔
      bitmap_bit fs.dbitmap p = true ∧
        ¬ (extent_start fs tbl (c : Int) + extent_count fs tbl (c : Int) - 1 + 1 ≤ p + 0 + n ∧
          p + 0 ≤ extent_start fs tbl (c : Int) + extent_count fs tbl (c : Int) - 1)) :
    unset_block_post ino tbl n (c + 1) fs fs1 := by
  have hrec : ∀ k : Nat, k < c →
      extent_start fs1 tbl (k : Int) = extent_start fs tbl (k : Int) ∧
      extent_count fs1 tbl (k : Int) = extent_count fs tbl (k : Int) := by
    intro k hk
    unfold extent_start extent_count
    rw [hmem]
    simp only [sizeof_a1fs_extent, Nat.cast_ofNat]
    rw [rd32_wr32_other _ _ _ _ (by omega), rd32_wr32_other _ _ _ _ (by omega)]
    exact ⟨rfl, rfl⟩
  have hst : extent_start fs1 tbl (c : Int) = extent_start fs tbl (c : Int) := by
    unfold extent_start
    rw [hmem]
    simp only [sizeof_a1fs_extent, Nat.cast_ofNat]
    rw [rd32_wr32_other _ _ _ _ (by omega)]
  have hct : extent_count fs1 tbl (c : Int) = extent_count fs tbl (c : Int) - n := by
    have hraw : extent_count fs1 tbl (c : Int) = rd32 fs1.mem (tbl + 8 * (c : Int) + 4) := by
      unfold extent_count
      simp only [sizeof_a1fs_extent, Nat.cast_ofNat]
    rw [hraw, hmem]
    simp only [sizeof_a1fs_extent, Nat.cast_ofNat]
    exact rd32_wr32_same _ _ _ (by omega)
  unfold unset_block_post
  rw [hit, hc]
  have hlen : (extent_list fs tbl (c + 1)).length - n
      = (extent_list fs tbl c).length + (extent_count fs tbl (c : Int) - n) := by
    rw [extent_list_succ]
    simp only [List.length_append, List.length_map, List.length_range]
    omega
  rw [hlen]
  refine ⟨?_, le_refl _, ?_, hfr, ?_, ?_⟩
  · refine Eq.trans ?_ htbl
    simp only [extent_table, block_addr, hsb]
  · rw [extent_list_succ fs1, extent_list_succ fs, List.take_append, hst, hct,
      extent_list_congr fs fs1 tbl c hrec, ← List.map_take, List.take_range,
      Nat.min_eq_left (Nat.sub_le _ _)]
  · intro p
    rw [extent_list_succ fs, List.drop_append, mem_drop_run, hbits p]
    constructor
    · rintro ⟨ha, hb⟩
      exact ⟨ha, by omega⟩
    · rintro ⟨ha, hb⟩
      exact ⟨ha, by omega⟩
  · intro k hk
    by_cases hkc : k < c
    · have h3 := hrec k hkc
      exact ⟨h3.1, le_of_eq h3.2, fun _ => h3.2⟩
    · have hke : k = c := by omega
      subst hke
      exact ⟨hst, by rw [hct]; exact Nat.sub_le _ _, fun h => by omega⟩

theorem unset_post_compose (ino : Nat) (tbl : Int) (n c : Nat) (fs fs2 fs1 : fs_ctx)
    (hm : fs2.mem = fs.mem)
    (hfr : fs2.sb.s_free_blocks_count
      = fs.sb.s_free_blocks_count + extent_count fs tbl (c : Int))
    (hbits : ∀ p : Nat, bitmap_bit fs2.dbitmap p = true ↔
      bitmap_bit fs.dbitmap p = true ∧
        ¬ (extent_start fs tbl (c : Int) ≤ p ∧
          p < extent_start fs tbl (c : Int) + extent_count fs tbl (c : Int)))
    (h3 : extent_count fs tbl (c : Int) < n)
    (hn : n ≤ (extent_list fs tbl c).length + extent_count fs tbl (c : Int))
    (hpost : unset_block_post ino tbl (n - extent_count fs tbl (c : Int)) c fs2 fs1) :
    unset_block_post ino tbl n (c + 1) fs fs1 := by
  have hL : extent_list fs2 tbl c = extent_list fs tbl c :=
    extent_list_congr fs fs2 tbl c (fun k _ => extent_congr_mem fs fs2 tbl k hm)
  unfold unset_block_post at hpost ⊢
  rw [hL] at hpost
  obtain ⟨p1, p2, p3, p4, p5, p6⟩ := hpost
  have hlen : (extent_list fs tbl (c + 1)).length - n
      = (extent_list fs tbl c).length - (n - extent_count fs tbl (c : Int)) := by
    rw [extent_list_succ]
    simp only [List.length_append, List.length_map, List.length_range]
    omega
  rw [hlen]
  refine ⟨p1, by omega, ?_, by omega, ?_, ?_⟩
  · rw [p3, extent_list_succ fs, List.take_append_of_le_length (Nat.sub_le _ _)]
  · intro p
    rw [p5 p, hbits p, extent_list_succ fs, List.drop_append_of_le_length (Nat.sub_le _ _),
      List.mem_append, mem_run]
    constructor
    · rintro ⟨⟨ha, hb⟩, hc⟩
      exact ⟨ha, fun h => h.elim hc hb⟩
    · rintro ⟨ha, hb⟩
      exact ⟨⟨ha, fun h => hb (Or.inr h)⟩, fun h => hb (Or.inl h)⟩
  · intro k hk
    obtain ⟨q1, q2, q3⟩ := p6 k hk
    have h4 := extent_congr_mem fs fs2 tbl (k : Int) hm
    exact ⟨by rw [q1, h4.1], by rw [← h4.2]; exact q2, fun h => by rw [q3 h, h4.2]⟩

theorem unset_block_loop_spec (ino : Nat) (tbl : Int) (fuel : Nat) :
    ∀ (n c : Nat) (fs : fs_ctx) (i j : Int),
    (fs.itable ino).count_extent = c →
    extent_table fs (fs.itable ino) = tbl →
    c < 2147483648 →
    (∀ k : Nat, k < c → 1 ≤ extent_count fs tbl (k : Int) ∧
      extent_start fs tbl (k : Int) + extent_count fs tbl (k : Int) ≤ 2147483648) →
    1 ≤ n → n ≤ (extent_list fs tbl c).length → n ≤ fuel →
    fs.sb.s_free_blocks_count + n < 4294967296 →
    i = (c : Int) →
    j = int32 ((extent_start fs tbl (i - 1) : Int) + extent_count fs tbl (i - 1) - 1) →
    ∃ fs1 : fs_ctx, unset_block_loop ino fuel n i j fs = some fs1 ∧
      unset_block_post ino tbl n c fs fs1 := by
  induction fuel with
  | zero =>
    intro n c fs i j _ _ _ _ hn1 _ hfuel
    omega
  | succ fuel ih =>
    intro n c fs i j hc htbl hcs hext hn1 hn hfuel hfree hi hj
    cases c with
    | zero =>
      rw [extent_list] at hn
      simp only [List.length_nil] at hn
      omega
    | succ c =>
      have hidx : i - 1 = (c : Int) := by
        rw [hi]
        push_cast
        omega
      rw [hidx] at hj
      obtain ⟨hpos, hfit⟩ := hext c (by omega)
      rw [extent_list_succ] at hn
      simp only [List.length_append, List.length_map, List.length_range] at hn
      have hdec : u32_dec (fs.itable ino).count_extent = c := by
        rw [hc]
        simp [u32_dec]
      rw [unset_block_loop]
      simp only [gt_iff_lt, show 0 < n by omega, ↓reduceIte, htbl, hidx]
      by_cases h1 : n = extent_count fs tbl (c : Int)
      · rw [if_pos h1]
        obtain ⟨hm, hit, hsb, hfr, hbits⟩ :=
          unset_run_up_spec (extent_count fs tbl (c : Int)) (extent_start fs tbl (c : Int)) fs
            (by omega)
        refine ⟨_, rfl, ?_⟩
        rw [h1]
        exact unset_post_drop ino tbl c fs _ htbl hm (by simp only [upd_same, hdec])
          (by simp only [upd_same]) hsb hfr hbits
      · rw [if_neg h1]
        by_cases h2 : n < extent_count fs tbl (c : Int)
        · rw [if_pos h2]
          have hjJ : j = ((extent_start fs tbl (c : Int) + extent_count fs tbl (c : Int) - 1 : Nat)
              : Int) := by
            rw [hj]
            have h3 : ((extent_start fs tbl (c : Int) : Int) + extent_count fs tbl (c : Int) - 1)
                = ((extent_start fs tbl (c : Int) + extent_count fs tbl (c : Int) - 1 : Nat)
                  : Int) := by omega
            rw [h3]
            exact int32_of_small _ (by omega)
          rw [hjJ]
          obtain ⟨hm2, hit2, hsb2, hfr2, hbits2⟩ :=
            unset_run_down_spec
              (extent_start fs tbl (c : Int) + extent_count fs tbl (c : Int) - 1) n 0 fs
              (by omega) (by omega)
          refine ⟨_, rfl, ?_⟩
          exact unset_post_shorten ino tbl n c fs _ hc htbl hfit hn1 h2
            (by simp only [hm2]) hit2 hsb2 hfr2 hbits2
        · rw [if_neg h2]
          obtain ⟨hm, hit, hsb, hfr, hbits⟩ :=
            unset_run_up_spec (extent_count fs tbl (c : Int)) (extent_start fs tbl (c : Int)) fs
              (by omega)
          generalize unset_run_up (extent_count fs tbl (c : Int)) (extent_start fs tbl (c : Int))
            fs = U at hm hit hsb hfr hbits ⊢
          obtain ⟨fs2, hfs2⟩ : ∃ x : fs_ctx, x =
              { U with
                itable := upd U.itable ino
                  { fs.itable ino with count_extent := u32_dec (fs.itable ino).count_extent } } :=
            ⟨_, rfl⟩
          rw [← hfs2]
          have hm2 : fs2.mem = fs.mem := by
            rw [hfs2]
            exact hm
          have hfr2 : fs2.sb.s_free_blocks_count
              = fs.sb.s_free_blocks_count + extent_count fs tbl (c : Int) := by
            rw [hfs2]
            exact hfr
          have hbits2 : ∀ p : Nat, bitmap_bit fs2.dbitmap p = true ↔
              bitmap_bit fs.dbitmap p = true ∧
                ¬ (extent_start fs tbl (c : Int) ≤ p ∧
                  p < extent_start fs tbl (c : Int) + extent_count fs tbl (c : Int)) := by
            rw [hfs2]
            exact hbits
          have hce2 : (fs2.itable ino).count_extent = c := by
            rw [hfs2]
            simp only [upd_same, hdec]
          have htbl2 : extent_table fs2 (fs2.itable ino) = tbl := by
            refine Eq.trans ?_ htbl
            rw [hfs2]
            simp only [extent_table, block_addr, hsb, upd_same]
          have hstep := ih (n - extent_count fs tbl (c : Int)) c fs2
            (int32 ((u32_dec (fs.itable ino).count_extent : Nat) : Int)) _
            hce2 htbl2 (by omega)
            (fun k hk => by
              have h4 := extent_congr_mem fs fs2 tbl (k : Int) hm2
              rw [h4.1, h4.2]
              exact hext k (by omega))
            (by omega)
            (by
              rw [extent_list_congr fs fs2 tbl c (fun k _ => extent_congr_mem fs fs2 tbl k hm2)]
              omega)
            (by omega)
            (by
              rw [hfr2]
              omega)
            (by
              rw [hdec]
              exact int32_of_small _ (by omega))
            rfl
          obtain ⟨fs1, hrun, hpost⟩ := hstep
          refine ⟨fs1, hrun, ?_⟩
          exact unset_post_compose ino tbl n c fs fs2 fs1 hm2 hfr2 hbits2 (by omega) hn hpost

/-- C32.  For every image and inode whose extents all have a positive length
and block numbers that fit an `int`, and every `n` from 1 to the number `T` of
blocks in the extents (with `s_free_blocks_count + n` below 2^32):
`unset_block(inode, n)` returns 0; the blocks of the extents left are the
first `T - n` blocks of the old list in logical order; `s_free_blocks_count`
has grown by `n`; a bit of the block bitmap is set afterwards exactly when it
was set before and its block is not among the last `n`; no extent is added,
every extent left starts where it did, and all but the last one left keep
their length. -/
theorem c32_unset_block_postcondition (ino n : Nat) (fs : fs_ctx)
    (hce : (fs.itable ino).count_extent < 2147483648)
    (hext : ∀ i : Nat, i < (fs.itable ino).count_extent →
      1 ≤ extent_count fs (extent_table fs (fs.itable ino)) (i : Int) ∧
      extent_start fs (extent_table fs (fs.itable ino)) (i : Int)
        + extent_count fs (extent_table fs (fs.itable ino)) (i : Int) ≤ 2147483648)
    (hn1 : 1 ≤ n) (hn : n ≤ (inode_blocks fs ino).length)
    (hfree : fs.sb.s_free_blocks_count + n < 4294967296) :
    ∃ fs1 : fs_ctx, unset_block ino n fs = some (0, fs1) ∧
      inode_blocks fs1 ino
        = (inode_blocks fs ino).take ((inode_blocks fs ino).length - n) ∧
      fs1.sb.s_free_blocks_count = fs.sb.s_free_blocks_count + n ∧
      (∀ p : Nat, bitmap_bit fs1.dbitmap p = true ↔
        bitmap_bit fs.dbitmap p = true ∧
          p ∉ (inode_blocks fs ino).drop ((inode_blocks fs ino).length - n)) ∧
      (fs1.itable ino).count_extent ≤ (fs.itable ino).count_extent ∧
      ∀ i : Nat, i < (fs1.itable ino).count_extent →
        (extent_at fs1 ino i).1 = (extent_at fs ino i).1 ∧
        (extent_at fs1 ino i).2 ≤ (extent_at fs ino i).2 ∧
        (i + 1 < (fs1.itable ino).count_extent → extent_at fs1 ino i = extent_at fs ino i) := by
  obtain ⟨fs1, hrun, hpost⟩ :=
    unset_block_loop_spec ino (extent_table fs (fs.itable ino))
      ((fs.itable ino).count_extent + n) n
      (fs.itable ino).count_extent fs (int32 (fs.itable ino).count_extent)
      (int32 ((extent_start fs (extent_table fs (fs.itable ino))
          (int32 (fs.itable ino).count_extent - 1) : Int)
        + extent_count fs (extent_table fs (fs.itable ino))
          (int32 (fs.itable ino).count_extent - 1) - 1))
      rfl rfl hce hext hn1 hn (Nat.le_add_left n _) hfree (int32_of_small _ hce) rfl
  refine ⟨fs1, ?_, ?_⟩
  · unfold unset_block
    simp only [hrun]
  · obtain ⟨p1, p2, p3, p4, p5, p6⟩ := hpost
    unfold inode_blocks extent_at
    rw [p1]
    refine ⟨p3, p4, p5, p2, ?_⟩
    intro i hi
    obtain ⟨q1, q2, q3⟩ := p6 i hi
    exact ⟨q1, q2, fun h => by rw [q1, q3 h]⟩

/-- Witness of C32: in `fs_two_extents` the file of inode 1 has the extents
`(3, 3)` and `(6, 1)`, that is the blocks 3, 4, 5, 6; `unset_block` for 2
blocks returns 0 and leaves the one extent `(3, 2)`. -/
theorem c32_unset_block_postcondition_witness :
    ((fs_two_extents.itable 1).count_extent < 2147483648 ∧
      (∀ i : Nat, i < (fs_two_extents.itable 1).count_extent →
        1 ≤ extent_count fs_two_extents
          (extent_table fs_two_extents (fs_two_extents.itable 1)) (i : Int) ∧
        extent_start fs_two_extents
            (extent_table fs_two_extents (fs_two_extents.itable 1)) (i : Int)
          + extent_count fs_two_extents
            (extent_table fs_two_extents (fs_two_extents.itable 1)) (i : Int) ≤ 2147483648) ∧
      1 ≤ 2 ∧ 2 ≤ (inode_blocks fs_two_extents 1).length ∧
      fs_two_extents.sb.s_free_blocks_count + 2 < 4294967296) ∧
    inode_blocks fs_two_extents 1 = [3, 4, 5, 6] ∧
    (unset_block 1 2 fs_two_extents).map Prod.fst = some 0 ∧
    inode_blocks (image_of (unset_block 1 2 fs_two_extents)) 1 = [3, 4] ∧
    extent_at (image_of (unset_block 1 2 fs_two_extents)) 1 0 = (3, 2) ∧
    ∃ fs1 : fs_ctx, unset_block 1 2 fs_two_extents = some (0, fs1) ∧
      inode_blocks fs1 1
        = (inode_blocks fs_two_extents 1).take ((inode_blocks fs_two_extents 1).length - 2) ∧
      fs1.sb.s_free_blocks_count = fs_two_extents.sb.s_free_blocks_count + 2 ∧
      (∀ p : Nat, bitmap_bit fs1.dbitmap p = true ↔
        bitmap_bit fs_two_extents.dbitmap p = true ∧
          p ∉ (inode_blocks fs_two_extents 1).drop ((inode_blocks fs_two_extents 1).length - 2)) ∧
      (fs1.itable 1).count_extent ≤ (fs_two_extents.itable 1).count_extent ∧
      ∀ i : Nat, i < (fs1.itable 1).count_extent →
        (extent_at fs1 1 i).1 = (extent_at fs_two_extents 1 i).1 ∧
        (extent_at fs1 1 i).2 ≤ (extent_at fs_two_extents 1 i).2 ∧
        (i + 1 < (fs1.itable 1).count_extent → extent_at fs1 1 i = extent_at fs_two_extents 1 i) :=
  ⟨⟨by decide!, by decide!, by decide, by decide!, by decide!⟩, by decide!, by decide!,
    by decide!, by decide!,
    c32_unset_block_postcondition 1 2 fs_two_extents (by decide!) (by decide!) (by decide)
      (by decide!) (by decide!)⟩

/-- C33, at a failing input.  In `fs_two_tables` the extents of the inodes 1
and 2 are one-block extents on distinct blocks, every block in use is marked
and the blocks 514 and 516 are free.  `set_block` for 2 blocks on inode 1
(511 extents) returns 0 and appends `(514, 1)` and `(516, 1)`; the second one
is record 512, which lies in data block 1, the extent table of inode 2.
Afterwards record 0 of inode 2 is `(516, 1)` instead of `(513, 1)`: block 516
is in an extent of inode 1 and in one of inode 2. -/
theorem c33_block_in_two_extents :
    (List.range 511).all (fun i => extent_at fs_two_tables 1 i == (i + 2, 1)) = true ∧
    ((fs_two_tables.itable 1).indirect_block, (fs_two_tables.itable 1).count_extent) = (0, 511) ∧
    ((fs_two_tables.itable 2).indirect_block, (fs_two_tables.itable 2).count_extent) = (1, 2) ∧
    (extent_at fs_two_tables 2 0, extent_at fs_two_tables 2 1) = ((513, 1), (515, 1)) ∧
    (List.range fs_two_tables.sb.data_block_count).filter
      (fun k => !bitmap_bit fs_two_tables.dbitmap k) = [514, 516] ∧
    (set_block 1 2 fs_two_tables).1 = 0 ∧
    ((set_block 1 2 fs_two_tables).2.itable 1).count_extent = 513 ∧
    (extent_at (set_block 1 2 fs_two_tables).2 1 511,
      extent_at (set_block 1 2 fs_two_tables).2 1 512) = ((514, 1), (516, 1)) ∧
    ((set_block 1 2 fs_two_tables).2.itable 2).count_extent = 2 ∧
    (extent_at (set_block 1 2 fs_two_tables).2 2 0,
      extent_at (set_block 1 2 fs_two_tables).2 2 1) = ((516, 1), (515, 1)) := by
  decide!

/-! ## The record that `add_dentry` appends -/

theorem extent_list_one (fs : fs_ctx) (tbl : Int) (n : Nat)
    (h : ∀ i : Nat, i < n → extent_count fs tbl (i : Int) = 1) :
    extent_list fs tbl n = (List.range n).map (fun i : Nat => extent_start fs tbl (i : Int)) := by
  induction n with
  | zero => rfl
  | succ n ih =>
    rw [extent_list_succ, ih (fun i hi => h i (by omega)), h n (by omega)]
    simp only [List.range_succ, List.range_zero, List.map_append, List.map_cons, List.map_nil,
      List.nil_append, add_zero]

theorem stream_addr_one (dp b : Nat) (fs : fs_ctx) (o : Nat)
    (ht : dir_table fs (fs.itable dp) b)
    (ho : o / A1FS_BLOCK_SIZE < (fs.itable dp).count_extent) :
    stream_addr fs dp o = some (block_addr fs
      (extent_start fs (block_addr fs b) ((o / A1FS_BLOCK_SIZE : Nat) : Int) : Int)
      + ((o % A1FS_BLOCK_SIZE : Nat) : Int)) := by
  unfold stream_addr inode_blocks
  have htbl : extent_table fs (fs.itable dp) = block_addr fs b := by
    unfold extent_table
    rw [ht.1]
  rw [htbl, extent_list_one fs _ _ (fun i hi => (ht.2.2 i hi).1)]
  simp only [List.getElem?_map, List.getElem?_range ho, Option.map_some']

theorem strcmp_strcpy (name : List Nat) (m : Int → Nat) (p : Int)
    (h : ∀ c ∈ name, 0 < c ∧ c < 256) : strcmp_eq (strcpy m p name) p name = true := by
  induction name generalizing m p with
  | nil =>
    rw [strcpy, strcmp_eq]
    simp [wr8]
  | cons c cs ih =>
    rw [strcpy, strcmp_eq, ih (wr8 m p c) (p + 1) (fun x hx => h x (List.mem_cons_of_mem c hx)),
      strcpy_other cs _ _ p (by omega)]
    have hc := (h c (List.mem_cons_self c cs)).2
    simp only [wr8, ↓reduceIte, Nat.mod_eq_of_lt hc, beq_self_eq_true, Bool.and_self]

theorem set_block_loop_one_frame (dp b : Nat) (fs fs1 : fs_ctx)
    (ht : dir_table fs (fs.itable dp) b)
    (hce : (fs.itable dp).count_extent < 512)
    (hdbc : fs.sb.data_block_count + 8 ≤ 2147483648)
    (h : set_block_loop dp 1 1 fs = (0, fs1)) :
    fs1.sb.s_first_data_block = fs.sb.s_first_data_block ∧
    (∀ k : Nat, (fs1.itable k).inode_num = (fs.itable k).inode_num) ∧
    (∀ i : Nat, i < (fs.itable dp).count_extent →
      extent_start fs1 (block_addr fs1 b) (i : Int) = extent_start fs (block_addr fs b) (i : Int)) ∧
    ∃ s : Nat, extent_start fs1 (block_addr fs1 b) ((fs.itable dp).count_extent : Int) = s ∧
      bitmap_bit fs.dbitmap s = false ∧
      ∀ x : Int, (x < block_addr fs s ∨ block_addr fs s + 4096 ≤ x) →
        (x < block_addr fs b ∨ block_addr fs b + 4096 ≤ x) → fs1.mem x = fs.mem x := by
  rw [set_block_loop] at h
  simp only [gt_iff_lt, zero_lt_one, ↓reduceIte, Int.toNat_one] at h
  cases hit : iterate_data_bitmap fs.dbitmap 1 fs with
  | none =>
    rw [hit] at h
    simp at h
  | some e =>
    obtain ⟨s, c⟩ := e
    obtain ⟨hc, hbit, hs⟩ := iterate_data_bitmap_one _ _ _ _ hit
    subst hc
    rw [hit] at h
    simp only [set_block_loop, set_block_run, Prod.mk.injEq, true_and] at h
    subst h
    obtain ⟨hib, hbb, hext⟩ := ht
    refine ⟨?_, ?_, ?_, s, ?_, hbit, ?_⟩
    · simp only [set_flip_block_bitmap]
    · intro k
      simp only [set_flip_block_bitmap, upd]
      split_ifs with hk
      · rw [hk]
      · rfl
    · intro i hi
      simp only [set_flip_block_bitmap, extent_table, block_addr, extent_start,
        hib, A1FS_BLOCK_SIZE, sizeof_a1fs_extent, Nat.cast_ofNat]
      have hne : s ≠ b := by
        intro he
        rw [he, hbb] at hbit
        exact absurd hbit (by decide)
      rw [rd32_wr32_other _ _ _ _ (by omega), rd32_wr32_other _ _ _ _ (by omega),
        rd32_memset0_other _ _ _ _ (by omega)]
    · simp only [set_flip_block_bitmap, extent_table, block_addr, extent_start,
        hib, A1FS_BLOCK_SIZE, sizeof_a1fs_extent, Nat.cast_ofNat]
      rw [rd32_wr32_other _ _ _ _ (by omega), rd32_wr32_same _ _ _ (by omega)]
    · intro x hx1 hx2
      simp only [set_flip_block_bitmap, extent_table, block_addr, hib, A1FS_BLOCK_SIZE,
        sizeof_a1fs_extent, Nat.cast_ofNat] at hx1 hx2 ⊢
      rw [wr32_other _ _ _ x (by omega), wr32_other _ _ _ x (by omega),
        memset0_other _ _ _ x (by omega)]

theorem set_block_run_fdb (n i : Nat) (fs : fs_ctx) :
    (set_block_run n i fs).sb.s_first_data_block = fs.sb.s_first_data_block := by
  induction n generalizing i fs with
  | zero => rfl
  | succ n ih =>
    rw [set_block_run, ih]
    rfl

theorem set_block_loop_keep (ino fuel : Nat) (nb : Int) (fs : fs_ctx) :
    (set_block_loop ino fuel nb fs).2.sb.s_first_data_block = fs.sb.s_first_data_block ∧
    ∀ k : Nat, ((set_block_loop ino fuel nb fs).2.itable k).inode_num
      = (fs.itable k).inode_num := by
  induction fuel generalizing nb fs with
  | zero => exact ⟨rfl, fun _ => rfl⟩
  | succ fuel ih =>
    unfold set_block_loop
    split
    · split
      · exact ⟨rfl, fun _ => rfl⟩
      · rename_i start count _
        refine ⟨?_, fun k => ?_⟩
        · rw [(ih _ _).1]
          exact set_block_run_fdb _ _ _
        · rw [(ih _ _).2 k]
          simp only [upd, set_block_run_itable]
          split_ifs with hk
          · rw [hk]
          · rfl
    · exact ⟨rfl, fun _ => rfl⟩

theorem set_block_keep (ino : Nat) (nb : Int) (fs : fs_ctx) :
    (set_block ino nb fs).2.sb.s_first_data_block = fs.sb.s_first_data_block ∧
    ∀ k : Nat, ((set_block ino nb fs).2.itable k).inode_num = (fs.itable k).inode_num := by
  unfold set_block
  simp only []
  split
  · exact ⟨rfl, fun _ => rfl⟩
  · split
    · exact ⟨rfl, fun _ => rfl⟩
    · split
      · exact ⟨rfl, fun _ => rfl⟩
      · split
        · split
          · exact ⟨rfl, fun _ => rfl⟩
          · refine ⟨?_, fun k => ?_⟩
            · rw [(set_block_loop_keep _ _ _ _).1]
              rfl
            · rw [(set_block_loop_keep _ _ _ _).2 k]
              simp only [upd, set_flip_block_bitmap]
              split_ifs with hk
              · rw [hk]
              · rfl
        · exact set_block_loop_keep _ _ _ _

theorem set_block_one_frame (dp b : Nat) (fs fs1 : fs_ctx)
    (ht : dir_table fs (fs.itable dp) b)
    (hce : (fs.itable dp).count_extent ≤ 512)
    (hdbc : fs.sb.data_block_count + 8 ≤ 2147483648)
    (h : set_block dp 1 fs = (0, fs1)) :
    dir_table fs1 (fs1.itable dp) b ∧
    (∀ i : Nat, i < (fs.itable dp).count_extent →
      extent_start fs1 (block_addr fs1 b) (i : Int) = extent_start fs (block_addr fs b) (i : Int)) ∧
    ∃ s : Nat, extent_start fs1 (block_addr fs1 b) ((fs.itable dp).count_extent : Int) = s ∧
      bitmap_bit fs.dbitmap s = false ∧
      ∀ x : Int, (x < block_addr fs s ∨ block_addr fs s + 4096 ≤ x) →
        (x < block_addr fs b ∨ block_addr fs b + 4096 ≤ x) → fs1.mem x = fs.mem x := by
  unfold set_block at h
  simp only [] at h
  by_cases h1 : fs.sb.s_free_blocks_count = 0
  · simp only [h1, ↓reduceIte, Prod.mk.injEq] at h
    exact absurd h.1 (by decide)
  simp only [h1, ↓reduceIte] at h
  by_cases h2 : (1 : Int) > int32 fs.sb.s_free_blocks_count
  · simp only [h2, ↓reduceIte, Prod.mk.injEq] at h
    exact absurd h.1 (by decide)
  simp only [h2, ↓reduceIte] at h
  by_cases h3 : (fs.itable dp).count_extent = A1FS_BLOCK_SIZE / sizeof_a1fs_extent
  · simp only [h3, ↓reduceIte, Prod.mk.injEq] at h
    exact absurd h.1 (by decide)
  simp only [h3, ↓reduceIte] at h
  have h3a : (fs.itable dp).count_extent < 512 := by
    simp only [A1FS_BLOCK_SIZE, sizeof_a1fs_extent] at h3
    omega
  have h4 : (fs.itable dp).indirect_block ≠ -1 := by
    rw [ht.1]
    omega
  simp only [h4, ↓reduceIte, Int.toNat_one] at h
  have h5 := set_block_loop_one dp b fs fs1 ht h3a hdbc h
  have h6 := set_block_loop_one_frame dp b fs fs1 ht h3a hdbc h
  exact ⟨h5.1, h6.2.2.1, h6.2.2.2⟩

theorem add_dentry_step (dp : Nat) (fs : fs_ctx)
    (hinv : dir_inv dp fs)
    (hmark : ∀ i : Nat, i < (fs.itable dp).count_extent →
      bitmap_bit fs.dbitmap (extent_start fs (extent_table fs (fs.itable dp)) (i : Int)) = true)
    (hdist : ∀ j : Nat, j < (fs.itable dp).count_extent → ∀ i : Nat, i < j →
      extent_start fs (extent_table fs (fs.itable dp)) (i : Int)
        ≠ extent_start fs (extent_table fs (fs.itable dp)) (j : Int))
    (hr : (if (fs.itable dp).size % A1FS_BLOCK_SIZE = 0 then set_block dp 1 fs
      else (0, fs)).1 = 0) :
    ∃ (fs1 : fs_ctx) (b : Nat),
      (if (fs.itable dp).size % A1FS_BLOCK_SIZE = 0 then set_block dp 1 fs else (0, fs))
        = (0, fs1) ∧
      dir_table fs1 (fs1.itable dp) b ∧
      (fs1.itable dp).size = (fs.itable dp).size ∧
      (fs1.itable dp).count_extent = (fs.itable dp).count_extent
        + (if (fs.itable dp).size % A1FS_BLOCK_SIZE = 0 then 1 else 0) ∧
      fs1.sb.s_first_data_block = fs.sb.s_first_data_block ∧
      (∀ k : Nat, (fs1.itable k).inode_num = (fs.itable k).inode_num) ∧
      (∀ i : Nat, i < (fs.itable dp).count_extent →
        extent_start fs1 (block_addr fs1 b) (i : Int)
          = extent_start fs (extent_table fs (fs.itable dp)) (i : Int) ∧
        ∀ x : Int,
          block_addr fs (extent_start fs (extent_table fs (fs.itable dp)) (i : Int)) ≤ x →
          x < block_addr fs (extent_start fs (extent_table fs (fs.itable dp)) (i : Int)) + 4096 →
          fs1.mem x = fs.mem x) ∧
      (∀ i : Nat, i + 1 < (fs1.itable dp).count_extent →
        extent_start fs1 (block_addr fs1 b) (i : Int)
          ≠ extent_start fs1 (block_addr fs1 b) (((fs1.itable dp).count_extent : Int) - 1)) := by
  obtain ⟨hrec, hle, hlt, hce, hdbc, ht⟩ := hinv
  simp only [A1FS_BLOCK_SIZE, sizeof_a1fs_dentry, sizeof_a1fs_extent, Nat.reduceDiv]
    at hrec hle hlt hce
  by_cases h0 : (fs.itable dp).size % A1FS_BLOCK_SIZE = 0
  · simp only [h0, ↓reduceIte] at hr ⊢
    have hr1 : set_block dp 1 fs = (0, (set_block dp 1 fs).2) := by
      rw [← hr]
    obtain ⟨hfdb, hnum⟩ := set_block_keep dp 1 fs
    obtain ⟨⟨b1, ht1⟩, hce1, _, hsz1, _⟩ := set_block_one dp fs _ ht hce hdbc hr1
    by_cases hz : (fs.itable dp).count_extent = 0
    · refine ⟨_, b1, hr1, ht1, hsz1, hce1, hfdb, hnum, ?_, ?_⟩
      · intro i hi
        omega
      · intro i hi
        rw [hce1, hz] at hi
        omega
    · rcases ht with ht | ⟨b, ht⟩
      · exact absurd ht.2 hz
      · obtain ⟨ht2, hold, s, hs, hsbit, hframe⟩ :=
          set_block_one_frame dp b fs _ ht hce hdbc hr1
        have htbl : extent_table fs (fs.itable dp) = block_addr fs b := by
          unfold extent_table
          rw [ht.1]
        rw [htbl] at hmark
        rw [htbl]
        have hne : ∀ i : Nat, i < (fs.itable dp).count_extent →
            extent_start fs (block_addr fs b) (i : Int) ≠ s := by
          intro i hi he
          have h1 := hmark i hi
          rw [he, hsbit] at h1
          exact absurd h1 (by decide)
        refine ⟨_, b, hr1, ht2, hsz1, hce1, hfdb, hnum, ?_, ?_⟩
        · intro i hi
          refine ⟨hold i hi, fun x hx1 hx2 => hframe x ?_ ?_⟩
          · have h1 := hne i hi
            generalize extent_start fs (block_addr fs b) (i : Int) = st at h1 hx1 hx2
            simp only [block_addr, A1FS_BLOCK_SIZE, Nat.cast_ofNat] at hx1 hx2 ⊢
            omega
          · have h1 := (ht.2.2 i hi).2.1
            generalize extent_start fs (block_addr fs b) (i : Int) = st at h1 hx1 hx2
            simp only [block_addr, A1FS_BLOCK_SIZE, Nat.cast_ofNat] at hx1 hx2 ⊢
            omega
        · intro i hi
          rw [hce1] at hi ⊢
          have hidx : (((fs.itable dp).count_extent + 1 : Nat) : Int) - 1
              = ((fs.itable dp).count_extent : Int) := by
            push_cast
            omega
          rw [hidx, hs, hold i (by omega)]
          exact hne i (by omega)
  · simp only [h0, ↓reduceIte, add_zero] at hr ⊢
    simp only [A1FS_BLOCK_SIZE] at h0
    rcases ht with ht | ⟨b, ht⟩
    · have := ht.2
      omega
    · have htbl : extent_table fs (fs.itable dp) = block_addr fs b := by
        unfold extent_table
        rw [ht.1]
      rw [htbl] at hdist
      rw [htbl]
      refine ⟨fs, b, rfl, ht, rfl, rfl, rfl, fun _ => rfl, ?_, ?_⟩
      · intro i _
        exact ⟨rfl, fun x _ _ => rfl⟩
      · intro i hi
        have h1 := hdist ((fs.itable dp).count_extent - 1) (by omega) i (by omega)
        have hidx : (((fs.itable dp).count_extent - 1 : Nat) : Int)
            = ((fs.itable dp).count_extent : Int) - 1 := by
          omega
        rw [hidx] at h1
        exact h1

/-- C34.  For every image and every directory `dp` in a state that
`add_dentry` and `rm_dentry` produce (`dir_inv`: size `s` a whole number of
records, `ceil(s / A1FS_BLOCK_SIZE)` one-block extents, extent table marked in
the block bitmap) whose data blocks are marked and distinct, every name of
non-NUL characters that fits the buffer of `add_dentry` and every target
inode `ino`: when `add_dentry` returns 0, the size of the directory is
`s + sizeof(a1fs_dentry)`; the record at offset `s` of the byte stream of the
directory holds the inode number of the target and the name; every byte at an
offset below `s` is at the same address as before and unchanged; and the
number of blocks in the extents has grown by 1 when `s` is a multiple of
`A1FS_BLOCK_SIZE` and is the same otherwise. -/
theorem c34_add_dentry_appends (dp ino : Nat) (name : List Nat) (fs : fs_ctx)
    (hinv : dir_inv dp fs)
    (hmark : ∀ i : Nat, i < (fs.itable dp).count_extent →
      bitmap_bit fs.dbitmap (extent_start fs (extent_table fs (fs.itable dp)) (i : Int)) = true)
    (hdist : ∀ j : Nat, j < (fs.itable dp).count_extent → ∀ i : Nat, i < j →
      extent_start fs (extent_table fs (fs.itable dp)) (i : Int)
        ≠ extent_start fs (extent_table fs (fs.itable dp)) (j : Int))
    (hname : name.length < A1FS_NAME_MAX)
    (hchars : ∀ c ∈ name, 0 < c ∧ c < 256)
    (hnum : (fs.itable ino).inode_num < 4294967296)
    (hret : (add_dentry dp name ino fs).1 = 0) :
    ((add_dentry dp name ino fs).2.itable dp).size = (fs.itable dp).size + sizeof_a1fs_dentry ∧
    (∃ a : Int, stream_addr (add_dentry dp name ino fs).2 dp (fs.itable dp).size = some a ∧
      rd32 (add_dentry dp name ino fs).2.mem a = (fs.itable ino).inode_num ∧
      strcmp_eq (add_dentry dp name ino fs).2.mem (a + 4) name = true) ∧
    (∀ o : Nat, o < (fs.itable dp).size →
      ∃ a : Int, stream_addr fs dp o = some a ∧
        stream_addr (add_dentry dp name ino fs).2 dp o = some a ∧
        (add_dentry dp name ino fs).2.mem a = fs.mem a) ∧
    extent_blocks (add_dentry dp name ino fs).2 ((add_dentry dp name ino fs).2.itable dp)
      = extent_blocks fs (fs.itable dp)
        + (if (fs.itable dp).size % A1FS_BLOCK_SIZE = 0 then 1 else 0) := by
  have hinv2 := add_dentry_inv dp ino name fs hinv hname hret
  have hr : (if (fs.itable dp).size % A1FS_BLOCK_SIZE = 0 then set_block dp 1 fs
      else (0, fs)).1 = 0 := by
    by_cases hr0 : (if (fs.itable dp).size % A1FS_BLOCK_SIZE = 0 then set_block dp 1 fs
      else (0, fs)).1 = 0
    · exact hr0
    · unfold add_dentry at hret
      simp only [ne_eq, hr0, not_false_eq_true, ↓reduceIte] at hret
      exact absurd hret (by decide)
  obtain ⟨fs1, b, hr1, htab, hsz, hce1, hfdb, hinum, hold, hlast⟩ :=
    add_dentry_step dp fs hinv hmark hdist hr
  have hinv0 := hinv
  obtain ⟨hrec, hle, hlt, hce, hdbc, ht⟩ := hinv
  simp only [A1FS_BLOCK_SIZE, sizeof_a1fs_dentry, sizeof_a1fs_extent, Nat.reduceDiv]
    at hrec hle hlt hce
  simp only [A1FS_NAME_MAX] at hname
  have hce1a : 1 ≤ (fs1.itable dp).count_extent ∧ (fs1.itable dp).count_extent ≤ 512 ∧
      (fs.itable dp).size / 4096 + 1 = (fs1.itable dp).count_extent ∧
      (fs.itable dp).size % 4096 + 256 ≤ 4096 := by
    rw [hce1]
    simp only [A1FS_BLOCK_SIZE]
    split_ifs with h0
    · have h3 := (set_block_one dp fs fs1 ht hce hdbc
        (by simpa only [A1FS_BLOCK_SIZE, h0, ↓reduceIte] using hr1)).2.2.1
      omega
    · omega
  obtain ⟨hone, h512, hq, hoff⟩ := hce1a
  obtain ⟨j, hlastb, hjb, hjst, _⟩ := last_block_eq fs1 (fs1.itable dp) b htab hone h512
  -- the image after the call
  obtain ⟨fs2, hfs2⟩ : ∃ x : fs_ctx, x = (add_dentry dp name ino fs).2 := ⟨_, rfl⟩
  rw [← hfs2] at hinv2 ⊢
  have hmem2 : fs2.mem = strcpy
      (wr32 fs1.mem (block_addr fs1 j + (((fs.itable dp).size % 4096 : Nat) : Int))
        (fs.itable ino).inode_num)
      (block_addr fs1 j + (((fs.itable dp).size % 4096 : Nat) : Int) + 4) name := by
    rw [hfs2]
    unfold add_dentry
    simp only [hr1, ne_eq, not_true_eq_false, ↓reduceIte, hlastb, hinum, A1FS_BLOCK_SIZE]
  have hsz2 : (fs2.itable dp).size = (fs.itable dp).size + 256 := by
    rw [hfs2]
    unfold add_dentry
    simp only [hr1, ne_eq, not_true_eq_false, ↓reduceIte, upd_same, hsz, sizeof_a1fs_dentry]
    exact u64_add_small _ _ (by omega)
  have hce2 : (fs2.itable dp).count_extent = (fs1.itable dp).count_extent := by
    rw [hfs2]
    unfold add_dentry
    simp only [hr1, ne_eq, not_true_eq_false, ↓reduceIte, upd_same]
  have hib2 : (fs2.itable dp).indirect_block = (b : Int) := by
    rw [hfs2]
    unfold add_dentry
    simp only [hr1, ne_eq, not_true_eq_false, ↓reduceIte, upd_same]
    exact htab.1
  have hfdb2 : fs2.sb.s_first_data_block = fs.sb.s_first_data_block := by
    rw [hfs2]
    unfold add_dentry
    simp only [hr1, ne_eq, not_true_eq_false, ↓reduceIte]
    exact hfdb
  have htab2 : dir_table fs2 (fs2.itable dp) b := by
    rcases hinv2.2.2.2.2.2 with h | ⟨b2, h⟩
    · have := h.1
      omega
    · have h1 := h.1
      have h2 : b2 = b := by omega
      rw [← h2]
      exact h
  have hba2 : ∀ k : Int, block_addr fs2 k = block_addr fs k := by
    intro k
    unfold block_addr
    rw [hfdb2]
  have hba1 : ∀ k : Int, block_addr fs1 k = block_addr fs k := by
    intro k
    unfold block_addr
    rw [hfdb]
  -- bytes outside the new record are those of `fs1`
  have hw : ∀ x : Int,
      (x < block_addr fs j + (((fs.itable dp).size % 4096 : Nat) : Int) ∨
        block_addr fs j + (((fs.itable dp).size % 4096 : Nat) : Int) + 256 ≤ x) →
      fs2.mem x = fs1.mem x := by
    intro x hx
    rw [hmem2, hba1]
    rw [strcpy_other name _ _ x (by omega), wr32_other _ _ _ x (by omega)]
  -- the extent table is outside the new record
  have hstart2 : ∀ i : Nat, i < (fs1.itable dp).count_extent →
      extent_start fs2 (block_addr fs2 b) (i : Int) = extent_start fs1 (block_addr fs1 b) (i : Int) := by
    intro i hi
    unfold extent_start
    rw [hba2, hba1]
    apply rd32_congr
    intro x hx1 hx2
    apply hw
    simp only [block_addr, A1FS_BLOCK_SIZE, sizeof_a1fs_extent, Nat.cast_ofNat] at hx1 hx2 ⊢
    omega
  have hidx : (((fs.itable dp).size / 4096 : Nat) : Int)
      = ((fs1.itable dp).count_extent : Int) - 1 := by
    omega
  refine ⟨hsz2, ?_, ?_, ?_⟩
  · refine ⟨block_addr fs j + (((fs.itable dp).size % 4096 : Nat) : Int), ?_, ?_, ?_⟩
    · rw [stream_addr_one dp b fs2 _ htab2 (by rw [hce2]; simp only [A1FS_BLOCK_SIZE]; omega)]
      simp only [A1FS_BLOCK_SIZE]
      rw [hstart2 _ (by omega), hidx, hjst, hba2]
    · rw [hmem2, hba1, rd32_strcpy_other name _ _ _ (by omega), rd32_wr32_same _ _ _ hnum]
    · rw [hmem2, hba1]
      exact strcmp_strcpy name _ _ hchars
  · intro o ho
    have hoq : o / 4096 < (fs.itable dp).count_extent := by omega
    have ht0 : dir_table fs (fs.itable dp) (((fs.itable dp).indirect_block).toNat) := by
      rcases ht with h | ⟨b0, h⟩
      · have := h.2
        omega
      · have h1 := h.1
        have h2 : ((fs.itable dp).indirect_block).toNat = b0 := by omega
        rw [h2]
        exact h
    have htbl0 : extent_table fs (fs.itable dp)
        = block_addr fs ((((fs.itable dp).indirect_block).toNat : Nat) : Int) := by
      unfold extent_table
      rw [← ht0.1]
    rw [htbl0] at hold
    obtain ⟨ho1, ho2⟩ := hold (o / 4096) hoq
    refine ⟨block_addr fs (extent_start fs
        (block_addr fs ((((fs.itable dp).indirect_block).toNat : Nat) : Int))
        ((o / 4096 : Nat) : Int) : Int) + ((o % 4096 : Nat) : Int), ?_, ?_, ?_⟩
    · rw [stream_addr_one dp _ fs o ht0 (by simp only [A1FS_BLOCK_SIZE]; exact hoq)]
    · rw [stream_addr_one dp b fs2 o htab2 (by rw [hce2]; simp only [A1FS_BLOCK_SIZE]; omega)]
      simp only [A1FS_BLOCK_SIZE]
      rw [hstart2 _ (by omega), ho1, hba2]
    · have h3 : fs2.mem (block_addr fs (extent_start fs
            (block_addr fs ((((fs.itable dp).indirect_block).toNat : Nat) : Int))
            ((o / 4096 : Nat) : Int) : Int) + ((o % 4096 : Nat) : Int))
          = fs1.mem (block_addr fs (extent_start fs
            (block_addr fs ((((fs.itable dp).indirect_block).toNat : Nat) : Int))
            ((o / 4096 : Nat) : Int) : Int) + ((o % 4096 : Nat) : Int)) := by
        apply hw
        by_cases hql : o / 4096 + 1 < (fs1.itable dp).count_extent
        · have h4 := hlast (o / 4096) hql
          rw [ho1, hjst] at h4
          generalize extent_start fs
            (block_addr fs ((((fs.itable dp).indirect_block).toNat : Nat) : Int))
            ((o / 4096 : Nat) : Int) = st at h4 ⊢
          simp only [block_addr, A1FS_BLOCK_SIZE, Nat.cast_ofNat]
          omega
        · have h4 : extent_start fs
              (block_addr fs ((((fs.itable dp).indirect_block).toNat : Nat) : Int))
              ((o / 4096 : Nat) : Int) = j := by
            rw [← ho1, ← hjst]
            have h5 : ((o / 4096 : Nat) : Int) = ((fs1.itable dp).count_extent : Int) - 1 := by
              omega
            rw [h5]
          rw [h4]
          simp only [block_addr, A1FS_BLOCK_SIZE, Nat.cast_ofNat]
          omega
      rw [h3]
      apply ho2
      · simp only [block_addr, A1FS_BLOCK_SIZE, Nat.cast_ofNat]
        omega
      · simp only [block_addr, A1FS_BLOCK_SIZE, Nat.cast_ofNat]
        omega
  · rw [extent_blocks_of_inv dp fs2 hinv2, extent_blocks_of_inv dp fs hinv0, hce2, hce1]

/-- Witness of C34: in `fs_a` the root directory (inode 0) has size 256, its
extent table in data block 0 and the one extent `(1, 1)`.  `add_dentry` of the
name `b` for inode 1 returns 0; the size is then 512 and the record at offset
256 holds inode number 1 and the name `b`. -/
theorem c34_add_dentry_appends_witness :
    (dir_inv 0 fs_a ∧
      (∀ i : Nat, i < (fs_a.itable 0).count_extent →
        bitmap_bit fs_a.dbitmap
          (extent_start fs_a (extent_table fs_a (fs_a.itable 0)) (i : Int)) = true) ∧
      (∀ j : Nat, j < (fs_a.itable 0).count_extent → ∀ i : Nat, i < j →
        extent_start fs_a (extent_table fs_a (fs_a.itable 0)) (i : Int)
          ≠ extent_start fs_a (extent_table fs_a (fs_a.itable 0)) (j : Int)) ∧
      [98].length < A1FS_NAME_MAX ∧ (∀ c ∈ [98], 0 < c ∧ c < 256) ∧
      (fs_a.itable 1).inode_num < 4294967296 ∧ (add_dentry 0 [98] 1 fs_a).1 = 0) ∧
    ((fs_a.itable 0).size, ((add_dentry 0 [98] 1 fs_a).2.itable 0).size) = (256, 512) ∧
    stream_addr (add_dentry 0 [98] 1 fs_a).2 0 256 = some (block_addr fs_a 1 + 256) ∧
    (((add_dentry 0 [98] 1 fs_a).2.itable 0).size = (fs_a.itable 0).size + sizeof_a1fs_dentry ∧
    (∃ a : Int, stream_addr (add_dentry 0 [98] 1 fs_a).2 0 (fs_a.itable 0).size = some a ∧
      rd32 (add_dentry 0 [98] 1 fs_a).2.mem a = (fs_a.itable 1).inode_num ∧
      strcmp_eq (add_dentry 0 [98] 1 fs_a).2.mem (a + 4) [98] = true) ∧
    (∀ o : Nat, o < (fs_a.itable 0).size →
      ∃ a : Int, stream_addr fs_a 0 o = some a ∧
        stream_addr (add_dentry 0 [98] 1 fs_a).2 0 o = some a ∧
        (add_dentry 0 [98] 1 fs_a).2.mem a = fs_a.mem a) ∧
    extent_blocks (add_dentry 0 [98] 1 fs_a).2 ((add_dentry 0 [98] 1 fs_a).2.itable 0)
      = extent_blocks fs_a (fs_a.itable 0)
        + (if (fs_a.itable 0).size % A1FS_BLOCK_SIZE = 0 then 1 else 0)) :=
  ⟨⟨⟨by decide!, by decide!, by decide!, by decide!, by decide!,
        Or.inr ⟨0, by decide!, by decide!, by decide!⟩⟩,
      by decide!, by decide!, by decide, by decide, by decide!, by decide!⟩,
    by decide!, by decide!,
    c34_add_dentry_appends 0 1 [98] fs_a
      ⟨by decide!, by decide!, by decide!, by decide!, by decide!,
        Or.inr ⟨0, by decide!, by decide!, by decide!⟩⟩
      (by decide!) (by decide!) (by decide) (by decide) (by decide!) (by decide!)⟩

end A1fs
